import Mathlib

/-!
# checkexport: unused exported declarations

A shallow embedding of `walker.go` and `main.go` of `twitchtv/checkexport`.

* The `go/types` and `go/ast` values the program consumes are modelled as plain
  data. Pointer identity (`==` on `types.Object`, `types.Type`, `*types.Package`)
  becomes structural equality on records that carry a `uid`.
* Go maps are modelled as duplicate-free lists of keys; the order in which a
  `range` statement enumerates a map is unspecified in Go, so every function
  that ranges over a map takes a `MapOrder`, an arbitrary enumeration of the
  key list.
* A run-time panic (indexing an empty slice, calling a method through a nil
  `*types.Package`) is modelled by `none`.
* Logging (`debugf`, `logf`) has no effect on the results and is left out, and
  with it the `position` callback of `useFinder`; `Visit(nil)`, which `ast.Walk`
  calls after the children of a node, returns nil without touching the state.
-/

namespace CheckExport

/-! ## Strings (`strings.HasPrefix`, `strings.HasSuffix`, `strings.Contains`) -/

/-- The standard function `strings.HasPrefix(s, p)`. -/
def hasPrefixStr (s p : String) : Bool := p.data.isPrefixOf s.data

/-- The standard function `strings.HasSuffix(s, p)`. -/
def hasSuffixStr (s p : String) : Bool := p.data.reverse.isPrefixOf s.data.reverse

/-- Substring test on character lists. -/
def containsChars (sub : List Char) : List Char → Bool
  | [] => sub.isEmpty
  | c :: cs => sub.isPrefixOf (c :: cs) || containsChars sub cs

/-- The standard function `strings.Contains(s, sub)`. -/
def containsStr (s sub : String) : Bool := containsChars sub.data s.data

/-! ## `go/types` -/

/-- A `*types.Package`: identity, import path and package name. -/
structure Package where
  uid : Nat
  path : String
  name : String
deriving DecidableEq, Repr

/-- A `types.Type`. Only the shapes the program inspects are distinguished:
`*types.Named` (with the name of its `Obj()`), `*types.Pointer` (with `Elem()`),
`*types.Signature` without a receiver (`Recv() == nil`), `*types.Signature`
with a receiver (carrying `Recv().Type()`), and every other type. -/
inductive GoType where
  | Named (uid : Nat) (objName : String)
  | Pointer (uid : Nat) (elem : GoType)
  | FuncSig (uid : Nat)
  | MethodSig (uid : Nat) (recvType : GoType)
  | Basic (uid : Nat)
deriving DecidableEq, Repr

/-- The dynamic type of a `types.Object`. -/
inductive ObjKind where
  | PkgName (imported : Package)
  | Const
  | Var (isField : Bool)
  | Func
  | TypeName
  | Label
deriving DecidableEq, Repr

/-- A `types.Object`. -/
structure Object where
  uid : Nat
  kind : ObjKind
  name : String
  pkg : Option Package
  typ : GoType
  pos : Nat
deriving DecidableEq, Repr

/-- The predicate `ast.IsExported(name)`: the first rune of the name satisfies
the standard predicate `unicode.IsUpper`, given as the parameter `isUpper`. -/
def isExported (isUpper : Char → Bool) (name : String) : Bool :=
  match name.data with
  | [] => false
  | c :: _ => isUpper c

/-- The predicate `unicode.IsUpper` on the ASCII characters, where it holds of
the letters `A` to `Z`; the examples, whose names are ASCII, are evaluated with it. -/
def isUpperASCII (c : Char) : Bool := c.isUpper

/-- The method `Object.Exported()`. -/
def Object.Exported (o : Object) (isUpper : Char → Bool) : Bool := isExported isUpper o.name

/-- The method `Object.Id()`: the bare name for an exported object, otherwise the
name qualified by the package path. -/
def Object.Id (o : Object) (isUpper : Char → Bool) : String :=
  if isExported isUpper o.name then o.name
  else
    (match o.pkg with
      | some p => if p.path = "" then "_" else p.path
      | none => "_") ++ "." ++ o.name

/-- An enumeration order for `range` over a map whose keys are objects: any
function that returns a permutation of the key list. -/
structure MapOrder where
  enum : List Object → List Object
  perm : ∀ l, (enum l).Perm l

/-- The enumeration that follows the stored key order. -/
def MapOrder.inOrder : MapOrder := ⟨fun l => l, fun l => List.Perm.refl l⟩

/-- The enumeration that reverses the stored key order. -/
def MapOrder.reversed : MapOrder := ⟨List.reverse, List.reverse_perm⟩

/-! ## Query state (`walker.go`) -/

/-- The struct `queryTarget`; `unfound` is the key set of the Go map. -/
structure queryTarget where
  all : List Object
  pkg : Option Package
  unfound : List Object
deriving DecidableEq, Repr

/-- The assignment `m[o] = true` on the key set of a map. -/
def mapInsert (m : List Object) (o : Object) : List Object :=
  if o ∈ m then m else m ++ [o]

/-- The constructor `newTarget`; `objs[0]` panics on an empty slice. -/
def newTarget (objs : List Object) : Option queryTarget :=
  match objs with
  | [] => none
  | o0 :: _ => some { all := objs, pkg := o0.pkg, unfound := objs.foldl mapInsert [] }

/-- The method `queryTarget.allFound`. -/
def queryTarget.allFound (t : queryTarget) : Bool := t.unfound.length == 0

/-- The method `queryTarget.isTarget`. -/
def queryTarget.isTarget (t : queryTarget) (o : Object) : Bool :=
  t.all.any (fun targetO => decide (o = targetO))

/-- The pointer loop of `discover`: starting from `ot`, while `ot` is a pointer
replace it by its element type and compare that with `tnType`. -/
def derefLoop (tnType : GoType) : GoType → Bool
  | .Pointer _ elem => if tnType = elem then true else derefLoop tnType elem
  | _ => false

/-- The body of the `for lookingFor := range t.unfound` loop of `discover`,
over the enumeration `order`; `unfound` is the map being mutated. -/
def discoverLoop (o : Object) (unfound : List Object) : List Object → Bool × List Object
  | [] => (false, unfound)
  | lookingFor :: rest =>
    if o = lookingFor then (true, unfound.erase o)
    else if lookingFor.kind = ObjKind.TypeName then
      if lookingFor.typ = o.typ then (true, unfound.erase lookingFor)
      else if derefLoop lookingFor.typ o.typ then (true, unfound.erase lookingFor)
      else discoverLoop o unfound rest
    else discoverLoop o unfound rest

/-- The method `queryTarget.discover`; a nil candidate is `none`. -/
def queryTarget.discover (ord : MapOrder) (t : queryTarget) (o : Option Object) :
    Bool × queryTarget :=
  match o with
  | none => (false, t)
  | some o =>
    let r := discoverLoop o t.unfound (ord.enum t.unfound)
    (r.1, { t with unfound := r.2 })

/-! ## `go/ast` and the type-checker tables -/

/-- An `*ast.Ident` node; `NamePos` stands for the node's identity. -/
structure Ident where
  NamePos : Nat
  Name : String
deriving DecidableEq, Repr

/-- An `*ast.ImportSpec`: the optional local name and the import path, i.e. the
result of `strconv.Unquote(spec.Path.Value)` (empty when unquoting fails). -/
structure ImportSpec where
  Name : Option Ident
  Path : String
deriving DecidableEq, Repr

/-- The syntax nodes, by the arms of the type switch in `useFinder.Visit`.
`Comment` stands for `*ast.Comment`, `*ast.CommentGroup` and `*ast.BadExpr`;
`Other` for `*ast.Field`, `*ast.FieldList` and every kind of the default arm,
with its children in the order `ast.Walk` visits them. -/
inductive Node where
  | File (Name : Ident) (Imports : List ImportSpec) (Decls : List Node)
  | ImportSpec (spec : ImportSpec)
  | SelectorExpr (X : Node) (Sel : Ident)
  | Ident (id : Ident)
  | Comment
  | Other (children : List Node)
deriving Repr

/-- The tables `Defs` and `Uses` of a `types.Info`. -/
structure Info where
  Defs : List (Ident × Option Object)
  Uses : List (Ident × Object)
deriving DecidableEq, Repr

/-- The method `Info.ObjectOf`: the definition if there is one, else the use. -/
def Info.ObjectOf (info : Info) (id : Ident) : Option Object :=
  match info.Defs.lookup id with
  | some (some obj) => some obj
  | _ => info.Uses.lookup id

/-- A `*loader.PackageInfo`. `Scope` lists the objects of `Pkg.Scope()`, the
package-level declarations; the program never consults it. -/
structure PackageInfo where
  Pkg : Package
  Files : List Node
  Info : Info
  Scope : List Object
deriving Repr

/-- A `*loader.Program`: the values of `AllPackages` in enumeration order. -/
structure Program where
  AllPackages : List PackageInfo
deriving Repr

/-! ## Reference walker (`walker.go`) -/

/-- The struct `useFinder` (without the `position` callback, used for logging only). -/
structure useFinder where
  target : queryTarget
  queryPkgLocalName : String
  skipVendor : Bool
  typeInfo : Info
deriving DecidableEq, Repr

/-- The method call `pkg.Path()` through a possibly nil `*types.Package`. -/
def pkgPath : Option Package → Option String
  | none => none
  | some p => some p.path

/-- The method call `pkg.Name()` through a possibly nil `*types.Package`. -/
def pkgName : Option Package → Option String
  | none => none
  | some p => some p.name

/-- The import loop of `visitFile`: does some import path equal the target path? -/
def importsTarget (tpkg : Option Package) : List ImportSpec → Option Bool
  | [] => some false
  | importSpec :: rest =>
    match pkgPath tpkg with
    | none => none
    | some tpath => if importSpec.Path = tpath then some true else importsTarget tpkg rest

/-- The method `useFinder.visitFile`. The Boolean tells whether a visitor is
returned (`true`) or nil (`false`). -/
def useFinder.visitFile (f : useFinder) (imports : List ImportSpec) :
    Option (useFinder × Bool) :=
  let f1 := { f with queryPkgLocalName := "" }
  match importsTarget f1.target.pkg imports with
  | none => none
  | some b => some (f1, b)

/-- The method `useFinder.visitImportSpec`. -/
def useFinder.visitImportSpec (f : useFinder) (spec : ImportSpec) :
    Option (useFinder × Bool) :=
  match pkgPath f.target.pkg with
  | none => none
  | some tpath =>
    if spec.Path = tpath then
      match spec.Name with
      | some nm => some ({ f with queryPkgLocalName := nm.Name }, false)
      | none =>
        match pkgName f.target.pkg with
        | none => none
        | some tname => some ({ f with queryPkgLocalName := tname }, false)
    else some (f, false)

/-- The method `useFinder.visitSelector`; the type switch on `rcvrObj` is a
match on the kind of the object, if there is one. -/
def useFinder.visitSelector (ord : MapOrder) (f : useFinder) (X : Node) (Sel : Ident) :
    useFinder × Bool :=
  match X with
  | .Ident rcvrIdent =>
    let rcvrObj := f.typeInfo.ObjectOf rcvrIdent
    let selObj := f.typeInfo.ObjectOf Sel
    match rcvrObj.map Object.kind with
    | some (.PkgName imported) =>
      if some imported = f.target.pkg then
        ({ f with target := (f.target.discover ord selObj).2 }, true)
      else (f, false)
    | some (.Var _) =>
      let t1 := (f.target.discover ord rcvrObj).2
      ({ f with target := (t1.discover ord selObj).2 }, false)
    | _ => ({ f with target := (f.target.discover ord selObj).2 }, false)
  | _ => (f, false)

/-- The method `useFinder.visitIdent`. -/
def useFinder.visitIdent (ord : MapOrder) (f : useFinder) (ident : Ident) :
    useFinder × Bool :=
  if f.queryPkgLocalName ≠ "." then (f, false)
  else ({ f with target := (f.target.discover ord (f.typeInfo.ObjectOf ident)).2 }, false)

/-- The method `useFinder.Visit`: the new state, and whether a visitor is returned. -/
def useFinder.Visit (ord : MapOrder) (f : useFinder) : Node → Option (useFinder × Bool)
  | .File _ imports _ => f.visitFile imports
  | .ImportSpec spec => f.visitImportSpec spec
  | .SelectorExpr x sel => some (f.visitSelector ord x sel)
  | .Ident id => some (f.visitIdent ord id)
  | .Comment => some (f, false)
  | .Other _ => some (f, true)

mutual
/-- The standard traversal `ast.Walk(f, node)`: visit the node and, when a
visitor is returned, walk the children in order. -/
def Walk (ord : MapOrder) (f : useFinder) (node : Node) : Option useFinder :=
  match f.Visit ord node with
  | none => none
  | some (f1, false) => some f1
  | some (f1, true) =>
    match node with
    | .File name _ decls =>
      match f1.Visit ord (.Ident name) with
      | none => none
      | some (f2, _) => WalkList ord f2 decls
    | .SelectorExpr x sel =>
      match Walk ord f1 x with
      | none => none
      | some f2 =>
        match f2.Visit ord (.Ident sel) with
        | none => none
        | some (f3, _) => some f3
    | .Other children => WalkList ord f1 children
    | _ => some f1
/-- Walking a list of children from left to right. -/
def WalkList (ord : MapOrder) (f : useFinder) (nodes : List Node) : Option useFinder :=
  match nodes with
  | [] => some f
  | n :: rest =>
    match Walk ord f n with
    | none => none
    | some f1 => WalkList ord f1 rest
end

/-- The inner loop of `findUnused` over the files of one package. The Boolean
tells whether `findUnused` returned from inside the loop. -/
def walkFiles (ord : MapOrder) (f : useFinder) : List Node → Option (useFinder × Bool)
  | [] => some (f, false)
  | file :: rest =>
    match Walk ord f file with
    | none => none
    | some f1 => if f1.target.allFound then some (f1, true) else walkFiles ord f1 rest

/-- The outer loop of `findUnused` over `prog.AllPackages`. -/
def walkPackages (ord : MapOrder) (f : useFinder) : List PackageInfo → Option (useFinder × Bool)
  | [] => some (f, false)
  | pkgInfo :: rest =>
    if some pkgInfo.Pkg = f.target.pkg then walkPackages ord f rest
    else if !containsStr pkgInfo.Pkg.path "." then walkPackages ord f rest
    else if f.skipVendor && containsStr pkgInfo.Pkg.path "vendor" then walkPackages ord f rest
    else
      match walkFiles ord { f with typeInfo := pkgInfo.Info } pkgInfo.Files with
      | none => none
      | some (f1, true) => some (f1, true)
      | some (f1, false) =>
        if f1.target.allFound then some (f1, true) else walkPackages ord f1 rest

/-- The function `findUnused`. An early `return` yields the (nil) named result;
otherwise the keys left in `unfound` are collected in enumeration order. -/
def findUnused (ord : MapOrder) (prog : Program) (targets : List Object) :
    Option (List Object) :=
  match newTarget targets with
  | none => none
  | some tgt =>
    let finder : useFinder :=
      { target := tgt, queryPkgLocalName := "", skipVendor := true, typeInfo := ⟨[], []⟩ }
    match walkPackages ord finder prog.AllPackages with
    | none => none
    | some (_, true) => some []
    | some (f1, false) => some (ord.enum f1.target.unfound)

/-! ## Target selection (`main.go`) -/

/-- A `token.Position`, as returned by `fset.Position`. -/
structure Position where
  Filename : String
  Line : Nat
deriving DecidableEq, Repr

/-- The position test inside the signature arm of `shouldCheckForUsage`. -/
def notInTestFile (o : Object) (finder : Nat → Position) : Bool :=
  if hasSuffixStr (finder o.pos).Filename "_test.go" then false else true

/-- The function `shouldCheckForUsage`. -/
def shouldCheckForUsage (isUpper : Char → Bool) (o : Object) (finder : Nat → Position) : Bool :=
  match o.typ with
  | .MethodSig _ recvrType =>
    if o.name = "Less" || o.name = "Swap" || o.name = "Len" then false
    else
      match recvrType with
      | .Named _ objName =>
        if !isExported isUpper objName then false else notInTestFile o finder
      | _ => false
  | .FuncSig _ => notInTestFile o finder
  | _ => true

/-- The function `filterExceptions`. -/
def filterExceptions (isUpper : Char → Bool) (objs : List Object)
    (finder : Nat → Position) : List Object :=
  objs.filter (fun o => shouldCheckForUsage isUpper o finder)

/-- The assignment `outSet[k] = v` on a map from strings to objects. -/
def mapSet (m : List (String × Object)) (k : String) (v : Object) : List (String × Object) :=
  match m with
  | [] => [(k, v)]
  | (k1, v1) :: rest => if k1 = k then (k, v) :: rest else (k1, v1) :: mapSet rest k v

/-- The kind switch of `exportedMembers`: is the object kept by the switch? -/
def keptKind : ObjKind → Bool
  | .Const => true
  | .Var isField => !isField
  | .Func => true
  | .TypeName => true
  | _ => false

/-- One iteration of the first loop of `exportedMembers`. -/
def exportedStep (isUpper : Char → Bool) (pkg : Package) (outSet : List (String × Object))
    (obj : Option Object) :
    List (String × Object) :=
  match obj with
  | none => outSet
  | some obj =>
    if obj.pkg = none then outSet
    else if !keptKind obj.kind then outSet
    else if obj.pkg ≠ some pkg then outSet
    else if hasPrefixStr obj.name "Test" then outSet
    else if (obj.Exported isUpper) then mapSet outSet (obj.Id isUpper) obj
    else outSet

/-- The function `exportedMembers`: `pkg.Defs` is ranged over in the order of
the list, the resulting map in the order given by `ord`. -/
def exportedMembers (isUpper : Char → Bool) (ord : MapOrder) (pkg : PackageInfo) : List Object :=
  ord.enum (((pkg.Info.Defs.map Prod.snd).foldl (exportedStep isUpper pkg.Pkg) []).map Prod.snd)

/-- Does candidate `o` match the unfound declaration `lookingFor` in one
iteration of `discover`: by identity, or, for a type declaration, by type. -/
def matchesTarget (o lookingFor : Object) : Bool :=
  decide (o = lookingFor) ||
    (decide (lookingFor.kind = ObjKind.TypeName) &&
      (decide (lookingFor.typ = o.typ) || derefLoop lookingFor.typ o.typ))

/-- Remove `n` levels of pointer indirection from a type, if it has that many. -/
def stripPointers : Nat → GoType → Option GoType
  | 0, t => some t
  | n + 1, .Pointer _ elem => stripPointers n elem
  | _ + 1, _ => none

/-- A sequence of `discover` calls on successive candidates. -/
def discoverAll (ord : MapOrder) (t : queryTarget) (os : List (Option Object)) : queryTarget :=
  os.foldl (fun t o => (t.discover ord o).2) t

/-! ## Example objects -/

/-- The target package of the repository's fixture. -/
def projectPkg : Package := ⟨1, "github.com/spenczar/project", "project"⟩

/-- The type declared by `type Config struct{ Name string }` in the target package. -/
def configType : GoType := .Named 10 "Config"

/-- The type name `Config`. -/
def objConfig : Object := ⟨100, .TypeName, "Config", some projectPkg, configType, 30⟩

/-- A package-level `var Default Config`. -/
def objDefault : Object := ⟨101, .Var false, "Default", some projectPkg, configType, 31⟩

/-- A variable declared `var p *Config` in some importing package. -/
def objPtrVar : Object :=
  ⟨102, .Var false, "p", none, .Pointer 11 configType, 32⟩

/-- The type name of an alias declaration `type ConfigRef = *Config`. -/
def objConfigRef : Object :=
  ⟨103, .TypeName, "ConfigRef", some projectPkg, .Pointer 12 configType, 33⟩

/-- The type-equivalence step as the specification words it: indirection is
stripped from the target's type only, the candidate's type is compared as is. -/
def specTypeEquivalent (targetType candidateType : GoType) : Bool :=
  decide (targetType = candidateType) || derefLoop candidateType targetType

/-- The conditions under which one iteration of the loop of `exportedMembers`
stores the object in `outSet`. -/
def selectedObj (isUpper : Char → Bool) (pkg : Package) (obj : Object) : Bool :=
  decide (obj.pkg = some pkg) && keptKind obj.kind && !hasPrefixStr obj.name "Test" &&
    (obj.Exported isUpper)

/-- Positions below 1000 lie in `values.go`, the others in `values_test.go`. -/
def fixtureFinder (pos : Nat) : Position :=
  if pos < 1000 then ⟨"values.go", pos⟩ else ⟨"values_test.go", pos - 1000⟩

/-- The fixture's `type UsedExportedStruct struct{}`. -/
def usedStructType : GoType := .Named 20 "UsedExportedStruct"

/-- The fixture's `func (UsedExportedStruct) UnusedExportedMethod()`. -/
def objUnusedExportedMethod : Object :=
  ⟨110, .Func, "UnusedExportedMethod", some projectPkg, .MethodSig 21 usedStructType, 12⟩

/-- A method with a pointer receiver, `func (*UsedExportedStruct) Reset()`. -/
def objPtrRecvMethod : Object :=
  ⟨111, .Func, "Reset", some projectPkg, .MethodSig 22 (.Pointer 23 usedStructType), 13⟩

/-- A package-level `func Reset()`. -/
def objResetFunc : Object :=
  ⟨112, .Func, "Reset", some projectPkg, .FuncSig 24, 14⟩

/-- A constant `const TestTimeout = 5` in `values.go`. -/
def objTestTimeout : Object :=
  ⟨113, .Const, "TestTimeout", some projectPkg, .Basic 1, 15⟩

/-- The fixture's `const UsedExportedConst = 1`. -/
def objUsedExportedConst : Object :=
  ⟨114, .Const, "UsedExportedConst", some projectPkg, .Basic 1, 4⟩

/-- A constant `const ExportedFixture = 1` defined in an in-package `values_test.go`. -/
def objTestFileConst : Object :=
  ⟨115, .Const, "ExportedFixture", some projectPkg, .Basic 1, 1003⟩

/-- A function `func Helper()` defined in an in-package `values_test.go`. -/
def objTestFileFunc : Object :=
  ⟨116, .Func, "Helper", some projectPkg, .FuncSig 25, 1004⟩

/-- A target package defining `UsedExportedConst`, `TestTimeout`, the function
`Reset` and the method `(*UsedExportedStruct).Reset`. -/
def collidingInfo : PackageInfo :=
  { Pkg := projectPkg
    Files := []
    Info :=
      { Defs := [(⟨4, "UsedExportedConst"⟩, some objUsedExportedConst),
                 (⟨15, "TestTimeout"⟩, some objTestTimeout),
                 (⟨14, "Reset"⟩, some objResetFunc),
                 (⟨13, "Reset"⟩, some objPtrRecvMethod)]
        Uses := [] }
    Scope := [objUsedExportedConst, objTestTimeout, objResetFunc] }

/-- The target package augmented with an in-package test file `values_test.go`
that defines `const ExportedFixture = 1` and `func Helper()`. -/
def testFileDeclsInfo : PackageInfo :=
  { Pkg := projectPkg
    Files := []
    Info := { Defs := [(⟨1003, "ExportedFixture"⟩, some objTestFileConst),
                       (⟨1004, "Helper"⟩, some objTestFileFunc)]
              Uses := [] }
    Scope := [objTestFileConst, objTestFileFunc] }

/-! ## Vocabulary for the claims about the walk -/

mutual
/-- The identifiers occurring in a syntax tree: bare identifiers, selector
operands and selector members (the local name of an import is not one). -/
def idents : Node → List Ident
  | .File name _ decls => name :: identsList decls
  | .ImportSpec _ => []
  | .SelectorExpr x sel => idents x ++ [sel]
  | .Ident id => [id]
  | .Comment => []
  | .Other children => identsList children
/-- The identifiers occurring in a list of syntax trees. -/
def identsList : List Node → List Ident
  | [] => []
  | n :: rest => idents n ++ identsList rest
end

/-- Is the package one that `findUnused` walks: not the target package, a path
with a dot, and no `vendor` in the path? -/
def inScope (tpkg : Option Package) (pkgInfo : PackageInfo) : Bool :=
  decide (some pkgInfo.Pkg ≠ tpkg) && containsStr pkgInfo.Pkg.path "." &&
    !containsStr pkgInfo.Pkg.path "vendor"

/-- Some identifier in some file of some in-scope package resolves to `D` itself. -/
def resolvedIn (prog : Program) (tpkg : Option Package) (D : Object) : Bool :=
  prog.AllPackages.any fun pkgInfo =>
    inScope tpkg pkgInfo && pkgInfo.Files.any fun file =>
      (idents file).any fun id => decide (pkgInfo.Info.ObjectOf id = some D)

/-- Some identifier of `ids` resolves, in `info`, to an object that matches `D`. -/
def Hit (info : Info) (ids : List Ident) (D : Object) : Prop :=
  ∃ id ∈ ids, ∃ o, info.ObjectOf id = some o ∧ matchesTarget o D = true

/-- Some identifier in some file of some in-scope package resolves to an object
that matches `D`: `D` itself or, when `D` is a type declaration, an object whose
type is the type of `D` or a pointer, at any depth, to it. -/
def MatchedIn (prog : Program) (tpkg : Option Package) (D : Object) : Prop :=
  ∃ pkgInfo ∈ prog.AllPackages, inScope tpkg pkgInfo = true ∧
    ∃ file ∈ pkgInfo.Files, Hit pkgInfo.Info (idents file) D

/-- The state `f1` comes from `f` by deleting from `unfound` only declarations
that satisfy `P`, leaving everything but the local name unchanged. -/
def Step (f f1 : useFinder) (P : Object → Prop) : Prop :=
  f1.typeInfo = f.typeInfo ∧ f1.skipVendor = f.skipVendor ∧
  f1.target.all = f.target.all ∧ f1.target.pkg = f.target.pkg ∧
  f1.target.unfound.Sublist f.target.unfound ∧
  ∀ D ∈ f.target.unfound, D ∈ f1.target.unfound ∨ P D

/-! ## Example programs -/

/-- The fixture's `const UnusedExportedConst = 1`. -/
def objUnusedExportedConst : Object :=
  ⟨117, .Const, "UnusedExportedConst", some projectPkg, .Basic 1, 17⟩

/-- The fixture's `type UsedExportedStruct struct{}`. -/
def objUsedExportedStruct : Object :=
  ⟨118, .TypeName, "UsedExportedStruct", some projectPkg, usedStructType, 9⟩

/-- The fixture's `func (UsedExportedStruct) UsedExportedMethod()`. -/
def objUsedExportedMethod : Object :=
  ⟨119, .Func, "UsedExportedMethod", some projectPkg, .MethodSig 26 usedStructType, 11⟩

/-- The fixture's `func OnlyTestExportedFunc()`. -/
def objOnlyTestExportedFunc : Object :=
  ⟨120, .Func, "OnlyTestExportedFunc", some projectPkg, .FuncSig 27, 35⟩

/-- The fixture's `func UnusedExportedFunc()`. -/
def objUnusedExportedFunc : Object :=
  ⟨121, .Func, "UnusedExportedFunc", some projectPkg, .FuncSig 28, 24⟩

/-- The fixture's `func UsedExportedFunc()`. -/
def objUsedExportedFunc : Object :=
  ⟨122, .Func, "UsedExportedFunc", some projectPkg, .FuncSig 29, 14⟩

/-- The field `Name` of `type Config struct{ Name string }`. -/
def objNameField : Object :=
  ⟨123, .Var true, "Name", some projectPkg, .Basic 2, 30⟩

/-- An importing package. -/
def importerPkg : Package := ⟨2, "github.com/spenczar/importer", "importer"⟩

/-- A third package, imported by the importer. -/
def otherPkg : Package := ⟨3, "github.com/spenczar/other", "other"⟩

/-- The external test package of the target, created by `ImportWithTests`. -/
def projectTestPkg : Package := ⟨4, "github.com/spenczar/project_test", "project_test"⟩

/-- The package name `project` bound by `import "github.com/spenczar/project"`. -/
def pkgNameProject : Object :=
  ⟨130, .PkgName projectPkg, "project", some importerPkg, .Basic 0, 2⟩

/-- The package name `q` bound by `import q "github.com/spenczar/project"`. -/
def pkgNameQ : Object :=
  ⟨131, .PkgName projectPkg, "q", some importerPkg, .Basic 0, 2⟩

/-- The package name `project` as bound in the external test package. -/
def pkgNameProjectInTest : Object :=
  ⟨137, .PkgName projectPkg, "project", some projectTestPkg, .Basic 0, 2⟩

/-- The standard package `testing`. -/
def testingPkg : Package := ⟨5, "testing", "testing"⟩

/-- The package name `testing` as bound in the external test package. -/
def pkgNameTesting : Object :=
  ⟨138, .PkgName testingPkg, "testing", some projectTestPkg, .Basic 0, 1⟩

/-- The type name `testing.T`. -/
def objTestingT : Object :=
  ⟨139, .TypeName, "T", some testingPkg, .Named 40 "T", 70⟩

/-- The package name `other` bound by `import "github.com/spenczar/other"`. -/
def pkgNameOther : Object :=
  ⟨132, .PkgName otherPkg, "other", some importerPkg, .Basic 0, 3⟩

/-- The function `other.Make`, which returns a `project.Config`. -/
def objOtherMake : Object :=
  ⟨133, .Func, "Make", some otherPkg, .FuncSig 30, 50⟩

/-- The variable `other.Shared`, declared `var Shared project.Config`. -/
def objOtherShared : Object :=
  ⟨134, .Var false, "Shared", some otherPkg, configType, 51⟩

/-- A local variable `c` of type `project.Config`. -/
def objLocalC : Object :=
  ⟨135, .Var false, "c", some importerPkg, configType, 60⟩

/-- A local variable `v` of type `project.UsedExportedStruct`. -/
def objLocalV : Object :=
  ⟨136, .Var false, "v", some importerPkg, usedStructType, 61⟩

/-- The import `import "github.com/spenczar/project"`. -/
def importProject : ImportSpec := ⟨none, "github.com/spenczar/project"⟩

/-- The import `import q "github.com/spenczar/project"`. -/
def importProjectAsQ : ImportSpec := ⟨some ⟨2, "q"⟩, "github.com/spenczar/project"⟩

/-- The import `import "github.com/spenczar/other"`. -/
def importOther : ImportSpec := ⟨none, "github.com/spenczar/other"⟩

/-- The import `import "testing"`. -/
def importTesting : ImportSpec := ⟨none, "testing"⟩

/-- A program with the single package `importer`, made of the given file (the
package's own declarations are not listed). -/
def importerProgram (file : Node) (uses : List (Ident × Object))
    (defs : List (Ident × Option Object)) : Program :=
  ⟨[{ Pkg := importerPkg, Files := [file], Info := { Defs := defs, Uses := uses },
      Scope := [] }]⟩

/-- The file `package importer; import "github.com/spenczar/project";
var _ = project.UsedExportedConst`. -/
def constUseFile : Node :=
  .File ⟨1, "importer"⟩ [importProject]
    [.Other [.ImportSpec importProject],
     .Other [.Other [.Ident ⟨3, "_"⟩,
       .SelectorExpr (.Ident ⟨4, "project"⟩) ⟨5, "UsedExportedConst"⟩]]]

/-- Scenario 1 of the specification: one constant used by an importer, one not. -/
def constUseProgram : Program :=
  importerProgram constUseFile
    [(⟨4, "project"⟩, pkgNameProject), (⟨5, "UsedExportedConst"⟩, objUsedExportedConst)]
    [(⟨1, "importer"⟩, none), (⟨3, "_"⟩, none)]

/-- The file `package importer; import ("github.com/spenczar/other";
"github.com/spenczar/project"); func use() { c := other.Make(); _ = c.Name;
project.UsedExportedFunc() }`. -/
def typeUseFile : Node :=
  .File ⟨1, "importer"⟩ [importOther, importProject]
    [.Other [.ImportSpec importOther, .ImportSpec importProject],
     .Other [.Ident ⟨3, "use"⟩, .Other [.Other []],
       .Other [
         .Other [.Ident ⟨4, "c"⟩, .Other [.SelectorExpr (.Ident ⟨5, "other"⟩) ⟨6, "Make"⟩]],
         .Other [.Ident ⟨7, "_"⟩, .SelectorExpr (.Ident ⟨8, "c"⟩) ⟨9, "Name"⟩],
         .Other [.Other [.SelectorExpr (.Ident ⟨10, "project"⟩) ⟨11, "UsedExportedFunc"⟩]]]]]

/-- A program in which no identifier resolves to the type name `Config`, but
a variable of type `Config` is the operand of a selector. -/
def typeUseProgram : Program :=
  importerProgram typeUseFile
    [(⟨5, "other"⟩, pkgNameOther), (⟨6, "Make"⟩, objOtherMake), (⟨8, "c"⟩, objLocalC),
     (⟨9, "Name"⟩, objNameField), (⟨10, "project"⟩, pkgNameProject),
     (⟨11, "UsedExportedFunc"⟩, objUsedExportedFunc)]
    [(⟨1, "importer"⟩, none), (⟨4, "c"⟩, some objLocalC), (⟨7, "_"⟩, none)]

/-- The file `package importer; import "github.com/spenczar/other";
func run() { v := other.New(); v.UsedExportedMethod() }`, which does not import
the target package. -/
def noImportFile : Node :=
  .File ⟨1, "importer"⟩ [importOther]
    [.Other [.ImportSpec importOther],
     .Other [.Ident ⟨3, "run"⟩, .Other [.Other []],
       .Other [
         .Other [.Ident ⟨4, "v"⟩, .Other [.SelectorExpr (.Ident ⟨5, "other"⟩) ⟨6, "New"⟩]],
         .Other [.Other [.SelectorExpr (.Ident ⟨7, "v"⟩) ⟨8, "UsedExportedMethod"⟩]]]]]

/-- A program whose only reference to `UsedExportedMethod` is in a file that
does not import the target package. -/
def noImportProgram : Program :=
  importerProgram noImportFile
    [(⟨5, "other"⟩, pkgNameOther), (⟨6, "New"⟩, objOtherMake), (⟨7, "v"⟩, objLocalV),
     (⟨8, "UsedExportedMethod"⟩, objUsedExportedMethod)]
    [(⟨1, "importer"⟩, none), (⟨4, "v"⟩, some objLocalV)]

/-- The file `package importer; import IMPORT; var _ = X.Default.Name`, where
`X` is the local name of the target package. -/
def nestedUseFile (imp : ImportSpec) (qual : String) : Node :=
  .File ⟨1, "importer"⟩ [imp]
    [.Other [.ImportSpec imp],
     .Other [.Other [.Ident ⟨3, "_"⟩,
       .SelectorExpr (.SelectorExpr (Node.Ident ⟨4, qual⟩) ⟨5, "Default"⟩) ⟨6, "Name"⟩]]]

/-- The program around `nestedUseFile`. -/
def nestedUseProgram (imp : ImportSpec) (qual : String) (pkgNameObj : Object) : Program :=
  importerProgram (nestedUseFile imp qual)
    [(⟨4, qual⟩, pkgNameObj), (⟨5, "Default"⟩, objDefault), (⟨6, "Name"⟩, objNameField)]
    [(⟨1, "importer"⟩, none), (⟨3, "_"⟩, none)]

/-- Scenario 2 of the specification: a file of package `importer` with the
clause `import q "github.com/spenczar/project"` and the function
`func run() { q.UsedExportedStruct{}.UsedExportedMethod() }`. -/
def literalCallFile : Node :=
  .File ⟨1, "importer"⟩ [importProjectAsQ]
    [.Other [.ImportSpec importProjectAsQ],
     .Other [.Ident ⟨3, "run"⟩, .Other [.Other []],
       .Other [.Other [.Other [
         .SelectorExpr
           (.Other [.SelectorExpr (.Ident ⟨4, "q"⟩) ⟨5, "UsedExportedStruct"⟩])
           ⟨6, "UsedExportedMethod"⟩]]]]]

/-- The program around `literalCallFile`. -/
def literalCallProgram : Program :=
  importerProgram literalCallFile
    [(⟨4, "q"⟩, pkgNameQ), (⟨5, "UsedExportedStruct"⟩, objUsedExportedStruct),
     (⟨6, "UsedExportedMethod"⟩, objUsedExportedMethod)]
    [(⟨1, "importer"⟩, none), (⟨2, "q"⟩, some pkgNameQ)]

/-- The same call through a variable: `func run() { v := q.UsedExportedStruct{};
v.UsedExportedMethod() }`. -/
def variableCallFile : Node :=
  .File ⟨1, "importer"⟩ [importProjectAsQ]
    [.Other [.ImportSpec importProjectAsQ],
     .Other [.Ident ⟨3, "run"⟩, .Other [.Other []],
       .Other [
         .Other [.Ident ⟨7, "v"⟩,
           .Other [.SelectorExpr (.Ident ⟨4, "q"⟩) ⟨5, "UsedExportedStruct"⟩]],
         .Other [.Other [.SelectorExpr (.Ident ⟨8, "v"⟩) ⟨6, "UsedExportedMethod"⟩]]]]]

/-- The program around `variableCallFile`. -/
def variableCallProgram : Program :=
  importerProgram variableCallFile
    [(⟨4, "q"⟩, pkgNameQ), (⟨5, "UsedExportedStruct"⟩, objUsedExportedStruct),
     (⟨8, "v"⟩, objLocalV), (⟨6, "UsedExportedMethod"⟩, objUsedExportedMethod)]
    [(⟨1, "importer"⟩, none), (⟨2, "q"⟩, some pkgNameQ), (⟨7, "v"⟩, some objLocalV)]

/-- A finder state inside a file of `importer` that imports the target, with
`Config` unfound; `other` names another package and `Shared` has type `Config`. -/
def sharedFinder : useFinder :=
  { target := ⟨[objConfig], some projectPkg, [objConfig]⟩
    queryPkgLocalName := "project"
    skipVendor := true
    typeInfo := ⟨[], [(⟨5, "other"⟩, pkgNameOther), (⟨6, "Shared"⟩, objOtherShared)]⟩ }

/-- The fixture's `values_test.go` (package `project_test`), reduced to
`func TestFunc(t *testing.T) { var _ = project.OnlyTestExportedFunc }`. -/
def valuesTestFile : Node :=
  .File ⟨1, "project_test"⟩ [importTesting, importProject]
    [.Other [.ImportSpec importTesting, .ImportSpec importProject],
     .Other [.Ident ⟨3, "TestFunc"⟩,
       .Other [.Other [.Other [.Ident ⟨4, "t"⟩,
         .Other [.SelectorExpr (.Ident ⟨5, "testing"⟩) ⟨6, "T"⟩]]]],
       .Other [.Other [.Other [.Other [.Ident ⟨7, "_"⟩,
         .SelectorExpr (.Ident ⟨8, "project"⟩) ⟨9, "OnlyTestExportedFunc"⟩]]]]]]

/-- An in-package test file of the target (package `project`):
`func TestOwn(t *testing.T) { OnlyTestExportedFunc() }`. -/
def inPackageTestFile : Node :=
  .File ⟨1, "project"⟩ [importTesting]
    [.Other [.ImportSpec importTesting],
     .Other [.Ident ⟨3, "TestOwn"⟩,
       .Other [.Other [.Other [.Ident ⟨4, "t"⟩,
         .Other [.SelectorExpr (.Ident ⟨5, "testing"⟩) ⟨6, "T"⟩]]]],
       .Other [.Other [.Other [.Ident ⟨7, "OnlyTestExportedFunc"⟩]]]]]

/-- The target package, augmented with its in-package test file. -/
def projectInfo : PackageInfo :=
  { Pkg := projectPkg
    Files := [inPackageTestFile]
    Info := { Defs := [(⟨1, "project"⟩, none)]
              Uses := [(⟨7, "OnlyTestExportedFunc"⟩, objOnlyTestExportedFunc)] }
    Scope := [objOnlyTestExportedFunc] }

/-- The external test package of the target. -/
def projectTestInfo : PackageInfo :=
  { Pkg := projectTestPkg
    Files := [valuesTestFile]
    Info := { Defs := [(⟨1, "project_test"⟩, none), (⟨7, "_"⟩, none)]
              Uses := [(⟨5, "testing"⟩, pkgNameTesting), (⟨6, "T"⟩, objTestingT),
                       (⟨8, "project"⟩, pkgNameProjectInTest),
                       (⟨9, "OnlyTestExportedFunc"⟩, objOnlyTestExportedFunc)] }
    Scope := [] }

/-- The target package together with its external test package, as loaded by
`ImportWithTests`. -/
def externalTestProgram : Program := ⟨[projectInfo, projectTestInfo]⟩

/-- The target package, with its in-package test file, and the importer of
scenario 1. -/
def ownTestProgram : Program :=
  ⟨projectInfo :: constUseProgram.AllPackages⟩

/-! ## Orchestration (`main.go`) -/

/-- The method `Program.Package`: the loaded package with the given path, if any. -/
def Program.Package (prog : Program) (path : String) : Option PackageInfo :=
  prog.AllPackages.find? (fun info => decide (info.Pkg.path = path))

/-- How a call of `unused` ends: `conf.Load()` fails and the error is returned;
`fatalf` ends the process because the target package is not in the program; a
run-time panic; or a result with its list of unused objects. -/
inductive UnusedOutcome where
  | loadError
  | fatal
  | panicked
  | result (unusedObjs : List Object)
deriving DecidableEq, Repr

/-- The function `unused`, from the value returned by `conf.Load()`
(`none` when loading fails); `position` is `fset.Position`. The map ranged over
in `exportedMembers` is enumerated by `ordOut`, the `unfound` map by `ordUnfound`. -/
def unused (isUpper : Char → Bool) (ordOut ordUnfound : MapOrder) (loaded : Option Program)
    (target : String)
    (position : Nat → Position) : UnusedOutcome :=
  match loaded with
  | none => .loadError
  | some prog =>
    match prog.Package target with
    | none => .fatal
    | some targetPkg =>
      let targetObjs := filterExceptions isUpper (exportedMembers isUpper ordOut targetPkg) position
      if targetObjs.length = 0 then .result []
      else
        match findUnused ordUnfound prog targetObjs with
        | none => .panicked
        | some unusedObjs => .result unusedObjs

/-- The call `sort.Slice(result.unusedObjs, less)` of `main`, where `less`
compares `Pos()` with `<`: a sort into ascending order of position (an insertion
sort here; `sort.Slice` promises no more than a sorted rearrangement). -/
def sortByPos (objs : List Object) : List Object :=
  objs.insertionSort (fun a b => a.pos ≤ b.pos)

/-- The objects in the order in which `main` prints their lines, when `unused`
returns a result; otherwise nothing is printed. -/
def mainReport (isUpper : Char → Bool) (ordOut ordUnfound : MapOrder) (loaded : Option Program)
    (target : String)
    (position : Nat → Position) : Option (List Object) :=
  match unused isUpper ordOut ordUnfound loaded target position with
  | .result unusedObjs => some (sortByPos unusedObjs)
  | _ => none

/-! ## The traversal without the early exit -/

/-- The file loop of `findUnused` with the `allFound` test and `return` removed. -/
def walkFilesNoExit (ord : MapOrder) (f : useFinder) : List Node → Option useFinder
  | [] => some f
  | file :: rest =>
    match Walk ord f file with
    | none => none
    | some f1 => walkFilesNoExit ord f1 rest

/-- The package loop of `findUnused` with both `allFound` tests removed. -/
def walkPackagesNoExit (ord : MapOrder) (f : useFinder) : List PackageInfo → Option useFinder
  | [] => some f
  | pkgInfo :: rest =>
    if some pkgInfo.Pkg = f.target.pkg then walkPackagesNoExit ord f rest
    else if !containsStr pkgInfo.Pkg.path "." then walkPackagesNoExit ord f rest
    else if f.skipVendor && containsStr pkgInfo.Pkg.path "vendor" then
      walkPackagesNoExit ord f rest
    else
      match walkFilesNoExit ord { f with typeInfo := pkgInfo.Info } pkgInfo.Files with
      | none => none
      | some f1 => walkPackagesNoExit ord f1 rest

/-- The function `findUnused` without early exit: every package and file is
walked, then the keys left in `unfound` are collected. -/
def findUnusedNoExit (ord : MapOrder) (prog : Program) (targets : List Object) :
    Option (List Object) :=
  match newTarget targets with
  | none => none
  | some tgt =>
    let finder : useFinder :=
      { target := tgt, queryPkgLocalName := "", skipVendor := true, typeInfo := ⟨[], []⟩ }
    match walkPackagesNoExit ord finder prog.AllPackages with
    | none => none
    | some f1 => some (ord.enum f1.target.unfound)

/-! ## Further example objects -/

/-- A sorting method `func (UsedExportedStruct) Len() int` of the target package. -/
def objLenMethod : Object :=
  ⟨140, .Func, "Len", some projectPkg, .MethodSig 31 usedStructType, 16⟩

/-- A variable declared `var pp **Config` in some importing package. -/
def objPtrPtrVar : Object :=
  ⟨141, .Var false, "pp", none, .Pointer 13 (.Pointer 14 configType), 34⟩

/-- The target package with the declarations `Config` (and its field `Name`),
`Default`, `UsedExportedStruct` and its method `Len`. -/
def sortableInfo : PackageInfo :=
  { Pkg := projectPkg
    Files := []
    Info :=
      { Defs := [(⟨30, "Config"⟩, some objConfig), (⟨32, "Name"⟩, some objNameField),
                 (⟨31, "Default"⟩, some objDefault),
                 (⟨9, "UsedExportedStruct"⟩, some objUsedExportedStruct),
                 (⟨16, "Len"⟩, some objLenMethod)]
        Uses := [] }
    Scope := [objConfig, objDefault, objUsedExportedStruct] }

/-- A target package whose only definition is the unexported `func helper()`. -/
def emptyTargetInfo : PackageInfo :=
  { Pkg := projectPkg
    Files := []
    Info :=
      { Defs := [(⟨3, "helper"⟩,
          some ⟨142, .Func, "helper", some projectPkg, .FuncSig 32, 3⟩)]
        Uses := [] }
    Scope := [⟨142, .Func, "helper", some projectPkg, .FuncSig 32, 3⟩] }

/-! ## Further example programs -/

/-- The file `package importer; import "github.com/spenczar/project";
var _ = project.Default`. -/
def defaultUseFile : Node :=
  .File ⟨1, "importer"⟩ [importProject]
    [.Other [.ImportSpec importProject],
     .Other [.Other [.Ident ⟨3, "_"⟩,
       .SelectorExpr (.Ident ⟨4, "project"⟩) ⟨5, "Default"⟩]]]

/-- The package `importer` made of `defaultUseFile`. -/
def defaultUseInfo : PackageInfo :=
  { Pkg := importerPkg
    Files := [defaultUseFile]
    Info := { Defs := [(⟨1, "importer"⟩, none), (⟨3, "_"⟩, none)]
              Uses := [(⟨4, "project"⟩, pkgNameProject), (⟨5, "Default"⟩, objDefault)] }
    Scope := [] }

/-- A second importing package. -/
def clientPkg : Package := ⟨6, "github.com/spenczar/client", "client"⟩

/-- The package `client` made of `typeUseFile`, in which a variable of type
`Config` is the operand of a selector and `project.UsedExportedFunc` is called. -/
def typeUseClientInfo : PackageInfo :=
  { Pkg := clientPkg
    Files := [typeUseFile]
    Info :=
      { Defs := [(⟨1, "importer"⟩, none), (⟨4, "c"⟩, some objLocalC), (⟨7, "_"⟩, none)]
        Uses := [(⟨5, "other"⟩, pkgNameOther), (⟨6, "Make"⟩, objOtherMake),
                 (⟨8, "c"⟩, objLocalC), (⟨9, "Name"⟩, objNameField),
                 (⟨10, "project"⟩, pkgNameProject),
                 (⟨11, "UsedExportedFunc"⟩, objUsedExportedFunc)] }
    Scope := [] }

/-- A method with a value receiver, `func (UsedExportedStruct) Reset()`. -/
def objValueRecvReset : Object :=
  ⟨145, .Func, "Reset", some projectPkg, .MethodSig 34 usedStructType, 13⟩

/-- A target package defining the function `Reset` and the method
`(UsedExportedStruct).Reset`, its definitions enumerated with the function first. -/
def resetFuncFirstInfo : PackageInfo :=
  { Pkg := projectPkg
    Files := []
    Info := { Defs := [(⟨14, "Reset"⟩, some objResetFunc),
                       (⟨13, "Reset"⟩, some objValueRecvReset)]
              Uses := [] }
    Scope := [objResetFunc] }

/-- The same package, its definitions enumerated with the method first. -/
def resetMethodFirstInfo : PackageInfo :=
  { Pkg := projectPkg
    Files := []
    Info := { Defs := [(⟨13, "Reset"⟩, some objValueRecvReset),
                       (⟨14, "Reset"⟩, some objResetFunc)]
              Uses := [] }
    Scope := [objResetFunc] }

/-- The dot import `import . "github.com/spenczar/project"`. -/
def importDot : ImportSpec := ⟨some ⟨2, "."⟩, "github.com/spenczar/project"⟩

/-- A file of package `importer` with the dot import of the target and the
function `func run() { UsedExportedStruct{}.UsedExportedMethod();
_ = UsedExportedConst }`. -/
def dotLiteralCallFile : Node :=
  .File ⟨1, "importer"⟩ [importDot]
    [.Other [.ImportSpec importDot],
     .Other [.Ident ⟨3, "run"⟩, .Other [.Other []],
       .Other [
         .Other [.Other [
           .SelectorExpr (.Other [.Ident ⟨4, "UsedExportedStruct"⟩])
             ⟨5, "UsedExportedMethod"⟩]],
         .Other [.Ident ⟨6, "_"⟩, .Ident ⟨7, "UsedExportedConst"⟩]]]]

/-- The program around `dotLiteralCallFile`. -/
def dotLiteralCallProgram : Program :=
  importerProgram dotLiteralCallFile
    [(⟨4, "UsedExportedStruct"⟩, objUsedExportedStruct),
     (⟨5, "UsedExportedMethod"⟩, objUsedExportedMethod),
     (⟨7, "UsedExportedConst"⟩, objUsedExportedConst)]
    [(⟨1, "importer"⟩, none), (⟨6, "_"⟩, none)]

/-- A file of package `importer` with the dot import of the target and the
method expression `var _ = UsedExportedStruct.UsedExportedMethod`. -/
def dotMethodExprFile : Node :=
  .File ⟨1, "importer"⟩ [importDot]
    [.Other [.ImportSpec importDot],
     .Other [.Other [.Ident ⟨3, "_"⟩,
       .SelectorExpr (.Ident ⟨4, "UsedExportedStruct"⟩) ⟨5, "UsedExportedMethod"⟩]]]

/-- The program around `dotMethodExprFile`. -/
def dotMethodExprProgram : Program :=
  importerProgram dotMethodExprFile
    [(⟨4, "UsedExportedStruct"⟩, objUsedExportedStruct),
     (⟨5, "UsedExportedMethod"⟩, objUsedExportedMethod)]
    [(⟨1, "importer"⟩, none), (⟨3, "_"⟩, none)]

/-- The function `func compute() int` of the target package. -/
def objCompute : Object :=
  ⟨143, .Func, "compute", some projectPkg, .FuncSig 33, 40⟩

/-- The variable `Result` declared inside the body of `compute`. -/
def objLocalResult : Object :=
  ⟨144, .Var false, "Result", some projectPkg, .Basic 3, 41⟩

/-- A target package made of the file `package project;
func compute() int { Result := 1; return Result }`: its package scope holds
`compute` only. -/
def localVarInfo : PackageInfo :=
  { Pkg := projectPkg
    Files := [.File ⟨1, "project"⟩ []
      [.Other [.Ident ⟨40, "compute"⟩, .Other [.Other [], .Other [.Other [.Ident ⟨39, "int"⟩]]],
        .Other [.Other [.Ident ⟨41, "Result"⟩, .Other []],
                .Other [.Ident ⟨42, "Result"⟩]]]]]
    Info := { Defs := [(⟨1, "project"⟩, none), (⟨40, "compute"⟩, some objCompute),
                       (⟨41, "Result"⟩, some objLocalResult)]
              Uses := [(⟨42, "Result"⟩, objLocalResult)] }
    Scope := [objCompute] }

/-- Is the object a method, i.e. a function whose signature has a receiver? -/
def isMethod (o : Object) : Bool :=
  match o.kind, o.typ with
  | .Func, .MethodSig _ _ => true
  | _, _ => false

/-- The elements of a slash-separated path. -/
def pathElements : List Char → List (List Char)
  | [] => [[]]
  | c :: cs =>
    match pathElements cs with
    | [] => [[c]]
    | e :: es => if c = '/' then [] :: e :: es else (c :: e) :: es

/-- Does the import path have a directory element named `vendor`? -/
def hasVendorElement (path : String) : Bool :=
  (pathElements path.data).any (fun e => decide (e = "vendor".data))

/-- An importing package of the organisation `vendorco`; it is not a vendored copy. -/
def vendorcoPkg : Package := ⟨7, "github.com/vendorco/client", "client"⟩

/-- The package `github.com/vendorco/client`, made of the file of scenario 1,
which uses `project.UsedExportedConst`. -/
def vendorcoInfo : PackageInfo :=
  { Pkg := vendorcoPkg
    Files := [constUseFile]
    Info := { Defs := [(⟨1, "importer"⟩, none), (⟨3, "_"⟩, none)]
              Uses := [(⟨4, "project"⟩, pkgNameProject),
                       (⟨5, "UsedExportedConst"⟩, objUsedExportedConst)] }
    Scope := [] }

/-- Is the node an `*ast.File`, as every element of `PackageInfo.Files` is in Go? -/
def isFile : Node → Bool
  | .File _ _ _ => true
  | _ => false

/-- The invariant of `outSet` in `exportedMembers`: the keys are distinct, and
each value is stored under its own `Id()` and passed the tests of the loop. -/
def OutSetOk (isUpper : Char → Bool) (pkg : Package) (m : List (String × Object)) : Prop :=
  (m.map Prod.fst).Nodup ∧ ∀ q ∈ m, q.1 = (q.2.Id isUpper) ∧ selectedObj isUpper pkg q.2 = true

/-- A second method named `Reset`, on another type: `func (Config) Reset()`. -/
def objConfigReset : Object :=
  ⟨146, .Func, "Reset", some projectPkg, .MethodSig 35 configType, 36⟩

/-- A function `func TestHelper()` defined in `values.go`. -/
def objTestHelper : Object :=
  ⟨147, .Func, "TestHelper", some projectPkg, .FuncSig 36, 37⟩

/-- A target package with three public objects named `Reset` (a function, a
method of `UsedExportedStruct`, a method of `Config`) and the function
`TestHelper`. -/
def threeResetInfo : PackageInfo :=
  { Pkg := projectPkg
    Files := []
    Info := { Defs := [(⟨14, "Reset"⟩, some objResetFunc),
                       (⟨37, "TestHelper"⟩, some objTestHelper),
                       (⟨13, "Reset"⟩, some objValueRecvReset),
                       (⟨36, "Reset"⟩, some objConfigReset)]
              Uses := [] }
    Scope := [objResetFunc, objTestHelper] }

/-! ## The candidates the walker passes to `discover` -/

/-- The objects `visitSelector` passes to `discover` at a selector `X.Sel`, in
order, and whether it returns a visitor. -/
def selectorCandidates (info : Info) (tpkg : Option Package) (X : Node) (Sel : Ident) :
    List (Option Object) × Bool :=
  match X with
  | .Ident rcvrIdent =>
    match (info.ObjectOf rcvrIdent).map Object.kind with
    | some (.PkgName imported) =>
      if some imported = tpkg then ([info.ObjectOf Sel], true) else ([], false)
    | some (.Var _) => ([info.ObjectOf rcvrIdent, info.ObjectOf Sel], false)
    | _ => ([info.ObjectOf Sel], false)
  | _ => ([], false)

/-- The objects `visitIdent` passes to `discover` when the local name of the
target package is `q`. -/
def identCandidates (info : Info) (q : String) (ident : Ident) : List (Option Object) :=
  if q ≠ "." then [] else [info.ObjectOf ident]

/-- The local name of the target package `p` after `visitImportSpec`. -/
def nameAfterImport (p : Package) (q : String) (spec : ImportSpec) : String :=
  if spec.Path = p.path then
    match spec.Name with
    | some nm => nm.Name
    | none => p.name
  else q

mutual
/-- The objects passed to `discover`, in order, while `ast.Walk` traverses a
node with the tables `info`, the target package `p` and the local name `q`,
together with the local name afterwards. -/
def reached (info : Info) (p : Package) (q : String) : Node → List (Option Object) × String
  | .File _ imports decls =>
    if imports.any (fun s => decide (s.Path = p.path)) then reachedList info p "" decls
    else ([], "")
  | .ImportSpec spec => ([], nameAfterImport p q spec)
  | .SelectorExpr x sel =>
    if (selectorCandidates info (some p) x sel).2 then
      ((selectorCandidates info (some p) x sel).1 ++ (reached info p q x).1 ++
          identCandidates info (reached info p q x).2 sel,
        (reached info p q x).2)
    else ((selectorCandidates info (some p) x sel).1, q)
  | .Ident id => (identCandidates info q id, q)
  | .Comment => ([], q)
  | .Other children => reachedList info p q children
/-- The same for a list of nodes walked from left to right. -/
def reachedList (info : Info) (p : Package) (q : String) :
    List Node → List (Option Object) × String
  | [] => ([], q)
  | n :: rest =>
    ((reached info p q n).1 ++ (reachedList info p (reached info p q n).2 rest).1,
      (reachedList info p (reached info p q n).2 rest).2)
end

/-- The objects passed to `discover` while the package loop of `findUnused`
runs to its end, starting with the local name `q`. -/
def reachedPackages (p : Package) : String → List PackageInfo → List (Option Object)
  | _, [] => []
  | q, pkgInfo :: rest =>
    if inScope (some p) pkgInfo then
      (reachedList pkgInfo.Info p q pkgInfo.Files).1 ++
        reachedPackages p (reachedList pkgInfo.Info p q pkgInfo.Files).2 rest
    else reachedPackages p q rest

/-- The finder state after the candidates of a trace have been passed to `discover`. -/
def applyTrace (ord : MapOrder) (f : useFinder) (r : List (Option Object) × String) :
    useFinder :=
  { f with target := discoverAll ord f.target r.1, queryPkgLocalName := r.2 }

/-- The identifiers of a file that the walker can reach: none when the node is
a file that does not import the target package `p`. -/
def walkedIdents (p : Package) : Node → List Ident
  | .File _ imports decls =>
    if imports.any (fun s => decide (s.Path = p.path)) then identsList decls else []
  | n => idents n

mutual
/-- The selector expressions `x.Sel` with an identifier operand that occur in a
tree outside every other selector expression and outside every nested file. -/
def outerSelectors : Node → List (Ident × Ident)
  | .SelectorExpr x sel =>
    match x with
    | .Ident i => [(i, sel)]
    | _ => []
  | .Other children => outerSelectorsList children
  | _ => []
/-- The outer selector expressions of a list of trees. -/
def outerSelectorsList : List Node → List (Ident × Ident)
  | [] => []
  | n :: rest => outerSelectors n ++ outerSelectorsList rest
end

/-! # Properties -/

theorem discoverLoop_false (o : Object) (unfound : List Object) :
    ∀ order : List Object, (discoverLoop o unfound order).1 = false →
      (discoverLoop o unfound order).2 = unfound ∧ ∀ d ∈ order, matchesTarget o d = false := by
  intro order
  induction order with
  | nil => intro _; exact ⟨rfl, by simp⟩
  | cons d rest ih =>
    intro h
    unfold discoverLoop at h ⊢
    by_cases h1 : o = d
    · simp [h1] at h
    · simp only [h1, if_false] at h ⊢
      by_cases h2 : d.kind = ObjKind.TypeName
      · simp only [h2, if_true] at h ⊢
        by_cases h3 : d.typ = o.typ
        · simp [h3] at h
        · simp only [h3, if_false] at h ⊢
          by_cases h4 : derefLoop d.typ o.typ = true
          · simp [h4] at h
          · simp only [h4] at h ⊢
            obtain ⟨e1, e2⟩ := ih h
            refine ⟨e1, ?_⟩
            intro x hx
            rcases List.mem_cons.mp hx with rfl | hx
            · simp [matchesTarget, h1, h3, h4]
            · exact e2 x hx
      · simp only [h2, if_false] at h ⊢
        obtain ⟨e1, e2⟩ := ih h
        refine ⟨e1, ?_⟩
        intro x hx
        rcases List.mem_cons.mp hx with rfl | hx
        · simp [matchesTarget, h1, h2]
        · exact e2 x hx

theorem discoverLoop_true (o : Object) (unfound : List Object) :
    ∀ order : List Object, (discoverLoop o unfound order).1 = true →
      ∃ d ∈ order, matchesTarget o d = true ∧ (discoverLoop o unfound order).2 = unfound.erase d := by
  intro order
  induction order with
  | nil => intro h; simp [discoverLoop] at h
  | cons d rest ih =>
    intro h
    unfold discoverLoop at h ⊢
    by_cases h1 : o = d
    · refine ⟨d, List.mem_cons_self _ _, by simp [matchesTarget, h1], by simp [h1]⟩
    · simp only [h1, if_false] at h ⊢
      by_cases h2 : d.kind = ObjKind.TypeName
      · simp only [h2, if_true] at h ⊢
        by_cases h3 : d.typ = o.typ
        · exact ⟨d, List.mem_cons_self _ _, by simp [matchesTarget, h2, h3], by simp [h3]⟩
        · simp only [h3, if_false] at h ⊢
          by_cases h4 : derefLoop d.typ o.typ = true
          · exact ⟨d, List.mem_cons_self _ _, by simp [matchesTarget, h2, h4], by simp [h4]⟩
          · simp only [h4] at h ⊢
            obtain ⟨x, hx, e1, e2⟩ := ih h
            exact ⟨x, List.mem_cons_of_mem _ hx, e1, e2⟩
      · simp only [h2, if_false] at h ⊢
        obtain ⟨x, hx, e1, e2⟩ := ih h
        exact ⟨x, List.mem_cons_of_mem _ hx, e1, e2⟩

theorem derefLoop_iff (tn : GoType) : ∀ ot : GoType,
    derefLoop tn ot = true ↔ ∃ n, stripPointers (n + 1) ot = some tn := by
  intro ot
  induction ot with
  | Pointer u elem ih =>
    unfold derefLoop
    by_cases h : tn = elem
    · simp only [h, if_true, true_iff]
      exact ⟨0, by simp [stripPointers]⟩
    · simp only [h, if_false]
      rw [ih]
      constructor
      · rintro ⟨n, hn⟩
        exact ⟨n + 1, by simpa [stripPointers] using hn⟩
      · rintro ⟨n, hn⟩
        cases n with
        | zero =>
          simp only [stripPointers, Option.some.injEq] at hn
          exact absurd hn.symm h
        | succ m => exact ⟨m, by simpa [stripPointers] using hn⟩
  | Named u s => simp [derefLoop, stripPointers]
  | FuncSig u => simp [derefLoop, stripPointers]
  | MethodSig u r _ => simp [derefLoop, stripPointers]
  | Basic u => simp [derefLoop, stripPointers]

theorem matchesTarget_iff (o d : Object) :
    matchesTarget o d = true ↔
      o = d ∨ (d.kind = ObjKind.TypeName ∧ ∃ n, stripPointers n o.typ = some d.typ) := by
  simp only [matchesTarget, Bool.or_eq_true, Bool.and_eq_true, decide_eq_true_eq, derefLoop_iff]
  constructor
  · rintro (h | ⟨hk, h | ⟨n, hn⟩⟩)
    · exact Or.inl h
    · exact Or.inr ⟨hk, 0, by simp [stripPointers, h]⟩
    · exact Or.inr ⟨hk, n + 1, hn⟩
  · rintro (h | ⟨hk, n, hn⟩)
    · exact Or.inl h
    · cases n with
      | zero =>
        simp only [stripPointers, Option.some.injEq] at hn
        exact Or.inr ⟨hk, Or.inl hn.symm⟩
      | succ m => exact Or.inr ⟨hk, Or.inr ⟨m, hn⟩⟩

theorem discover_fst_false (ord : MapOrder) (t : queryTarget) (o : Option Object)
    (h : (t.discover ord o).1 = false) : (t.discover ord o).2 = t := by
  cases o with
  | none => rfl
  | some o =>
    simp only [queryTarget.discover] at h ⊢
    rw [(discoverLoop_false o t.unfound _ h).1]

theorem discover_fst_true (ord : MapOrder) (t : queryTarget) (o : Option Object)
    (h : (t.discover ord o).1 = true) :
    ∃ oo d, o = some oo ∧ d ∈ t.unfound ∧ matchesTarget oo d = true ∧
      (t.discover ord o).2 = { t with unfound := t.unfound.erase d } := by
  cases o with
  | none => simp [queryTarget.discover] at h
  | some o =>
    simp only [queryTarget.discover] at h ⊢
    obtain ⟨d, hd, hm, he⟩ := discoverLoop_true o t.unfound _ h
    exact ⟨o, d, rfl, (ord.perm t.unfound).mem_iff.mp hd, hm, by rw [he]⟩

theorem discover_true_iff (ord : MapOrder) (t : queryTarget) (o : Option Object) :
    (t.discover ord o).1 = true ↔
      ∃ oo d, o = some oo ∧ d ∈ t.unfound ∧ matchesTarget oo d = true := by
  constructor
  · intro h
    obtain ⟨oo, d, h1, h2, h3, _⟩ := discover_fst_true ord t o h
    exact ⟨oo, d, h1, h2, h3⟩
  · rintro ⟨oo, d, rfl, hd, hm⟩
    by_contra hf
    have hf2 : (t.discover ord (some oo)).1 = false := by simpa using hf
    simp only [queryTarget.discover] at hf2
    have := (discoverLoop_false oo t.unfound _ hf2).2 d ((ord.perm t.unfound).mem_iff.mpr hd)
    rw [hm] at this
    exact Bool.noConfusion this

/-- Whatever the outcome, `discover` changes nothing but `unfound`, and `unfound`
becomes either itself or itself with one matching key erased. -/
theorem discover_cases (ord : MapOrder) (t : queryTarget) (o : Option Object) :
    ((t.discover ord o).1 = false ∧ (t.discover ord o).2 = t) ∨
    ((t.discover ord o).1 = true ∧ ∃ oo d, o = some oo ∧ d ∈ t.unfound ∧
      matchesTarget oo d = true ∧
      (t.discover ord o).2 = { t with unfound := t.unfound.erase d }) := by
  cases h : (t.discover ord o).1 with
  | false => exact Or.inl ⟨rfl, discover_fst_false ord t o h⟩
  | true => exact Or.inr ⟨rfl, discover_fst_true ord t o h⟩

theorem discover_sublist (ord : MapOrder) (t : queryTarget) (o : Option Object) :
    (t.discover ord o).2.unfound.Sublist t.unfound ∧
      (t.discover ord o).2.all = t.all ∧ (t.discover ord o).2.pkg = t.pkg := by
  rcases discover_cases ord t o with ⟨_, h⟩ | ⟨_, oo, d, _, _, _, h⟩
  · rw [h]; exact ⟨List.Sublist.refl _, rfl, rfl⟩
  · rw [h]; exact ⟨List.erase_sublist _ _, rfl, rfl⟩

theorem discoverAll_sublist (ord : MapOrder) :
    ∀ (os : List (Option Object)) (t : queryTarget),
      (discoverAll ord t os).unfound.Sublist t.unfound := by
  intro os
  induction os with
  | nil => intro t; exact List.Sublist.refl _
  | cons o rest ih =>
    intro t
    exact (ih (t.discover ord o).2).trans (discover_sublist ord t o).1

theorem discoverAll_append (ord : MapOrder) (t : queryTarget) (os1 os2 : List (Option Object)) :
    discoverAll ord t (os1 ++ os2) = discoverAll ord (discoverAll ord t os1) os2 := by
  simp [discoverAll, List.foldl_append]

/-! ## Claims about `discover` -/

/-- C4 (the code departs from the claim): with `Config` and `Default` both
unfound and `Config` enumerated first, `discover(Default)` returns true but
deletes `Config`, and `Default` stays unfound; under the reverse enumeration
it deletes `Default`. -/
theorem discover_identity_depends_on_order :
    objDefault ∈ [objConfig, objDefault] ∧
    queryTarget.discover MapOrder.inOrder
        ⟨[objConfig, objDefault], some projectPkg, [objConfig, objDefault]⟩ (some objDefault)
      = (true, ⟨[objConfig, objDefault], some projectPkg, [objDefault]⟩) ∧
    queryTarget.discover MapOrder.reversed
        ⟨[objConfig, objDefault], some projectPkg, [objConfig, objDefault]⟩ (some objDefault)
      = (true, ⟨[objConfig, objDefault], some projectPkg, [objConfig]⟩) := by
  decide

/-- C5: on a query state (whose `unfound` map has distinct keys), `discover`
returns true exactly when one declaration was removed from `unfound` and all
other members were left as they were; when it returns false, as for a nil
candidate, the state is unchanged; and along any sequence of calls `unfound`
only loses members, so a declaration once removed is never back. -/
theorem discover_contract (ord : MapOrder) (t : queryTarget) (o : Option Object)
    (hnd : t.unfound.Nodup) :
    ((t.discover ord o).1 = true ↔
      ∃ d, d ∈ t.unfound ∧ d ∉ (t.discover ord o).2.unfound ∧
        (t.discover ord o).2.unfound = t.unfound.erase d ∧
        (t.discover ord o).2.unfound.length + 1 = t.unfound.length ∧
        ∀ e, e ≠ d → (e ∈ (t.discover ord o).2.unfound ↔ e ∈ t.unfound)) ∧
    ((t.discover ord o).1 = false → (t.discover ord o).2 = t) ∧
    t.discover ord none = (false, t) ∧
    (t.discover ord o).2.all = t.all ∧ (t.discover ord o).2.pkg = t.pkg ∧
    (∀ os1 os2 : List (Option Object),
      (discoverAll ord t (os1 ++ os2)).unfound.Sublist (discoverAll ord t os1).unfound ∧
      (discoverAll ord t os1).unfound.Sublist t.unfound ∧
      (discoverAll ord t os1).unfound.Nodup ∧
      ∀ d, d ∉ (discoverAll ord t os1).unfound →
        d ∉ (discoverAll ord t (os1 ++ os2)).unfound) := by
  refine ⟨⟨?_, ?_⟩, discover_fst_false ord t o, rfl, (discover_sublist ord t o).2.1,
    (discover_sublist ord t o).2.2, ?_⟩
  · intro h
    obtain ⟨oo, d, _, hd, _, he⟩ := discover_fst_true ord t o h
    refine ⟨d, hd, ?_, ?_, ?_, ?_⟩
    · rw [he]; exact fun hm => (List.Nodup.mem_erase_iff hnd).mp hm |>.1 rfl
    · rw [he]
    · rw [he]
      simp only [List.length_erase_of_mem hd]
      have : 0 < t.unfound.length := List.length_pos_of_mem hd
      omega
    · intro e hne
      rw [he]
      exact ⟨fun hm => List.mem_of_mem_erase hm, fun hm => (List.mem_erase_of_ne hne).mpr hm⟩
  · rintro ⟨d, hd, hnd2, _⟩
    by_contra hf
    have hf2 : (t.discover ord o).1 = false := by simpa using hf
    rw [discover_fst_false ord t o hf2] at hnd2
    exact hnd2 hd
  · intro os1 os2
    have h1 : (discoverAll ord t (os1 ++ os2)).unfound.Sublist (discoverAll ord t os1).unfound := by
      rw [discoverAll_append]
      exact discoverAll_sublist ord os2 _
    exact ⟨h1, discoverAll_sublist ord os1 t, (discoverAll_sublist ord os1 t).nodup hnd,
      fun d hd hm => hd (h1.subset hm)⟩

/-- C5, at a concrete state: `Config` and `Default` unfound, candidate `Default`,
the map enumerated in reverse. -/
theorem discover_contract_witness :
    [objConfig, objDefault].Nodup ∧
    ((queryTarget.discover MapOrder.reversed
        ⟨[objConfig, objDefault], some projectPkg, [objConfig, objDefault]⟩
        (some objDefault)).1 = true ↔
      ∃ d, d ∈ [objConfig, objDefault] ∧
        d ∉ (queryTarget.discover MapOrder.reversed
          ⟨[objConfig, objDefault], some projectPkg, [objConfig, objDefault]⟩
          (some objDefault)).2.unfound ∧
        (queryTarget.discover MapOrder.reversed
          ⟨[objConfig, objDefault], some projectPkg, [objConfig, objDefault]⟩
          (some objDefault)).2.unfound = [objConfig, objDefault].erase d ∧
        (queryTarget.discover MapOrder.reversed
          ⟨[objConfig, objDefault], some projectPkg, [objConfig, objDefault]⟩
          (some objDefault)).2.unfound.length + 1 = [objConfig, objDefault].length ∧
        ∀ e, e ≠ d →
          (e ∈ (queryTarget.discover MapOrder.reversed
              ⟨[objConfig, objDefault], some projectPkg, [objConfig, objDefault]⟩
              (some objDefault)).2.unfound ↔ e ∈ [objConfig, objDefault])) :=
  ⟨by decide,
    (discover_contract MapOrder.reversed
      ⟨[objConfig, objDefault], some projectPkg, [objConfig, objDefault]⟩
      (some objDefault) (by decide)).1⟩

/-- C10 as stated fails: a candidate of type `*Config` matches the unfound type
`Config` (the candidate's type is unwrapped), although stripping the target's
type only would not match; and a candidate of type `Config` does not match the
unfound alias `ConfigRef = *Config` (the target's type is not unwrapped),
although stripping the target's type would match. -/
theorem discover_strips_candidate_not_target :
    ((queryTarget.discover MapOrder.inOrder
        ⟨[objConfig], some projectPkg, [objConfig]⟩ (some objPtrVar)).1 = true ∧
      specTypeEquivalent objConfig.typ objPtrVar.typ = false) ∧
    ((queryTarget.discover MapOrder.inOrder
        ⟨[objConfigRef], some projectPkg, [objConfigRef]⟩ (some objDefault)).1 = false ∧
      specTypeEquivalent objConfigRef.typ objDefault.typ = true) := by
  decide

/-- C10 (amended): `discover` succeeds exactly when some unfound declaration is
the candidate itself or is a type declaration whose type, taken as it is, equals
the candidate's type after stripping some number (possibly zero) of pointer
levels from the candidate's type. -/
theorem discover_true_iff_candidate_stripped (ord : MapOrder) (t : queryTarget)
    (o : Object) :
    (t.discover ord (some o)).1 = true ↔
      ∃ d ∈ t.unfound, o = d ∨
        (d.kind = ObjKind.TypeName ∧ ∃ n, stripPointers n o.typ = some d.typ) := by
  rw [discover_true_iff]
  constructor
  · rintro ⟨oo, d, ho, hd, hm⟩
    cases ho
    exact ⟨d, hd, (matchesTarget_iff o d).mp hm⟩
  · rintro ⟨d, hd, hm⟩
    exact ⟨o, d, rfl, hd, (matchesTarget_iff o d).mpr hm⟩

/-! ## Claims about target selection -/

theorem exportedStep_eq {isUpper : Char → Bool} (pkg : Package) (m : List (String × Object))
    (obj : Object) :
    exportedStep isUpper pkg m (some obj) =
      if selectedObj isUpper pkg obj then mapSet m (obj.Id isUpper) obj else m := by
  unfold exportedStep selectedObj
  by_cases h1 : obj.pkg = none
  · simp [h1]
  · by_cases h2 : keptKind obj.kind = true
    · by_cases h3 : obj.pkg = some pkg
      · by_cases h4 : hasPrefixStr obj.name "Test" = true
        · simp [h2, h3, h4]
        · by_cases h5 : (obj.Exported isUpper) = true
          · simp [h2, h3, h4, h5]
          · simp [h2, h3, h4, h5]
      · simp [h1, h2, h3]
    · simp [h1, h2]

theorem mapSet_mem_self (m : List (String × Object)) (k : String) (v : Object) :
    (k, v) ∈ mapSet m k v := by
  induction m with
  | nil => simp [mapSet]
  | cons p rest ih =>
    obtain ⟨k1, v1⟩ := p
    unfold mapSet
    by_cases h : k1 = k
    · simp [h]
    · simp only [h, if_false]
      exact List.mem_cons_of_mem _ ih

theorem mapSet_mem_other (m : List (String × Object)) (k k2 : String) (v v2 : Object)
    (hne : k2 ≠ k) (hm : (k2, v2) ∈ m) : (k2, v2) ∈ mapSet m k v := by
  induction m with
  | nil => simp at hm
  | cons p rest ih =>
    obtain ⟨k1, v1⟩ := p
    unfold mapSet
    by_cases h : k1 = k
    · simp only [h, if_true]
      rcases List.mem_cons.mp hm with e | e
      · have : k2 = k1 := (Prod.mk.inj e).1
        exact absurd (this.trans h) hne
      · exact List.mem_cons_of_mem _ e
    · simp only [h, if_false]
      rcases List.mem_cons.mp hm with e | e
      · rw [e]; exact List.mem_cons_self _ _
      · exact List.mem_cons_of_mem _ (ih e)

theorem selectedObj_Id {isUpper : Char → Bool} (pkg : Package) (o : Object)
    (h : selectedObj isUpper pkg o = true) :
    (o.Id isUpper) = o.name := by
  have he : isExported isUpper o.name = true := by
    simp only [selectedObj, Object.Exported, Bool.and_eq_true] at h
    exact h.2
  simp [Object.Id, he]

theorem exportedFold_keeps {isUpper : Char → Bool} (pkg : Package) (obj : Object)
    (hsel : selectedObj isUpper pkg obj = true) :
    ∀ (l : List (Option Object)) (m : List (String × Object)),
      (∀ o2, some o2 ∈ l → selectedObj isUpper pkg o2 = true → o2.name = obj.name → o2 = obj) →
      ((obj.Id isUpper), obj) ∈ m → ((obj.Id isUpper), obj) ∈ l.foldl (exportedStep isUpper pkg) m := by
  intro l
  induction l with
  | nil => intro m _ hm; exact hm
  | cons x rest ih =>
    intro m hu hm
    rw [List.foldl_cons]
    apply ih
    · intro o2 h2; exact hu o2 (List.mem_cons_of_mem _ h2)
    · cases x with
      | none => exact hm
      | some o2 =>
        rw [exportedStep_eq]
        by_cases hs : selectedObj isUpper pkg o2 = true
        · simp only [hs, if_true]
          by_cases hk : o2.name = obj.name
          · have : o2 = obj := hu o2 (List.mem_cons_self _ _) hs hk
            rw [this]; exact mapSet_mem_self _ _ _
          · apply mapSet_mem_other _ _ _ _ _ _ hm
            rw [selectedObj_Id pkg o2 hs, selectedObj_Id pkg obj hsel]
            exact fun e => hk e.symm
        · simp only [hs]; exact hm

theorem exportedFold_mem {isUpper : Char → Bool} (pkg : Package) (obj : Object)
    (hsel : selectedObj isUpper pkg obj = true) :
    ∀ (l : List (Option Object)) (m : List (String × Object)),
      (∀ o2, some o2 ∈ l → selectedObj isUpper pkg o2 = true → o2.name = obj.name → o2 = obj) →
      some obj ∈ l → ((obj.Id isUpper), obj) ∈ l.foldl (exportedStep isUpper pkg) m := by
  intro l
  induction l with
  | nil => intro m _ h; simp at h
  | cons x rest ih =>
    intro m hu hmem
    rw [List.foldl_cons]
    by_cases hx : x = some obj
    · apply exportedFold_keeps pkg obj hsel rest
      · intro o2 h2; exact hu o2 (List.mem_cons_of_mem _ h2)
      · rw [hx, exportedStep_eq]
        simp only [hsel, if_true]
        exact mapSet_mem_self _ _ _
    · apply ih
      · intro o2 h2; exact hu o2 (List.mem_cons_of_mem _ h2)
      · rcases List.mem_cons.mp hmem with e | e
        · exact absurd e.symm hx
        · exact e

/-- C6 as stated fails: `TestTimeout` is a public top-level constant of the
target package defined in `values.go`, and so is the function `Reset`, yet
neither is in the checkable set: the first because its name starts with
`Test`, the second because the method `Reset`, enumerated later, takes its
place under the same key of `outSet`. -/
theorem exported_decl_not_always_checkable :
    (some objTestTimeout ∈ collidingInfo.Info.Defs.map Prod.snd ∧
      objTestTimeout.kind = ObjKind.Const ∧ (objTestTimeout.Exported isUpperASCII) = true ∧
      hasSuffixStr (fixtureFinder objTestTimeout.pos).Filename "_test.go" = false ∧
      objTestTimeout ∉
        filterExceptions isUpperASCII (exportedMembers isUpperASCII MapOrder.inOrder collidingInfo) fixtureFinder) ∧
    (some objResetFunc ∈ collidingInfo.Info.Defs.map Prod.snd ∧
      objResetFunc.kind = ObjKind.Func ∧ (objResetFunc.Exported isUpperASCII) = true ∧
      hasSuffixStr (fixtureFinder objResetFunc.pos).Filename "_test.go" = false ∧
      objResetFunc ∉
        filterExceptions isUpperASCII (exportedMembers isUpperASCII MapOrder.inOrder collidingInfo) fixtureFinder) := by
  decide

/-- C6 (amended): a top-level constant, variable, function or type declaration
of the target package whose name is public and does not start with `Test`,
which is defined in a non-test file, and whose name no other object selected
from the package's definitions bears, is in the checkable set
`filterExceptions(exportedMembers(pkg))`, in whatever order the maps are
enumerated. -/
theorem exported_decl_checkable (isUpper : Char → Bool) (ord : MapOrder) (pkg : PackageInfo)
    (finder : Nat → Position) (obj : Object)
    (hdef : some obj ∈ pkg.Info.Defs.map Prod.snd)
    (hpkg : obj.pkg = some pkg.Pkg)
    (hkind : obj.kind = ObjKind.Const ∨ obj.kind = ObjKind.Var false ∨
      obj.kind = ObjKind.Func ∨ obj.kind = ObjKind.TypeName)
    (htop : ∀ u r, obj.typ ≠ GoType.MethodSig u r)
    (hexp : (obj.Exported isUpper) = true)
    (hname : hasPrefixStr obj.name "Test" = false)
    (hfile : hasSuffixStr (finder obj.pos).Filename "_test.go" = false)
    (huniq : ∀ o2, some o2 ∈ pkg.Info.Defs.map Prod.snd →
      selectedObj isUpper pkg.Pkg o2 = true → o2.name = obj.name → o2 = obj) :
    obj ∈ filterExceptions isUpper (exportedMembers isUpper ord pkg) finder := by
  have hk : keptKind obj.kind = true := by
    rcases hkind with h | h | h | h <;> simp [h, keptKind]
  have hsel : selectedObj isUpper pkg.Pkg obj = true := by
    simp [selectedObj, hpkg, hk, hname, hexp]
  have hm := exportedFold_mem pkg.Pkg obj hsel (pkg.Info.Defs.map Prod.snd) [] huniq hdef
  have hcheck : shouldCheckForUsage isUpper obj finder = true := by
    unfold shouldCheckForUsage
    cases ht : obj.typ with
    | MethodSig u r => exact absurd ht (htop u r)
    | FuncSig u => simp [notInTestFile, hfile]
    | Named u s => rfl
    | Pointer u e => rfl
    | Basic u => rfl
  unfold filterExceptions exportedMembers
  rw [List.mem_filter]
  refine ⟨?_, hcheck⟩
  rw [(ord.perm _).mem_iff]
  exact List.mem_map.mpr ⟨((obj.Id isUpper), obj), hm, rfl⟩

/-- C6 (amended), on the package above: `UsedExportedConst` is checkable. -/
theorem exported_decl_checkable_witness :
    objUsedExportedConst ∈
      filterExceptions isUpperASCII (exportedMembers isUpperASCII MapOrder.reversed collidingInfo) fixtureFinder :=
  exported_decl_checkable isUpperASCII MapOrder.reversed collidingInfo fixtureFinder objUsedExportedConst
    (by decide) (by decide) (by decide) (by intro u r h; simp [objUsedExportedConst] at h) (by decide) (by decide)
    (by decide)
    (by
      intro o2 h2 _ hn
      simp only [collidingInfo, List.map_cons, List.map_nil, List.mem_cons, Option.some.injEq,
        List.mem_nil_iff, or_false] at h2
      rcases h2 with rfl | rfl | rfl | rfl
      · rfl
      · exact absurd hn (by decide)
      · exact absurd hn (by decide)
      · exact absurd hn (by decide))

/-- C7 (the code departs from the claim): `Reset` is a public method declared
on the pointer receiver `*UsedExportedStruct` of a public type, in `values.go`,
and is not named `Len`, `Less` or `Swap`; `shouldCheckForUsage` returns false
for it, while it returns true for the fixture's `UnusedExportedMethod`, which
has a value receiver. -/
theorem shouldCheckForUsage_pointer_receiver :
    (objPtrRecvMethod.Exported isUpperASCII) = true ∧
    objPtrRecvMethod.typ = GoType.MethodSig 22 (GoType.Pointer 23 usedStructType) ∧
    isExported isUpperASCII "UsedExportedStruct" = true ∧
    objPtrRecvMethod.name ∉ ["Len", "Less", "Swap"] ∧
    hasSuffixStr (fixtureFinder objPtrRecvMethod.pos).Filename "_test.go" = false ∧
    shouldCheckForUsage isUpperASCII objPtrRecvMethod fixtureFinder = false ∧
    shouldCheckForUsage isUpperASCII objUnusedExportedMethod fixtureFinder = true := by
  decide

/-- C8 (the code departs from the claim): the constant `ExportedFixture` and
the function `Helper` are both defined in the in-package test file
`values_test.go`; `shouldCheckForUsage` returns false for the function and
true for the constant, which stays in the checkable set and is reported by
`unused`. -/
theorem shouldCheckForUsage_test_file_const :
    hasSuffixStr (fixtureFinder objTestFileConst.pos).Filename "_test.go" = true ∧
    hasSuffixStr (fixtureFinder objTestFileFunc.pos).Filename "_test.go" = true ∧
    shouldCheckForUsage isUpperASCII objTestFileFunc fixtureFinder = false ∧
    shouldCheckForUsage isUpperASCII objTestFileConst fixtureFinder = true ∧
    filterExceptions isUpperASCII (exportedMembers isUpperASCII MapOrder.inOrder testFileDeclsInfo)
      fixtureFinder = [objTestFileConst] ∧
    unused isUpperASCII MapOrder.inOrder MapOrder.inOrder (some ⟨[testFileDeclsInfo]⟩)
      "github.com/spenczar/project" fixtureFinder
      = UnusedOutcome.result [objTestFileConst] := by
  decide

/-! ## The walk deletes only matched declarations -/

theorem Step.rfl_of (f f1 : useFinder) (P : Object → Prop)
    (h1 : f1.typeInfo = f.typeInfo) (h2 : f1.skipVendor = f.skipVendor)
    (h3 : f1.target = f.target) : Step f f1 P := by
  refine ⟨h1, h2, by rw [h3], by rw [h3], by rw [h3], ?_⟩
  intro D hD
  rw [h3]
  exact Or.inl hD

theorem Step.trans {f f1 f2 : useFinder} {P Q R : Object → Prop}
    (h1 : Step f f1 P) (h2 : Step f1 f2 Q) (hP : ∀ D, P D → R D) (hQ : ∀ D, Q D → R D) :
    Step f f2 R := by
  obtain ⟨a1, a2, a3, a4, a5, a6⟩ := h1
  obtain ⟨b1, b2, b3, b4, b5, b6⟩ := h2
  refine ⟨b1.trans a1, b2.trans a2, b3.trans a3, b4.trans a4, b5.trans a5, ?_⟩
  intro D hD
  rcases a6 D hD with h | h
  · rcases b6 D h with h' | h'
    · exact Or.inl h'
    · exact Or.inr (hQ D h')
  · exact Or.inr (hP D h)

theorem Step.mono {f f1 : useFinder} {P R : Object → Prop}
    (h1 : Step f f1 P) (hP : ∀ D, P D → R D) : Step f f1 R := by
  obtain ⟨a1, a2, a3, a4, a5, a6⟩ := h1
  exact ⟨a1, a2, a3, a4, a5, fun D hD => (a6 D hD).imp id (hP D)⟩

theorem discover_step (ord : MapOrder) (f : useFinder) (o : Option Object) :
    Step f { f with target := (f.target.discover ord o).2 }
      (fun D => ∃ oo, o = some oo ∧ matchesTarget oo D = true) := by
  refine ⟨rfl, rfl, (discover_sublist ord f.target o).2.1, (discover_sublist ord f.target o).2.2,
    (discover_sublist ord f.target o).1, ?_⟩
  intro D hD
  rcases discover_cases ord f.target o with ⟨_, h⟩ | ⟨_, oo, d, ho, _, hm, h⟩
  · left; simp only [h]; exact hD
  · by_cases hd : D = d
    · right; exact ⟨oo, ho, hd ▸ hm⟩
    · left; simp only [h]; exact (List.mem_erase_of_ne hd).mpr hD

theorem discover_ident_step (ord : MapOrder) (f : useFinder) (id : Ident) (ids : List Ident)
    (hid : id ∈ ids) :
    Step f { f with target := (f.target.discover ord (f.typeInfo.ObjectOf id)).2 }
      (Hit f.typeInfo ids) :=
  (discover_step ord f (f.typeInfo.ObjectOf id)).mono
    (fun _ ⟨oo, ho, hm⟩ => ⟨id, hid, oo, ho, hm⟩)

theorem visitIdent_step (ord : MapOrder) (f : useFinder) (id : Ident) (ids : List Ident)
    (hid : id ∈ ids) :
    Step f (f.visitIdent ord id).1 (Hit f.typeInfo ids) := by
  unfold useFinder.visitIdent
  by_cases h : f.queryPkgLocalName ≠ "."
  · rw [if_pos h]
    exact Step.rfl_of f f _ rfl rfl rfl
  · rw [if_neg h]
    exact discover_ident_step ord f id ids hid

theorem visitSelector_step (ord : MapOrder) (f : useFinder) (x : Node) (sel : Ident) :
    Step f (f.visitSelector ord x sel).1 (Hit f.typeInfo (idents x ++ [sel])) := by
  cases x with
  | Ident rcvr =>
    have hsel : sel ∈ idents (Node.Ident rcvr) ++ [sel] := by simp
    have hrc : rcvr ∈ idents (Node.Ident rcvr) ++ [sel] := by simp [idents]
    cases hr : f.typeInfo.ObjectOf rcvr with
    | none =>
      simp only [useFinder.visitSelector, hr, Option.map_none']
      exact discover_ident_step ord f sel _ hsel
    | some ro =>
      cases hk : ro.kind with
      | PkgName imported =>
        by_cases hi : some imported = f.target.pkg
        · simp only [useFinder.visitSelector, hr, Option.map_some', hk, hi, if_true]
          exact discover_ident_step ord f sel _ hsel
        · simp only [useFinder.visitSelector, hr, Option.map_some', hk, hi, if_false]
          exact Step.rfl_of f f _ rfl rfl rfl
      | Var b =>
        simp only [useFinder.visitSelector, hr, Option.map_some', hk]
        have s1 := discover_ident_step ord f rcvr _ hrc
        rw [hr] at s1
        have s2 := discover_ident_step ord
          { f with target := (f.target.discover ord (some ro)).2 } sel _ hsel
        exact Step.trans s1 s2 (fun _ h => h) (fun _ h => h)
      | Const =>
        simp only [useFinder.visitSelector, hr, Option.map_some', hk]
        exact discover_ident_step ord f sel _ hsel
      | Func =>
        simp only [useFinder.visitSelector, hr, Option.map_some', hk]
        exact discover_ident_step ord f sel _ hsel
      | TypeName =>
        simp only [useFinder.visitSelector, hr, Option.map_some', hk]
        exact discover_ident_step ord f sel _ hsel
      | Label =>
        simp only [useFinder.visitSelector, hr, Option.map_some', hk]
        exact discover_ident_step ord f sel _ hsel
  | File a b c => exact Step.rfl_of f f _ rfl rfl rfl
  | ImportSpec s => exact Step.rfl_of f f _ rfl rfl rfl
  | SelectorExpr a b => exact Step.rfl_of f f _ rfl rfl rfl
  | Comment => exact Step.rfl_of f f _ rfl rfl rfl
  | Other cs => exact Step.rfl_of f f _ rfl rfl rfl

theorem importsTarget_some (p : Package) : ∀ imports : List ImportSpec,
    importsTarget (some p) imports =
      some (imports.any (fun s => decide (s.Path = p.path))) := by
  intro imports
  induction imports with
  | nil => rfl
  | cons s rest ih =>
    unfold importsTarget
    simp only [pkgPath]
    by_cases h : s.Path = p.path
    · simp [h]
    · simp [h, ih]

theorem visitFile_some (f : useFinder) (p : Package) (hp : f.target.pkg = some p)
    (imports : List ImportSpec) :
    f.visitFile imports =
      some ({ f with queryPkgLocalName := "" },
        imports.any (fun s => decide (s.Path = p.path))) := by
  unfold useFinder.visitFile
  simp only [hp, importsTarget_some]

theorem visitImportSpec_some (f : useFinder) (p : Package) (hp : f.target.pkg = some p)
    (spec : ImportSpec) :
    ∃ f1, f.visitImportSpec spec = some (f1, false) ∧ f1.typeInfo = f.typeInfo ∧
      f1.skipVendor = f.skipVendor ∧ f1.target = f.target := by
  unfold useFinder.visitImportSpec
  simp only [hp, pkgPath, pkgName]
  by_cases h : spec.Path = p.path
  · cases hn : spec.Name with
    | none => simp [h]
    | some nm => simp [h]
  · simp [h]

mutual
theorem Walk_step (ord : MapOrder) (p : Package) :
    ∀ (n : Node) (f : useFinder), f.target.pkg = some p →
      ∃ f1, Walk ord f n = some f1 ∧ Step f f1 (Hit f.typeInfo (idents n))
  | .File name imports decls, f, hp => by
    rw [Walk]
    simp only [useFinder.Visit, visitFile_some f p hp]
    cases hb : imports.any (fun s => decide (s.Path = p.path)) with
    | false => exact ⟨_, rfl, Step.rfl_of f _ _ rfl rfl rfl⟩
    | true =>
      simp only
      have hq : ({ f with queryPkgLocalName := "" } : useFinder).visitIdent ord name =
          ({ f with queryPkgLocalName := "" }, false) := by
        simp [useFinder.visitIdent]
      rw [hq]
      obtain ⟨f1, h1, s1⟩ := WalkList_step ord p decls { f with queryPkgLocalName := "" } hp
      refine ⟨f1, h1, ?_⟩
      have s0 : Step f { f with queryPkgLocalName := "" } (fun _ => False) :=
        Step.rfl_of f _ _ rfl rfl rfl
      refine Step.trans s0 s1 (fun _ h => h.elim) ?_
      rintro D ⟨id, hid, o, ho, hm⟩
      exact ⟨id, by simp [idents, hid], o, ho, hm⟩
  | .ImportSpec spec, f, hp => by
    rw [Walk]
    obtain ⟨f1, h1, a1, a2, a3⟩ := visitImportSpec_some f p hp spec
    simp only [useFinder.Visit, h1]
    exact ⟨f1, rfl, Step.rfl_of f f1 _ a1 a2 a3⟩
  | .SelectorExpr x sel, f, hp => by
    rw [Walk]
    simp only [useFinder.Visit]
    have s0 := visitSelector_step ord f x sel
    cases hb : (f.visitSelector ord x sel).2 with
    | false =>
      have e : f.visitSelector ord x sel = ((f.visitSelector ord x sel).1, false) := by
        rw [← hb]
      rw [e]
      exact ⟨_, rfl, by simpa [idents] using s0⟩
    | true =>
      have e : f.visitSelector ord x sel = ((f.visitSelector ord x sel).1, true) := by
        rw [← hb]
      rw [e]
      simp only
      have hp1 : (f.visitSelector ord x sel).1.target.pkg = some p := by
        rw [s0.2.2.2.1]; exact hp
      obtain ⟨f2, h2, s2⟩ := Walk_step ord p x (f.visitSelector ord x sel).1 hp1
      rw [h2]
      simp only
      refine ⟨(f2.visitIdent ord sel).1, rfl, ?_⟩
      have s3 := visitIdent_step ord f2 sel [sel] (by simp)
      have t1 : f2.typeInfo = f.typeInfo := s2.1.trans s0.1
      have s12 : Step f f2 (Hit f.typeInfo (idents x ++ [sel])) := by
        refine Step.trans s0 s2 (fun _ h => h) ?_
        rintro D ⟨id, hid, o, ho, hm⟩
        exact ⟨id, by simp [hid], o, by rw [← s0.1]; exact ho, hm⟩
      refine Step.trans s12 s3 (fun D h => by simpa [idents] using h) ?_
      rintro D ⟨id, hid, o, ho, hm⟩
      exact ⟨id, by simp only [idents]; simp at hid; simp [hid], o, by rw [← t1]; exact ho, hm⟩
  | .Ident id, f, _ => by
    rw [Walk]
    simp only [useFinder.Visit]
    have s0 := visitIdent_step ord f id [id] (by simp)
    have hb : (f.visitIdent ord id).2 = false := by
      unfold useFinder.visitIdent; split <;> rfl
    have e : f.visitIdent ord id = ((f.visitIdent ord id).1, false) := by rw [← hb]
    rw [e]
    exact ⟨_, rfl, by simpa [idents] using s0⟩
  | .Comment, f, _ => by
    rw [Walk]
    simp only [useFinder.Visit]
    exact ⟨f, rfl, Step.rfl_of f f _ rfl rfl rfl⟩
  | .Other children, f, hp => by
    rw [Walk]
    simp only [useFinder.Visit]
    obtain ⟨f1, h1, s1⟩ := WalkList_step ord p children f hp
    exact ⟨f1, h1, by simpa [idents] using s1⟩
theorem WalkList_step (ord : MapOrder) (p : Package) :
    ∀ (ns : List Node) (f : useFinder), f.target.pkg = some p →
      ∃ f1, WalkList ord f ns = some f1 ∧ Step f f1 (Hit f.typeInfo (identsList ns))
  | [], f, _ => by
    rw [WalkList]
    exact ⟨f, rfl, Step.rfl_of f f _ rfl rfl rfl⟩
  | n :: rest, f, hp => by
    rw [WalkList]
    obtain ⟨f1, h1, s1⟩ := Walk_step ord p n f hp
    rw [h1]
    simp only
    have hp1 : f1.target.pkg = some p := by rw [s1.2.2.2.1]; exact hp
    obtain ⟨f2, h2, s2⟩ := WalkList_step ord p rest f1 hp1
    refine ⟨f2, h2, ?_⟩
    refine Step.trans s1 s2 ?_ ?_
    · rintro D ⟨id, hid, o, ho, hm⟩
      exact ⟨id, by simp [identsList, hid], o, ho, hm⟩
    · rintro D ⟨id, hid, o, ho, hm⟩
      exact ⟨id, by simp [identsList, hid], o, by rw [← s1.1]; exact ho, hm⟩
end

theorem allFound_iff (t : queryTarget) : t.allFound = true ↔ t.unfound = [] := by
  simp [queryTarget.allFound, List.length_eq_zero]

theorem walkFiles_step (ord : MapOrder) (p : Package) :
    ∀ (files : List Node) (f : useFinder), f.target.pkg = some p →
      ∃ f1 b, walkFiles ord f files = some (f1, b) ∧
        Step f f1 (fun D => ∃ file ∈ files, Hit f.typeInfo (idents file) D) ∧
        (b = true → f1.target.unfound = []) := by
  intro files
  induction files with
  | nil =>
    intro f _
    exact ⟨f, false, rfl, Step.rfl_of f f _ rfl rfl rfl, fun h => Bool.noConfusion h⟩
  | cons file rest ih =>
    intro f hp
    obtain ⟨f1, h1, s1⟩ := Walk_step ord p file f hp
    have s1' : Step f f1 (fun D => ∃ fl ∈ file :: rest, Hit f.typeInfo (idents fl) D) :=
      s1.mono (fun D h => ⟨file, List.mem_cons_self _ _, h⟩)
    unfold walkFiles
    rw [h1]
    simp only
    by_cases ha : f1.target.allFound = true
    · rw [if_pos ha]
      exact ⟨f1, true, rfl, s1', fun _ => (allFound_iff _).mp ha⟩
    · rw [if_neg ha]
      have hp1 : f1.target.pkg = some p := by rw [s1.2.2.2.1]; exact hp
      obtain ⟨f2, b, h2, s2, hb⟩ := ih f1 hp1
      refine ⟨f2, b, h2, Step.trans s1' s2 (fun _ h => h) ?_, hb⟩
      rintro D ⟨fl, hfl, hh⟩
      rw [s1.1] at hh
      exact ⟨fl, List.mem_cons_of_mem _ hfl, hh⟩

/-- What a run of the package loop preserves and deletes. -/
theorem walkPackages_step (ord : MapOrder) (p : Package) :
    ∀ (pkgs : List PackageInfo) (f : useFinder), f.target.pkg = some p →
      f.skipVendor = true →
      ∃ f1 b, walkPackages ord f pkgs = some (f1, b) ∧
        f1.target.unfound.Sublist f.target.unfound ∧
        (∀ D ∈ f.target.unfound, D ∈ f1.target.unfound ∨ MatchedIn ⟨pkgs⟩ (some p) D) ∧
        (b = true → f1.target.unfound = []) := by
  intro pkgs
  induction pkgs with
  | nil =>
    intro f _ _
    exact ⟨f, false, rfl, List.Sublist.refl _, fun D hD => Or.inl hD,
      fun h => Bool.noConfusion h⟩
  | cons pi rest ih =>
    intro f hp hv
    have lift : ∀ D, MatchedIn ⟨rest⟩ (some p) D → MatchedIn ⟨pi :: rest⟩ (some p) D := by
      rintro D ⟨q, hq, hrest⟩
      exact ⟨q, List.mem_cons_of_mem _ hq, hrest⟩
    have skip : (∃ f1 b, walkPackages ord f rest = some (f1, b) ∧
        f1.target.unfound.Sublist f.target.unfound ∧
        (∀ D ∈ f.target.unfound, D ∈ f1.target.unfound ∨ MatchedIn ⟨rest⟩ (some p) D) ∧
        (b = true → f1.target.unfound = [])) →
        ∃ f1 b, walkPackages ord f rest = some (f1, b) ∧
        f1.target.unfound.Sublist f.target.unfound ∧
        (∀ D ∈ f.target.unfound, D ∈ f1.target.unfound ∨
          MatchedIn ⟨pi :: rest⟩ (some p) D) ∧
        (b = true → f1.target.unfound = []) := by
      rintro ⟨f1, b, h1, h2, h3, h4⟩
      exact ⟨f1, b, h1, h2, fun D hD => (h3 D hD).imp id (lift D), h4⟩
    unfold walkPackages
    by_cases c1 : some pi.Pkg = f.target.pkg
    · rw [if_pos c1]; exact skip (ih f hp hv)
    · rw [if_neg c1]
      by_cases c2 : (!containsStr pi.Pkg.path ".") = true
      · rw [if_pos c2]; exact skip (ih f hp hv)
      · rw [if_neg c2]
        by_cases c3 : (f.skipVendor && containsStr pi.Pkg.path "vendor") = true
        · rw [if_pos c3]; exact skip (ih f hp hv)
        · rw [if_neg c3]
          have hscope : inScope (some p) pi = true := by
            rw [hp] at c1
            rw [hv] at c3
            simp only [inScope, Bool.and_eq_true, decide_eq_true_eq, Bool.not_eq_true',
              ne_eq]
            simp only [Bool.not_eq_true', Bool.not_eq_false] at c2
            simp only [Bool.true_and, Bool.not_eq_true] at c3
            exact ⟨⟨c1, c2⟩, c3⟩
          obtain ⟨f1, b, h1, s1, hb⟩ :=
            walkFiles_step ord p pi.Files { f with typeInfo := pi.Info } hp
          have hit : ∀ D, (∃ file ∈ pi.Files, Hit pi.Info (idents file) D) →
              MatchedIn ⟨pi :: rest⟩ (some p) D :=
            fun D h => ⟨pi, List.mem_cons_self _ _, hscope, h⟩
          rw [h1]
          cases b with
          | true =>
            exact ⟨f1, true, rfl, s1.2.2.2.2.1,
              fun D hD => (s1.2.2.2.2.2 D hD).imp id (hit D), hb⟩
          | false =>
            simp only
            by_cases ha : f1.target.allFound = true
            · rw [if_pos ha]
              exact ⟨f1, true, rfl, s1.2.2.2.2.1,
                fun D hD => (s1.2.2.2.2.2 D hD).imp id (hit D),
                fun _ => (allFound_iff _).mp ha⟩
            · rw [if_neg ha]
              have hp1 : f1.target.pkg = some p := by rw [s1.2.2.2.1]; exact hp
              have hv1 : f1.skipVendor = true := by rw [s1.2.1]; exact hv
              obtain ⟨f2, b2, h2, sub2, d2, hb2⟩ := ih f1 hp1 hv1
              refine ⟨f2, b2, h2, sub2.trans s1.2.2.2.2.1, ?_, hb2⟩
              intro D hD
              rcases s1.2.2.2.2.2 D hD with h | h
              · exact (d2 D h).imp id (lift D)
              · exact Or.inr (hit D h)

theorem mem_foldl_mapInsert : ∀ (objs m : List Object) (D : Object),
    D ∈ objs.foldl mapInsert m ↔ D ∈ m ∨ D ∈ objs := by
  intro objs
  induction objs with
  | nil => intro m D; simp
  | cons o rest ih =>
    intro m D
    rw [List.foldl_cons, ih]
    unfold mapInsert
    by_cases h : o ∈ m
    · rw [if_pos h]
      constructor
      · rintro (h1 | h1)
        · exact Or.inl h1
        · exact Or.inr (List.mem_cons_of_mem _ h1)
      · rintro (h1 | h1)
        · exact Or.inl h1
        · rcases List.mem_cons.mp h1 with e | e
          · exact Or.inl (e ▸ h)
          · exact Or.inr e
    · rw [if_neg h]
      simp only [List.mem_append, List.mem_singleton, List.mem_cons]
      tauto

theorem nodup_foldl_mapInsert : ∀ (objs m : List Object), m.Nodup →
    (objs.foldl mapInsert m).Nodup := by
  intro objs
  induction objs with
  | nil => intro m h; exact h
  | cons o rest ih =>
    intro m h
    rw [List.foldl_cons]
    apply ih
    unfold mapInsert
    by_cases ho : o ∈ m
    · rw [if_pos ho]; exact h
    · rw [if_neg ho]
      rw [List.nodup_append]
      refine ⟨h, List.nodup_singleton o, ?_⟩
      intro a ha hb
      rw [List.mem_singleton] at hb
      exact ho (hb ▸ ha)

/-- The result of `findUnused` on a list headed by an object with a package. -/
theorem findUnused_core (ord : MapOrder) (prog : Program) (o0 : Object) (rest : List Object)
    (p : Package) (hp : o0.pkg = some p) :
    ∃ res, findUnused ord prog (o0 :: rest) = some res ∧ res.Nodup ∧
      (∀ D ∈ res, D ∈ o0 :: rest) ∧
      ∀ D ∈ o0 :: rest, D ∈ res ∨ MatchedIn prog (some p) D := by
  obtain ⟨f1, b, h1, sub, del, hb⟩ := walkPackages_step ord p prog.AllPackages
    { target := { all := o0 :: rest, pkg := o0.pkg,
                  unfound := (o0 :: rest).foldl mapInsert [] },
      queryPkgLocalName := "", skipVendor := true, typeInfo := ⟨[], []⟩ } hp rfl
  have hnd : ((o0 :: rest).foldl mapInsert []).Nodup :=
    nodup_foldl_mapInsert _ _ List.nodup_nil
  have hmem : ∀ D, D ∈ (o0 :: rest).foldl mapInsert [] ↔ D ∈ o0 :: rest := by
    intro D; rw [mem_foldl_mapInsert]; simp
  unfold findUnused
  simp only [newTarget]
  rw [h1]
  cases b with
  | true =>
    refine ⟨[], rfl, List.nodup_nil, fun D hD => absurd hD (List.not_mem_nil D), ?_⟩
    intro D hD
    rcases del D ((hmem D).mpr hD) with h | h
    · rw [hb rfl] at h; exact absurd h (List.not_mem_nil D)
    · exact Or.inr h
  | false =>
    refine ⟨ord.enum f1.target.unfound, rfl, ?_, ?_, ?_⟩
    · exact (ord.perm _).nodup_iff.mpr (sub.nodup hnd)
    · intro D hD
      exact (hmem D).mp (sub.subset ((ord.perm _).mem_iff.mp hD))
    · intro D hD
      rcases del D ((hmem D).mpr hD) with h | h
      · exact Or.inl ((ord.perm _).mem_iff.mpr h)
      · exact Or.inr h

/-! ## Claims about `findUnused` and the walker -/

/-- C1 as stated fails in both directions. In `typeUseProgram` no identifier
resolves to the target `Config`, yet `Config` is not returned: the variable `c`
of type `Config` matched it. In `noImportProgram` an identifier of an in-scope
package resolves to the target `UsedExportedMethod`, yet it is returned: the
file does not import the target package and is not entered. -/
theorem findUnused_not_iff_resolved :
    (findUnused MapOrder.inOrder typeUseProgram [objConfig, objUsedExportedFunc] = some [] ∧
      resolvedIn typeUseProgram (some projectPkg) objConfig = false) ∧
    (findUnused MapOrder.inOrder noImportProgram
        [objUsedExportedStruct, objUsedExportedMethod]
        = some [objUsedExportedStruct, objUsedExportedMethod] ∧
      resolvedIn noImportProgram (some projectPkg) objUsedExportedMethod = true) := by
  decide

/-- C2 (the code departs from the claim): in a file that imports the target,
under its default name or under the alias `q`, the selector `project.Default`
occurs as the operand of the enclosing selector `project.Default.Name`; the
walker does not descend into the enclosing selector, and `Default` is returned
as unused, under either enumeration order. -/
theorem findUnused_misses_nested_selector :
    findUnused MapOrder.inOrder (nestedUseProgram importProject "project" pkgNameProject)
        [objConfig, objDefault] = some [objConfig, objDefault] ∧
    findUnused MapOrder.reversed (nestedUseProgram importProject "project" pkgNameProject)
        [objConfig, objDefault] = some [objDefault, objConfig] ∧
    findUnused MapOrder.inOrder (nestedUseProgram importProjectAsQ "q" pkgNameQ)
        [objConfig, objDefault] = some [objConfig, objDefault] ∧
    findUnused MapOrder.reversed (nestedUseProgram importProjectAsQ "q" pkgNameQ)
        [objConfig, objDefault] = some [objDefault, objConfig] ∧
    resolvedIn (nestedUseProgram importProject "project" pkgNameProject) (some projectPkg)
        objDefault = true := by
  decide

/-- C3 as stated fails. For the selector `other.Shared`, whose operand names
another package, nothing is passed to `discover`: the state is unchanged, while
`discover` on the member `Shared`, of type `Config`, would delete `Config`. And
when the only use is `q.UsedExportedStruct{}.UsedExportedMethod()`, both the
type and the method are returned as unused. -/
theorem visitSelector_not_unconditional :
    (sharedFinder.visitSelector MapOrder.inOrder (Node.Ident ⟨5, "other"⟩) ⟨6, "Shared"⟩
        = (sharedFinder, false) ∧
      (sharedFinder.target.discover MapOrder.inOrder
        (sharedFinder.typeInfo.ObjectOf ⟨6, "Shared"⟩)).2.unfound = []) ∧
    findUnused MapOrder.inOrder literalCallProgram
        [objUsedExportedStruct, objUsedExportedMethod]
      = some [objUsedExportedStruct, objUsedExportedMethod] := by
  decide

/-- C3 (amended): for a selector `X.Y` whose operand `X` is an identifier, the
object `Y` resolves to is passed to `discover` unless `X` names a package other
than the target: when `X` names the target package it is the only candidate
and the walk descends; when `X` is a variable, the variable is tried first;
when `X` names another package nothing is tried. For instance, when the
importer aliases the target as `q` and uses `v := q.UsedExportedStruct{}` and
`v.UsedExportedMethod()`, neither the type nor the method is returned. -/
theorem visitSelector_ident_operand (ord : MapOrder) (f : useFinder) (rcvr sel : Ident) :
    (∀ imported, (f.typeInfo.ObjectOf rcvr).map Object.kind = some (ObjKind.PkgName imported) →
      some imported = f.target.pkg →
      f.visitSelector ord (Node.Ident rcvr) sel =
        ({ f with target := (f.target.discover ord (f.typeInfo.ObjectOf sel)).2 }, true)) ∧
    (∀ imported, (f.typeInfo.ObjectOf rcvr).map Object.kind = some (ObjKind.PkgName imported) →
      some imported ≠ f.target.pkg →
      f.visitSelector ord (Node.Ident rcvr) sel = (f, false)) ∧
    (∀ isField, (f.typeInfo.ObjectOf rcvr).map Object.kind = some (ObjKind.Var isField) →
      f.visitSelector ord (Node.Ident rcvr) sel =
        ({ f with target :=
            ((f.target.discover ord (f.typeInfo.ObjectOf rcvr)).2.discover ord
              (f.typeInfo.ObjectOf sel)).2 }, false)) ∧
    ((∀ imported, (f.typeInfo.ObjectOf rcvr).map Object.kind ≠ some (ObjKind.PkgName imported)) →
      (∀ isField, (f.typeInfo.ObjectOf rcvr).map Object.kind ≠ some (ObjKind.Var isField)) →
      f.visitSelector ord (Node.Ident rcvr) sel =
        ({ f with target := (f.target.discover ord (f.typeInfo.ObjectOf sel)).2 }, false)) ∧
    findUnused MapOrder.inOrder variableCallProgram
        [objUsedExportedStruct, objUsedExportedMethod] = some [] ∧
    findUnused MapOrder.reversed variableCallProgram
        [objUsedExportedStruct, objUsedExportedMethod] = some [] := by
  refine ⟨?_, ?_, ?_, ?_, by decide, by decide⟩
  · intro imported hk hi
    simp only [useFinder.visitSelector, hk, hi, if_true]
  · intro imported hk hi
    simp only [useFinder.visitSelector, hk, hi, if_false]
  · intro isField hk
    simp only [useFinder.visitSelector, hk]
  · intro h1 h2
    unfold useFinder.visitSelector
    simp only

/-- C3 (amended), at the selector `other.Shared` of the example state. -/
theorem visitSelector_ident_operand_witness :
    sharedFinder.visitSelector MapOrder.inOrder (Node.Ident ⟨5, "other"⟩) ⟨6, "Shared"⟩
      = (sharedFinder, false) :=
  (visitSelector_ident_operand MapOrder.inOrder sharedFinder ⟨5, "other"⟩ ⟨6, "Shared"⟩).2.1
    otherPkg (by decide) (by decide)

/-- C9 as stated fails: the fixture's `OnlyTestExportedFunc` is referenced only
from the external test package `project_test`; that package is in scope, its
file is walked, and `OnlyTestExportedFunc` is not returned. -/
theorem findUnused_walks_external_tests :
    inScope (some projectPkg) projectTestInfo = true ∧
    resolvedIn ⟨[projectTestInfo]⟩ (some projectPkg) objUnusedExportedFunc = false ∧
    findUnused MapOrder.inOrder externalTestProgram
        [objOnlyTestExportedFunc, objUnusedExportedFunc] = some [objUnusedExportedFunc] := by
  decide

/-! ## What `exportedMembers` and `unused` return -/

theorem mapSet_mem_cases (m : List (String × Object)) (k : String) (v : Object)
    (q : String × Object) (h : q ∈ mapSet m k v) : q = (k, v) ∨ q ∈ m := by
  induction m with
  | nil =>
    simp only [mapSet, List.mem_singleton] at h
    exact Or.inl h
  | cons p rest ih =>
    obtain ⟨k1, v1⟩ := p
    unfold mapSet at h
    by_cases hk : k1 = k
    · rw [if_pos hk] at h
      rcases List.mem_cons.mp h with e | e
      · exact Or.inl e
      · exact Or.inr (List.mem_cons_of_mem _ e)
    · rw [if_neg hk] at h
      rcases List.mem_cons.mp h with e | e
      · exact Or.inr (e ▸ List.mem_cons_self _ _)
      · exact (ih e).imp id (List.mem_cons_of_mem _)

theorem exportedFold_selected {isUpper : Char → Bool} (pkg : Package) :
    ∀ (l : List (Option Object)) (m : List (String × Object)),
      (∀ q ∈ m, selectedObj isUpper pkg q.2 = true) →
      ∀ q ∈ l.foldl (exportedStep isUpper pkg) m, selectedObj isUpper pkg q.2 = true := by
  intro l
  induction l with
  | nil => intro m hm q hq; exact hm q hq
  | cons x rest ih =>
    intro m hm
    rw [List.foldl_cons]
    apply ih
    intro q hq
    cases x with
    | none => exact hm q hq
    | some o =>
      rw [exportedStep_eq] at hq
      by_cases hs : selectedObj isUpper pkg o = true
      · rw [if_pos hs] at hq
        rcases mapSet_mem_cases _ _ _ _ hq with e | e
        · rw [e]; exact hs
        · exact hm q e
      · rw [if_neg hs] at hq
        exact hm q hq

theorem exportedFold_from_defs {isUpper : Char → Bool} (pkg : Package) :
    ∀ (l : List (Option Object)) (m : List (String × Object)),
      ∀ q ∈ l.foldl (exportedStep isUpper pkg) m, q ∈ m ∨ some q.2 ∈ l := by
  intro l
  induction l with
  | nil => intro m q hq; exact Or.inl hq
  | cons x rest ih =>
    intro m q hq
    rw [List.foldl_cons] at hq
    rcases ih _ q hq with h | h
    · cases x with
      | none => exact Or.inl h
      | some o =>
        rw [exportedStep_eq] at h
        by_cases hs : selectedObj isUpper pkg o = true
        · rw [if_pos hs] at h
          rcases mapSet_mem_cases _ _ _ _ h with e | e
          · right; rw [e]; exact List.mem_cons_self _ _
          · exact Or.inl e
        · rw [if_neg hs] at h
          exact Or.inl h
    · exact Or.inr (List.mem_cons_of_mem _ h)

/-- Every object returned by `exportedMembers` is one of the package's
definitions and passed the tests of the loop. -/
theorem exportedMembers_selected {isUpper : Char → Bool} (ord : MapOrder) (pkg : PackageInfo)
    (o : Object)
    (h : o ∈ exportedMembers isUpper ord pkg) :
    selectedObj isUpper pkg.Pkg o = true ∧ some o ∈ pkg.Info.Defs.map Prod.snd := by
  unfold exportedMembers at h
  rw [(ord.perm _).mem_iff] at h
  obtain ⟨q, hq, rfl⟩ := List.mem_map.mp h
  constructor
  · exact exportedFold_selected pkg.Pkg _ [] (fun q hq => absurd hq (List.not_mem_nil q)) q hq
  · rcases exportedFold_from_defs pkg.Pkg _ [] q hq with e | e
    · exact absurd e (List.not_mem_nil q)
    · exact e

theorem selectedObj_pkg {isUpper : Char → Bool} (pkg : Package) (o : Object)
    (h : selectedObj isUpper pkg o = true) :
    o.pkg = some pkg ∧ keptKind o.kind = true ∧ hasPrefixStr o.name "Test" = false ∧
      (o.Exported isUpper) = true := by
  simp only [selectedObj, Bool.and_eq_true, decide_eq_true_eq, Bool.not_eq_true'] at h
  exact ⟨h.1.1.1, h.1.1.2, h.1.2, h.2⟩

/-- The outcomes of `unused` on a loaded program that contains the target
package: an empty result when nothing is checkable, otherwise the result of
`findUnused`, which does not panic. -/
theorem unused_spec {isUpper : Char → Bool} (ordOut ordUnfound : MapOrder) (prog : Program)
    (target : String)
    (position : Nat → Position) (targetPkg : PackageInfo)
    (hpk : prog.Package target = some targetPkg) :
    (filterExceptions isUpper (exportedMembers isUpper ordOut targetPkg) position = [] ∧
      unused isUpper ordOut ordUnfound (some prog) target position = UnusedOutcome.result []) ∨
    (filterExceptions isUpper (exportedMembers isUpper ordOut targetPkg) position ≠ [] ∧
      ∃ res, findUnused ordUnfound prog
          (filterExceptions isUpper (exportedMembers isUpper ordOut targetPkg) position) = some res ∧
        unused isUpper ordOut ordUnfound (some prog) target position = UnusedOutcome.result res ∧
        res.Nodup ∧
        (∀ D ∈ res, D ∈ filterExceptions isUpper (exportedMembers isUpper ordOut targetPkg) position) ∧
        ∀ D ∈ filterExceptions isUpper (exportedMembers isUpper ordOut targetPkg) position,
          D ∈ res ∨ MatchedIn prog (some targetPkg.Pkg) D) := by
  cases hl : filterExceptions isUpper (exportedMembers isUpper ordOut targetPkg) position with
  | nil =>
    left
    refine ⟨rfl, ?_⟩
    simp [unused, hpk, hl]
  | cons o0 rest =>
    right
    refine ⟨List.cons_ne_nil _ _, ?_⟩
    have hmem : o0 ∈ filterExceptions isUpper (exportedMembers isUpper ordOut targetPkg) position := by
      rw [hl]; exact List.mem_cons_self _ _
    have hsel := (exportedMembers_selected ordOut targetPkg o0
      (List.mem_filter.mp hmem).1).1
    have hp := (selectedObj_pkg _ _ hsel).1
    obtain ⟨res, h1, h2, h3, h4⟩ := findUnused_core ordUnfound prog o0 rest targetPkg.Pkg hp
    refine ⟨res, h1, ?_, h2, h3, h4⟩
    simp [unused, hpk, hl, h1]

/-! ## Claims about exemptions, fields and the empty target set -/

theorem unused_result_subset {isUpper : Char → Bool} (ordOut ordUnfound : MapOrder)
    (loaded : Option Program)
    (target : String) (position : Nat → Position) (res : List Object)
    (h : unused isUpper ordOut ordUnfound loaded target position = UnusedOutcome.result res) :
    ∃ prog targetPkg, loaded = some prog ∧ prog.Package target = some targetPkg ∧
      ∀ D ∈ res, D ∈ filterExceptions isUpper (exportedMembers isUpper ordOut targetPkg) position := by
  cases loaded with
  | none => simp [unused] at h
  | some prog =>
    cases hpk : prog.Package target with
    | none => simp [unused, hpk] at h
    | some targetPkg =>
      refine ⟨prog, targetPkg, rfl, hpk, ?_⟩
      rcases unused_spec ordOut ordUnfound prog target position targetPkg hpk with
        ⟨_, h2⟩ | ⟨_, res2, _, h2, _, h3, _⟩
      · rw [h2] at h
        cases h
        intro D hD
        exact absurd hD (List.not_mem_nil D)
      · rw [h2] at h
        cases h
        exact h3

/-- C14: for every method named `Len`, `Less` or `Swap`, whatever its receiver,
`shouldCheckForUsage` returns false, `filterExceptions` omits it from any list,
and it is in no list of unused objects that `unused` returns, whatever the
program and the enumeration orders. -/
theorem sort_methods_never_reported (isUpper : Char → Bool) (ordOut ordUnfound : MapOrder)
    (loaded : Option Program) (target : String) (position : Nat → Position)
    (objs : List Object) (o : Object) (u : Nat) (recvType : GoType)
    (htyp : o.typ = GoType.MethodSig u recvType)
    (hname : o.name = "Len" ∨ o.name = "Less" ∨ o.name = "Swap") :
    shouldCheckForUsage isUpper o position = false ∧ o ∉ filterExceptions isUpper objs position ∧
      ∀ res, unused isUpper ordOut ordUnfound loaded target position = UnusedOutcome.result res →
        o ∉ res := by
  have h1 : shouldCheckForUsage isUpper o position = false := by
    unfold shouldCheckForUsage
    rw [htyp]
    rcases hname with h | h | h <;> simp [h]
  have h2 : ∀ l : List Object, o ∉ filterExceptions isUpper l position := by
    intro l hm
    have := (List.mem_filter.mp hm).2
    rw [h1] at this
    exact Bool.noConfusion this
  refine ⟨h1, h2 objs, ?_⟩
  intro res hres hm
  obtain ⟨_, targetPkg, _, _, hsub⟩ :=
    unused_result_subset ordOut ordUnfound loaded target position res hres
  exact h2 _ (hsub o hm)

/-- C14, on the method `Len` of `UsedExportedStruct`, which nothing references. -/
theorem sort_methods_never_reported_witness :
    shouldCheckForUsage isUpperASCII objLenMethod fixtureFinder = false ∧
    objLenMethod ∉ filterExceptions isUpperASCII [objConfig, objLenMethod] fixtureFinder ∧
      ∀ res, unused isUpperASCII MapOrder.inOrder MapOrder.reversed (some ⟨[sortableInfo]⟩)
          "github.com/spenczar/project" fixtureFinder = UnusedOutcome.result res →
        objLenMethod ∉ res :=
  sort_methods_never_reported isUpperASCII MapOrder.inOrder MapOrder.reversed (some ⟨[sortableInfo]⟩)
    "github.com/spenczar/project" fixtureFinder [objConfig, objLenMethod] objLenMethod 31
    usedStructType rfl (Or.inl rfl)

/-- C15: a struct field is never an element of the result of `exportedMembers`,
and so is in no list of unused objects that `unused` returns, whatever the
program contains and whatever the enumeration orders. -/
theorem fields_never_reported (isUpper : Char → Bool) (ordOut ordUnfound : MapOrder)
    (pkg : PackageInfo)
    (loaded : Option Program) (target : String) (position : Nat → Position) (o : Object)
    (hfield : o.kind = ObjKind.Var true) :
    o ∉ exportedMembers isUpper ordOut pkg ∧
      ∀ res, unused isUpper ordOut ordUnfound loaded target position = UnusedOutcome.result res →
        o ∉ res := by
  have h1 : ∀ q : PackageInfo, o ∉ exportedMembers isUpper ordOut q := by
    intro q hm
    have hk := (selectedObj_pkg _ _ (exportedMembers_selected ordOut q o hm).1).2.1
    rw [hfield] at hk
    simp [keptKind] at hk
  refine ⟨h1 pkg, ?_⟩
  intro res hres hm
  obtain ⟨_, targetPkg, _, _, hsub⟩ :=
    unused_result_subset ordOut ordUnfound loaded target position res hres
  exact h1 targetPkg (List.mem_filter.mp (hsub o hm)).1

/-- C15, on the field `Name` of `Config`. -/
theorem fields_never_reported_witness :
    objNameField ∉ exportedMembers isUpperASCII MapOrder.inOrder sortableInfo ∧
      ∀ res, unused isUpperASCII MapOrder.inOrder MapOrder.inOrder (some ⟨[sortableInfo]⟩)
          "github.com/spenczar/project" fixtureFinder = UnusedOutcome.result res →
        objNameField ∉ res :=
  fields_never_reported isUpperASCII MapOrder.inOrder MapOrder.inOrder sortableInfo
    (some ⟨[sortableInfo]⟩) "github.com/spenczar/project" fixtureFinder objNameField rfl

/-- C16: when the type declaration `T` is unfound and the candidate's type is a
pointer, `n + 1` levels deep, to the type of `T`, and the candidate matches no
other unfound declaration, `discover` returns true and removes `T`, and nothing
else, from the unfound set. -/
theorem discover_pointer_to_type (ord : MapOrder) (t : queryTarget) (T o : Object) (n : Nat)
    (hnd : t.unfound.Nodup)
    (hT : T ∈ t.unfound) (hkind : T.kind = ObjKind.TypeName)
    (hptr : stripPointers (n + 1) o.typ = some T.typ)
    (hother : ∀ d ∈ t.unfound, d ≠ T → matchesTarget o d = false) :
    (t.discover ord (some o)).1 = true ∧ T ∉ (t.discover ord (some o)).2.unfound ∧
      (t.discover ord (some o)).2.unfound = t.unfound.erase T := by
  have hm : matchesTarget o T = true :=
    (matchesTarget_iff o T).mpr (Or.inr ⟨hkind, n + 1, hptr⟩)
  have htrue : (t.discover ord (some o)).1 = true :=
    (discover_true_iff ord t (some o)).mpr ⟨o, T, rfl, hT, hm⟩
  obtain ⟨oo, d, ho, hd, hmd, he⟩ := discover_fst_true ord t (some o) htrue
  cases ho
  have hdT : d = T := by
    by_contra hne
    have := hother d hd hne
    rw [hmd] at this
    exact Bool.noConfusion this
  subst hdT
  refine ⟨htrue, ?_, by rw [he]⟩
  rw [he]
  exact fun hmem => ((List.Nodup.mem_erase_iff hnd).mp hmem).1 rfl

/-- C16, with `Config` and `Default` unfound and a candidate of type `**Config`. -/
theorem discover_pointer_to_type_witness :
    (queryTarget.discover MapOrder.reversed
        ⟨[objConfig, objDefault], some projectPkg, [objConfig, objDefault]⟩
        (some objPtrPtrVar)).1 = true ∧
    objConfig ∉ (queryTarget.discover MapOrder.reversed
        ⟨[objConfig, objDefault], some projectPkg, [objConfig, objDefault]⟩
        (some objPtrPtrVar)).2.unfound ∧
    (queryTarget.discover MapOrder.reversed
        ⟨[objConfig, objDefault], some projectPkg, [objConfig, objDefault]⟩
        (some objPtrPtrVar)).2.unfound = [objConfig, objDefault].erase objConfig :=
  discover_pointer_to_type MapOrder.reversed
    ⟨[objConfig, objDefault], some projectPkg, [objConfig, objDefault]⟩
    objConfig objPtrPtrVar 1 (by decide) (by decide) rfl rfl (by decide)

/-- C20: when the target package has no checkable declaration, `unused` returns
a result with an empty list, although `findUnused` on the empty list would
panic in `newTarget`; when it has one, `newTarget` is given a non-empty list
and `unused` returns the result of `findUnused`; so `unused` never panics. -/
theorem unused_empty_target_set (isUpper : Char → Bool) (ordOut ordUnfound : MapOrder)
    (loaded : Option Program)
    (target : String) (position : Nat → Position) :
    (∀ prog targetPkg, loaded = some prog → prog.Package target = some targetPkg →
      filterExceptions isUpper (exportedMembers isUpper ordOut targetPkg) position = [] →
      unused isUpper ordOut ordUnfound loaded target position = UnusedOutcome.result [] ∧
      findUnused ordUnfound prog [] = none) ∧
    (∀ prog targetPkg, loaded = some prog → prog.Package target = some targetPkg →
      filterExceptions isUpper (exportedMembers isUpper ordOut targetPkg) position ≠ [] →
      (newTarget (filterExceptions isUpper (exportedMembers isUpper ordOut targetPkg) position)).isSome
        = true ∧
      ∃ res, findUnused ordUnfound prog
          (filterExceptions isUpper (exportedMembers isUpper ordOut targetPkg) position) = some res ∧
        unused isUpper ordOut ordUnfound loaded target position = UnusedOutcome.result res) ∧
    unused isUpper ordOut ordUnfound loaded target position ≠ UnusedOutcome.panicked := by
  refine ⟨?_, ?_, ?_⟩
  · intro prog targetPkg hl hpk he
    subst hl
    rcases unused_spec ordOut ordUnfound prog target position targetPkg hpk with
      ⟨_, h2⟩ | ⟨hne, _⟩
    · exact ⟨h2, rfl⟩
    · exact absurd he hne
  · intro prog targetPkg hl hpk hne
    subst hl
    rcases unused_spec ordOut ordUnfound prog target position targetPkg hpk with
      ⟨he, _⟩ | ⟨_, res, h1, h2, _⟩
    · exact absurd he hne
    · refine ⟨?_, res, h1, h2⟩
      cases hl : filterExceptions isUpper (exportedMembers isUpper ordOut targetPkg) position with
      | nil => exact absurd hl hne
      | cons a l => rfl
  · cases loaded with
    | none => exact fun h => UnusedOutcome.noConfusion h
    | some prog =>
      cases hpk : prog.Package target with
      | none =>
        simp only [unused, hpk]
        exact fun h => UnusedOutcome.noConfusion h
      | some targetPkg =>
        rcases unused_spec ordOut ordUnfound prog target position targetPkg hpk with
          ⟨_, h2⟩ | ⟨_, res, _, h2, _⟩
        · rw [h2]; exact fun h => UnusedOutcome.noConfusion h
        · rw [h2]; exact fun h => UnusedOutcome.noConfusion h

/-- C20, on a target package whose only declaration is unexported. -/
theorem unused_empty_target_set_witness :
    filterExceptions isUpperASCII (exportedMembers isUpperASCII MapOrder.inOrder emptyTargetInfo) fixtureFinder = [] ∧
    unused isUpperASCII MapOrder.inOrder MapOrder.inOrder
        (some ⟨emptyTargetInfo :: constUseProgram.AllPackages⟩)
        "github.com/spenczar/project" fixtureFinder = UnusedOutcome.result [] ∧
    findUnused MapOrder.inOrder ⟨emptyTargetInfo :: constUseProgram.AllPackages⟩ [] = none :=
  ⟨by decide,
    (unused_empty_target_set isUpperASCII MapOrder.inOrder MapOrder.inOrder
      (some ⟨emptyTargetInfo :: constUseProgram.AllPackages⟩) "github.com/spenczar/project"
      fixtureFinder).1 ⟨emptyTargetInfo :: constUseProgram.AllPackages⟩ emptyTargetInfo
      rfl rfl (by decide)⟩

/-! ## Early exit -/

theorem walkFiles_agree (ord : MapOrder) (p : Package) :
    ∀ (files : List Node) (f : useFinder), f.target.pkg = some p →
      ∃ f1 b f2, walkFiles ord f files = some (f1, b) ∧
        walkFilesNoExit ord f files = some f2 ∧
        (b = false → f2 = f1) ∧
        (b = true → f1.target.unfound = [] ∧ f2.target.unfound = []) ∧
        f2.target.pkg = some p ∧ f2.skipVendor = f.skipVendor ∧
        f2.target.unfound.Sublist f.target.unfound := by
  intro files
  induction files with
  | nil =>
    intro f hp
    exact ⟨f, false, f, rfl, rfl, fun _ => rfl, fun h => Bool.noConfusion h, hp, rfl,
      List.Sublist.refl _⟩
  | cons file rest ih =>
    intro f hp
    obtain ⟨g, hg, sg⟩ := Walk_step ord p file f hp
    have hpg : g.target.pkg = some p := by rw [sg.2.2.2.1]; exact hp
    obtain ⟨f1, b, f2, h1, h2, e1, e2, hp2, hv2, sub2⟩ := ih g hpg
    unfold walkFiles walkFilesNoExit
    rw [hg]
    simp only
    by_cases ha : g.target.allFound = true
    · rw [if_pos ha]
      have hge : g.target.unfound = [] := (allFound_iff _).mp ha
      refine ⟨g, true, f2, rfl, h2, fun h => Bool.noConfusion h, fun _ => ⟨hge, ?_⟩, hp2,
        hv2.trans sg.2.1, sub2.trans sg.2.2.2.2.1⟩
      rw [hge] at sub2
      exact List.sublist_nil.mp sub2
    · rw [if_neg ha]
      exact ⟨f1, b, f2, h1, h2, e1, e2, hp2, hv2.trans sg.2.1, sub2.trans sg.2.2.2.2.1⟩

theorem walkPackagesNoExit_sublist (ord : MapOrder) (p : Package) :
    ∀ (pkgs : List PackageInfo) (f : useFinder), f.target.pkg = some p →
      ∃ f2, walkPackagesNoExit ord f pkgs = some f2 ∧
        f2.target.unfound.Sublist f.target.unfound := by
  intro pkgs
  induction pkgs with
  | nil => intro f _; exact ⟨f, rfl, List.Sublist.refl _⟩
  | cons pi rest ih =>
    intro f hp
    unfold walkPackagesNoExit
    by_cases c1 : some pi.Pkg = f.target.pkg
    · rw [if_pos c1]; exact ih f hp
    · rw [if_neg c1]
      by_cases c2 : (!containsStr pi.Pkg.path ".") = true
      · rw [if_pos c2]; exact ih f hp
      · rw [if_neg c2]
        by_cases c3 : (f.skipVendor && containsStr pi.Pkg.path "vendor") = true
        · rw [if_pos c3]; exact ih f hp
        · rw [if_neg c3]
          obtain ⟨_, _, f2, _, h2, _, _, hp2, _, sub2⟩ :=
            walkFiles_agree ord p pi.Files { f with typeInfo := pi.Info } hp
          rw [h2]
          obtain ⟨f3, h3, sub3⟩ := ih f2 hp2
          exact ⟨f3, h3, sub3.trans sub2⟩

theorem walkPackages_agree (ord : MapOrder) (p : Package) :
    ∀ (pkgs : List PackageInfo) (f : useFinder), f.target.pkg = some p →
      ∃ f1 b f2, walkPackages ord f pkgs = some (f1, b) ∧
        walkPackagesNoExit ord f pkgs = some f2 ∧
        (b = false → f2 = f1) ∧ (b = true → f2.target.unfound = []) := by
  intro pkgs
  induction pkgs with
  | nil =>
    intro f _
    exact ⟨f, false, f, rfl, rfl, fun _ => rfl, fun h => Bool.noConfusion h⟩
  | cons pi rest ih =>
    intro f hp
    unfold walkPackages walkPackagesNoExit
    by_cases c1 : some pi.Pkg = f.target.pkg
    · rw [if_pos c1, if_pos c1]; exact ih f hp
    · rw [if_neg c1, if_neg c1]
      by_cases c2 : (!containsStr pi.Pkg.path ".") = true
      · rw [if_pos c2, if_pos c2]; exact ih f hp
      · rw [if_neg c2, if_neg c2]
        by_cases c3 : (f.skipVendor && containsStr pi.Pkg.path "vendor") = true
        · rw [if_pos c3, if_pos c3]; exact ih f hp
        · rw [if_neg c3, if_neg c3]
          obtain ⟨f1, b, f2, h1, h2, e1, e2, hp2, _, _⟩ :=
            walkFiles_agree ord p pi.Files { f with typeInfo := pi.Info } hp
          rw [h1, h2]
          have stop : f2.target.unfound = [] →
              ∃ f3, walkPackagesNoExit ord f2 rest = some f3 ∧ f3.target.unfound = [] := by
            intro he
            obtain ⟨f3, h3, sub3⟩ := walkPackagesNoExit_sublist ord p rest f2 hp2
            rw [he] at sub3
            exact ⟨f3, h3, List.sublist_nil.mp sub3⟩
          cases b with
          | true =>
            obtain ⟨f3, h3, he3⟩ := stop (e2 rfl).2
            exact ⟨f1, true, f3, rfl, h3, fun h => Bool.noConfusion h, fun _ => he3⟩
          | false =>
            have e : f2 = f1 := e1 rfl
            subst e
            simp only
            by_cases ha : f2.target.allFound = true
            · rw [if_pos ha]
              obtain ⟨f3, h3, he3⟩ := stop ((allFound_iff _).mp ha)
              exact ⟨f2, true, f3, rfl, h3, fun h => Bool.noConfusion h, fun _ => he3⟩
            · rw [if_neg ha]
              exact ih f2 hp2

theorem walkPackages_exit_append (ord : MapOrder) :
    ∀ (pkgs more : List PackageInfo) (f f1 : useFinder),
      walkPackages ord f pkgs = some (f1, true) →
      walkPackages ord f (pkgs ++ more) = some (f1, true) := by
  intro pkgs
  induction pkgs with
  | nil => intro more f f1 h; simp [walkPackages] at h
  | cons pi rest ih =>
    intro more f f1 h
    rw [List.cons_append]
    unfold walkPackages at h ⊢
    by_cases c1 : some pi.Pkg = f.target.pkg
    · rw [if_pos c1] at h ⊢; exact ih more f f1 h
    · rw [if_neg c1] at h ⊢
      by_cases c2 : (!containsStr pi.Pkg.path ".") = true
      · rw [if_pos c2] at h ⊢; exact ih more f f1 h
      · rw [if_neg c2] at h ⊢
        by_cases c3 : (f.skipVendor && containsStr pi.Pkg.path "vendor") = true
        · rw [if_pos c3] at h ⊢; exact ih more f f1 h
        · rw [if_neg c3] at h ⊢
          cases hw : walkFiles ord { f with typeInfo := pi.Info } pi.Files with
          | none => rw [hw] at h; simp at h
          | some r =>
            obtain ⟨g, b⟩ := r
            rw [hw] at h
            cases b with
            | true => exact h
            | false =>
              simp only at h ⊢
              by_cases ha : g.target.allFound = true
              · rw [if_pos ha] at h ⊢; exact h
              · rw [if_neg ha] at h ⊢; exact ih more g f1 h

theorem findUnused_eq_noExit (ord : MapOrder) (prog : Program) (o0 : Object)
    (rest : List Object) (p : Package) (hp : o0.pkg = some p) :
    findUnused ord prog (o0 :: rest) = findUnusedNoExit ord prog (o0 :: rest) := by
  obtain ⟨f1, b, f2, h1, h2, e1, e2⟩ := walkPackages_agree ord p prog.AllPackages
    { target := { all := o0 :: rest, pkg := o0.pkg,
                  unfound := (o0 :: rest).foldl mapInsert [] },
      queryPkgLocalName := "", skipVendor := true, typeInfo := ⟨[], []⟩ } hp
  unfold findUnused findUnusedNoExit
  simp only [newTarget]
  rw [h1, h2]
  cases b with
  | true =>
    simp only
    rw [e2 rfl]
    exact congrArg some (ord.perm []).eq_nil.symm
  | false =>
    simp only
    rw [e1 rfl]

theorem Walk_file_nil_pkg (ord : MapOrder) (f : useFinder) (hp : f.target.pkg = none)
    (file : Node) (hfile : isFile file = true) :
    Walk ord f file = none ∨
      ∃ f1, Walk ord f file = some f1 ∧ f1.target = f.target ∧
        f1.skipVendor = f.skipVendor := by
  cases file with
  | File name imports decls =>
    rw [Walk]
    cases imports with
    | nil =>
      right
      simp only [useFinder.Visit, useFinder.visitFile, importsTarget]
      exact ⟨_, rfl, rfl, rfl⟩
    | cons s rest =>
      left
      simp only [useFinder.Visit, useFinder.visitFile, importsTarget, hp, pkgPath]
  | ImportSpec s => simp [isFile] at hfile
  | SelectorExpr a b => simp [isFile] at hfile
  | Ident i => simp [isFile] at hfile
  | Comment => simp [isFile] at hfile
  | Other cs => simp [isFile] at hfile

theorem walkFiles_nil_pkg (ord : MapOrder) :
    ∀ (files : List Node) (f : useFinder), f.target.pkg = none → f.target.unfound ≠ [] →
      (∀ file ∈ files, isFile file = true) →
      (walkFiles ord f files = none ∧ walkFilesNoExit ord f files = none) ∨
      ∃ f1, walkFiles ord f files = some (f1, false) ∧
        walkFilesNoExit ord f files = some f1 ∧ f1.target = f.target ∧
        f1.skipVendor = f.skipVendor := by
  intro files
  induction files with
  | nil => intro f _ _ _; exact Or.inr ⟨f, rfl, rfl, rfl, rfl⟩
  | cons file rest ih =>
    intro f hp hne hall
    unfold walkFiles walkFilesNoExit
    rcases Walk_file_nil_pkg ord f hp file (hall file (List.mem_cons_self _ _)) with
      hw | ⟨g, hw, ht, hv⟩
    · left; rw [hw]; exact ⟨rfl, rfl⟩
    · rw [hw]
      simp only
      have hna : ¬ g.target.allFound = true := by
        rw [allFound_iff, ht]; exact hne
      rw [if_neg hna]
      rcases ih g (by rw [ht]; exact hp) (by rw [ht]; exact hne)
        (fun x hx => hall x (List.mem_cons_of_mem _ hx)) with h | ⟨f1, h1, h2, h3, h4⟩
      · exact Or.inl h
      · exact Or.inr ⟨f1, h1, h2, h3.trans ht, h4.trans hv⟩

theorem walkPackages_nil_pkg (ord : MapOrder) :
    ∀ (pkgs : List PackageInfo) (f : useFinder), f.target.pkg = none →
      f.target.unfound ≠ [] →
      (∀ pkgInfo ∈ pkgs, ∀ file ∈ pkgInfo.Files, isFile file = true) →
      (walkPackages ord f pkgs = none ∧ walkPackagesNoExit ord f pkgs = none) ∨
      ∃ f1, walkPackages ord f pkgs = some (f1, false) ∧
        walkPackagesNoExit ord f pkgs = some f1 := by
  intro pkgs
  induction pkgs with
  | nil => intro f _ _ _; exact Or.inr ⟨f, rfl, rfl⟩
  | cons pi rest ih =>
    intro f hp hne hall
    have hrest : ∀ pkgInfo ∈ rest, ∀ file ∈ pkgInfo.Files, isFile file = true :=
      fun x hx => hall x (List.mem_cons_of_mem _ hx)
    unfold walkPackages walkPackagesNoExit
    by_cases c1 : some pi.Pkg = f.target.pkg
    · rw [if_pos c1, if_pos c1]; exact ih f hp hne hrest
    · rw [if_neg c1, if_neg c1]
      by_cases c2 : (!containsStr pi.Pkg.path ".") = true
      · rw [if_pos c2, if_pos c2]; exact ih f hp hne hrest
      · rw [if_neg c2, if_neg c2]
        by_cases c3 : (f.skipVendor && containsStr pi.Pkg.path "vendor") = true
        · rw [if_pos c3, if_pos c3]; exact ih f hp hne hrest
        · rw [if_neg c3, if_neg c3]
          rcases walkFiles_nil_pkg ord pi.Files { f with typeInfo := pi.Info } hp hne
            (hall pi (List.mem_cons_self _ _)) with ⟨h1, h2⟩ | ⟨g, h1, h2, ht, _⟩
          · left; rw [h1, h2]; exact ⟨rfl, rfl⟩
          · rw [h1, h2]
            simp only
            have hna : ¬ g.target.allFound = true := by
              rw [allFound_iff, ht]; exact hne
            rw [if_neg hna]
            exact ih g (by rw [ht]; exact hp) (by rw [ht]; exact hne) hrest

theorem foldl_mapInsert_ne_nil (o0 : Object) (rest : List Object) :
    (o0 :: rest).foldl mapInsert [] ≠ [] := by
  intro h
  have : o0 ∈ (o0 :: rest).foldl mapInsert [] :=
    (mem_foldl_mapInsert _ _ _).mpr (Or.inr (List.mem_cons_self _ _))
  rw [h] at this
  exact absurd this (List.not_mem_nil o0)

/-- On a program whose files are file nodes, `findUnused` and the traversal
without early exit agree on every target list. -/
theorem findUnused_eq_noExit_files (ord : MapOrder) (prog : Program) (targets : List Object)
    (hfiles : ∀ pkgInfo ∈ prog.AllPackages, ∀ file ∈ pkgInfo.Files, isFile file = true) :
    findUnused ord prog targets = findUnusedNoExit ord prog targets := by
  cases targets with
  | nil => rfl
  | cons o0 rest =>
    cases hp : o0.pkg with
    | some p => exact findUnused_eq_noExit ord prog o0 rest p hp
    | none =>
      rcases walkPackages_nil_pkg ord prog.AllPackages
        { target := { all := o0 :: rest, pkg := o0.pkg,
                      unfound := (o0 :: rest).foldl mapInsert [] },
          queryPkgLocalName := "", skipVendor := true, typeInfo := ⟨[], []⟩ } hp
        (foldl_mapInsert_ne_nil o0 rest) hfiles with ⟨h1, h2⟩ | ⟨f1, h1, h2⟩
      · unfold findUnused findUnusedNoExit
        simp only [newTarget]
        rw [h1, h2]
      · unfold findUnused findUnusedNoExit
        simp only [newTarget]
        rw [h1, h2]

/-! ## Claims about determinism, scope, early exit and the report -/

/-- C11 (the code departs from the claim): the result depends on each of the
three enumeration orders. With the only use `project.Default`, `findUnused`
returns `Default` when the unfound map is enumerated with `Config` first and
`Config` when it is enumerated the other way round. With the unfound map
enumerated in one fixed way, walking the two importing packages in one order
returns `Default` and in the other order returns nothing. And with the
definitions of a target package that has a function and a method both named
`Reset` enumerated in two orders, `unused` returns the method in one and the
function in the other. -/
theorem findUnused_depends_on_map_order :
    (findUnused MapOrder.inOrder ⟨[defaultUseInfo]⟩ [objConfig, objDefault]
        = some [objDefault] ∧
      findUnused MapOrder.reversed ⟨[defaultUseInfo]⟩ [objConfig, objDefault]
        = some [objConfig]) ∧
    (findUnused MapOrder.inOrder ⟨[defaultUseInfo, typeUseClientInfo]⟩
        [objConfig, objDefault, objUsedExportedFunc] = some [objDefault] ∧
      findUnused MapOrder.inOrder ⟨[typeUseClientInfo, defaultUseInfo]⟩
        [objConfig, objDefault, objUsedExportedFunc] = some []) ∧
    (unused isUpperASCII MapOrder.inOrder MapOrder.inOrder (some ⟨[resetFuncFirstInfo]⟩)
        "github.com/spenczar/project" fixtureFinder
        = UnusedOutcome.result [objValueRecvReset] ∧
      unused isUpperASCII MapOrder.inOrder MapOrder.inOrder (some ⟨[resetMethodFirstInfo]⟩)
        "github.com/spenczar/project" fixtureFinder
        = UnusedOutcome.result [objResetFunc]) := by
  decide

/-- C12 (the code departs from the claim): in a file with the dot import of the
target, the bare identifier `UsedExportedStruct` resolves to a target, once
inside the composite literal of `UsedExportedStruct{}.UsedExportedMethod()` and
once as the operand of the method expression
`UsedExportedStruct.UsedExportedMethod`; in both programs the type is returned
as unused, while the bare identifier `UsedExportedConst` of the first file is
found. -/
theorem findUnused_misses_dot_import_identifier :
    (findUnused MapOrder.inOrder dotLiteralCallProgram
        [objUsedExportedStruct, objUsedExportedMethod, objUsedExportedConst]
        = some [objUsedExportedStruct, objUsedExportedMethod] ∧
      resolvedIn dotLiteralCallProgram (some projectPkg) objUsedExportedStruct = true) ∧
    (findUnused MapOrder.inOrder dotMethodExprProgram
        [objUsedExportedStruct, objUsedExportedMethod] = some [objUsedExportedStruct] ∧
      findUnused MapOrder.reversed dotMethodExprProgram
        [objUsedExportedStruct, objUsedExportedMethod] = some [objUsedExportedStruct] ∧
      resolvedIn dotMethodExprProgram (some projectPkg) objUsedExportedStruct = true) := by
  decide

/-- C13 (the code departs from the claim): the variable `Result`, declared
inside the body of `compute`, is not in the package scope and is not a method,
yet `exportedMembers` returns it and `unused` reports it. -/
theorem exportedMembers_selects_local :
    some objLocalResult ∈ localVarInfo.Info.Defs.map Prod.snd ∧
    objLocalResult ∉ localVarInfo.Scope ∧ isMethod objLocalResult = false ∧
    exportedMembers isUpperASCII MapOrder.inOrder localVarInfo = [objLocalResult] ∧
    unused isUpperASCII MapOrder.inOrder MapOrder.inOrder (some ⟨[localVarInfo]⟩)
      "github.com/spenczar/project" fixtureFinder
      = UnusedOutcome.result [objLocalResult] := by
  decide

/-- C17 (the code departs from the claim): the path
`github.com/vendorco/client` has a dot and no directory element `vendor`, and
the package is not the target; it is skipped all the same, because the path
contains the letters `vendor`, and `UsedExportedConst`, which it uses, is
returned as unused. The same file in the package `importer` is walked. -/
theorem findUnused_skips_vendor_substring :
    hasVendorElement vendorcoPkg.path = false ∧
    containsStr vendorcoPkg.path "." = true ∧ vendorcoPkg ≠ projectPkg ∧
    inScope (some projectPkg) vendorcoInfo = false ∧
    findUnused MapOrder.inOrder ⟨[vendorcoInfo]⟩
        [objUsedExportedConst, objUnusedExportedConst]
      = some [objUsedExportedConst, objUnusedExportedConst] ∧
    findUnused MapOrder.inOrder constUseProgram
        [objUsedExportedConst, objUnusedExportedConst]
      = some [objUnusedExportedConst] := by
  decide

/-- C18: on every program and every target list, `findUnused` returns what the
same traversal without the early exit returns (the files of a package being
file nodes). The exit is immediate: when the unfound set is empty after a
file, the file loop stops whatever files remain, and once the package loop has
stopped, `findUnused` returns the empty list whatever packages remain. -/
theorem early_exit_refines (ord : MapOrder) (prog : Program) (targets : List Object)
    (hfiles : ∀ pkgInfo ∈ prog.AllPackages, ∀ file ∈ pkgInfo.Files, isFile file = true) :
    findUnused ord prog targets = findUnusedNoExit ord prog targets ∧
    (∀ (f f1 : useFinder) (file : Node) (remaining : List Node),
      Walk ord f file = some f1 → f1.target.allFound = true →
      walkFiles ord f (file :: remaining) = some (f1, true)) ∧
    (∀ (f f1 : useFinder) (pkgs remaining : List PackageInfo),
      walkPackages ord f pkgs = some (f1, true) →
      walkPackages ord f (pkgs ++ remaining) = some (f1, true)) ∧
    (∀ (tgt : queryTarget) (f1 : useFinder) (pkgs remaining : List PackageInfo),
      newTarget targets = some tgt →
      walkPackages ord
        { target := tgt, queryPkgLocalName := "", skipVendor := true, typeInfo := ⟨[], []⟩ }
        pkgs = some (f1, true) →
      findUnused ord ⟨pkgs ++ remaining⟩ targets = some []) := by
  refine ⟨findUnused_eq_noExit_files ord prog targets hfiles, ?_,
    fun f f1 pkgs remaining h => walkPackages_exit_append ord pkgs remaining f f1 h, ?_⟩
  · intro f f1 file remaining hw ha
    unfold walkFiles
    rw [hw]
    simp only
    rw [if_pos ha]
  · intro tgt f1 pkgs remaining ht hw
    unfold findUnused
    rw [ht]
    simp only
    rw [walkPackages_exit_append ord pkgs remaining _ f1 hw]

/-- C18, on a program in which everything is found in the first package: the
result is empty with and without the early exit. -/
theorem early_exit_refines_witness :
    findUnused MapOrder.inOrder
        ⟨variableCallProgram.AllPackages ++ [typeUseClientInfo, defaultUseInfo]⟩
        [objUsedExportedStruct, objUsedExportedMethod] = some [] ∧
    findUnused MapOrder.inOrder
        ⟨variableCallProgram.AllPackages ++ [typeUseClientInfo, defaultUseInfo]⟩
        [objUsedExportedStruct, objUsedExportedMethod]
      = findUnusedNoExit MapOrder.inOrder
        ⟨variableCallProgram.AllPackages ++ [typeUseClientInfo, defaultUseInfo]⟩
        [objUsedExportedStruct, objUsedExportedMethod] :=
  ⟨by decide,
    (early_exit_refines MapOrder.inOrder
      ⟨variableCallProgram.AllPackages ++ [typeUseClientInfo, defaultUseInfo]⟩
      [objUsedExportedStruct, objUsedExportedMethod] (by decide)).1⟩

theorem sortByPos_sorted_perm (objs : List Object) :
    (sortByPos objs).Sorted (fun a b => a.pos ≤ b.pos) ∧ (sortByPos objs).Perm objs := by
  haveI : IsTotal Object (fun a b => a.pos ≤ b.pos) := ⟨fun a b => Nat.le_total a.pos b.pos⟩
  haveI : IsTrans Object (fun a b => a.pos ≤ b.pos) := ⟨fun _ _ _ h1 h2 => Nat.le_trans h1 h2⟩
  exact ⟨List.sorted_insertionSort (fun a b : Object => a.pos ≤ b.pos) objs,
    List.perm_insertionSort (fun a b : Object => a.pos ≤ b.pos) objs⟩

/-- C19: when `main` prints a report, the objects of the printed lines are in
ascending order of source position and are a permutation of the list of unused
objects that `unused` returned. -/
theorem report_sorted_by_position (isUpper : Char → Bool) (ordOut ordUnfound : MapOrder)
    (loaded : Option Program)
    (target : String) (position : Nat → Position) (out : List Object)
    (h : mainReport isUpper ordOut ordUnfound loaded target position = some out) :
    out.Sorted (fun a b => a.pos ≤ b.pos) ∧
      ∃ res, unused isUpper ordOut ordUnfound loaded target position = UnusedOutcome.result res ∧
        out.Perm res := by
  unfold mainReport at h
  cases hu : unused isUpper ordOut ordUnfound loaded target position with
  | loadError => rw [hu] at h; simp at h
  | fatal => rw [hu] at h; simp at h
  | panicked => rw [hu] at h; simp at h
  | result res =>
    rw [hu] at h
    simp only [Option.some.injEq] at h
    subst h
    exact ⟨(sortByPos_sorted_perm res).1, res, rfl, (sortByPos_sorted_perm res).2⟩

/-- C19, on the program in which `Config` and `Default` are unused and are
returned in the order `Default`, `Config`. -/
theorem report_sorted_by_position_witness :
    mainReport isUpperASCII MapOrder.inOrder MapOrder.reversed (some ⟨[sortableInfo]⟩)
        "github.com/spenczar/project" fixtureFinder
      = some [objUsedExportedStruct, objConfig, objDefault] ∧
    [objUsedExportedStruct, objConfig, objDefault].Sorted (fun a b => a.pos ≤ b.pos) ∧
      ∃ res, unused isUpperASCII MapOrder.inOrder MapOrder.reversed (some ⟨[sortableInfo]⟩)
          "github.com/spenczar/project" fixtureFinder = UnusedOutcome.result res ∧
        [objUsedExportedStruct, objConfig, objDefault].Perm res :=
  ⟨by decide,
    report_sorted_by_position isUpperASCII MapOrder.inOrder MapOrder.reversed (some ⟨[sortableInfo]⟩)
      "github.com/spenczar/project" fixtureFinder
      [objUsedExportedStruct, objConfig, objDefault] (by decide)⟩

/-! ## One target per name -/

theorem mapSet_keys (m : List (String × Object)) (k : String) (v : Object) :
    (mapSet m k v).map Prod.fst =
      if k ∈ m.map Prod.fst then m.map Prod.fst else m.map Prod.fst ++ [k] := by
  induction m with
  | nil => simp [mapSet]
  | cons p rest ih =>
    obtain ⟨k1, v1⟩ := p
    unfold mapSet
    by_cases h : k1 = k
    · subst h
      simp
    · rw [if_neg h]
      simp only [List.map_cons, List.mem_cons, ih]
      have hne : ¬ k = k1 := fun e => h e.symm
      by_cases hk : k ∈ rest.map Prod.fst
      · simp [hk]
      · simp [hk, hne]

theorem OutSetOk_step {isUpper : Char → Bool} (pkg : Package) (m : List (String × Object))
    (x : Option Object)
    (h : OutSetOk isUpper pkg m) : OutSetOk isUpper pkg (exportedStep isUpper pkg m x) := by
  cases x with
  | none => exact h
  | some o =>
    rw [exportedStep_eq]
    by_cases hs : selectedObj isUpper pkg o = true
    · rw [if_pos hs]
      constructor
      · rw [mapSet_keys]
        by_cases hk : (o.Id isUpper) ∈ m.map Prod.fst
        · rw [if_pos hk]; exact h.1
        · rw [if_neg hk]
          rw [List.nodup_append]
          refine ⟨h.1, List.nodup_singleton _, ?_⟩
          intro a ha hb
          rw [List.mem_singleton] at hb
          exact hk (hb ▸ ha)
      · intro q hq
        rcases mapSet_mem_cases _ _ _ _ hq with e | e
        · rw [e]; exact ⟨rfl, hs⟩
        · exact h.2 q e
    · rw [if_neg hs]; exact h

theorem OutSetOk_fold {isUpper : Char → Bool} (pkg : Package) :
    ∀ (l : List (Option Object)) (m : List (String × Object)),
      OutSetOk isUpper pkg m → OutSetOk isUpper pkg (l.foldl (exportedStep isUpper pkg) m) := by
  intro l
  induction l with
  | nil => intro m h; exact h
  | cons x rest ih =>
    intro m h
    rw [List.foldl_cons]
    exact ih _ (OutSetOk_step pkg m x h)

theorem OutSetOk_values {isUpper : Char → Bool} (pkg : Package) (m : List (String × Object))
    (h : OutSetOk isUpper pkg m) :
    (m.map Prod.snd).Nodup ∧
      ∀ o1 ∈ m.map Prod.snd, ∀ o2 ∈ m.map Prod.snd, o1 ≠ o2 → (o1.Id isUpper) ≠ (o2.Id isUpper) := by
  have hinj : ∀ q1 ∈ m, ∀ q2 ∈ m, (q1.2.Id isUpper) = (q2.2.Id isUpper) → q1 = q2 := by
    intro q1 h1 q2 h2 e
    apply List.inj_on_of_nodup_map h.1 h1 h2
    rw [(h.2 q1 h1).1, (h.2 q2 h2).1, e]
  constructor
  · apply List.Nodup.map_on _ (List.Nodup.of_map Prod.fst h.1)
    intro q1 h1 q2 h2 e
    exact hinj q1 h1 q2 h2 (by rw [e])
  · intro o1 h1 o2 h2 hne e
    obtain ⟨q1, hq1, rfl⟩ := List.mem_map.mp h1
    obtain ⟨q2, hq2, rfl⟩ := List.mem_map.mp h2
    exact hne (by rw [hinj q1 hq1 q2 hq2 e])

theorem exportedFold_key_kept {isUpper : Char → Bool} (pkg : Package) (k : String) :
    ∀ (l : List (Option Object)) (m : List (String × Object)),
      k ∈ m.map Prod.fst → k ∈ (l.foldl (exportedStep isUpper pkg) m).map Prod.fst := by
  intro l
  induction l with
  | nil => intro m h; exact h
  | cons x rest ih =>
    intro m h
    rw [List.foldl_cons]
    apply ih
    cases x with
    | none => exact h
    | some o =>
      rw [exportedStep_eq]
      by_cases hs : selectedObj isUpper pkg o = true
      · rw [if_pos hs, mapSet_keys]
        by_cases hk : (o.Id isUpper) ∈ m.map Prod.fst
        · rw [if_pos hk]; exact h
        · rw [if_neg hk]; exact List.mem_append_left _ h
      · rw [if_neg hs]; exact h

theorem exportedFold_key_added {isUpper : Char → Bool} (pkg : Package) (o : Object)
    (hs : selectedObj isUpper pkg o = true) :
    ∀ (l : List (Option Object)) (m : List (String × Object)),
      some o ∈ l → (o.Id isUpper) ∈ (l.foldl (exportedStep isUpper pkg) m).map Prod.fst := by
  intro l
  induction l with
  | nil => intro m h; simp at h
  | cons x rest ih =>
    intro m h
    rw [List.foldl_cons]
    rcases List.mem_cons.mp h with e | e
    · apply exportedFold_key_kept
      rw [← e, exportedStep_eq, if_pos hs, mapSet_keys]
      by_cases hk : (o.Id isUpper) ∈ m.map Prod.fst
      · rw [if_pos hk]; exact hk
      · rw [if_neg hk]; simp
    · exact ih _ e

theorem length_le_one_of_all_eq (l : List Object) (hnd : l.Nodup)
    (heq : ∀ a ∈ l, ∀ b ∈ l, a = b) : l.length ≤ 1 := by
  cases l with
  | nil => simp
  | cons a rest =>
    cases rest with
    | nil => simp
    | cons b rest2 =>
      have hab : a = b := heq a (by simp) b (by simp)
      rw [hab] at hnd
      simp at hnd

/-- C21: `exportedMembers` returns at most one object per public name. Two
distinct objects of its result have different `Id()`s and different names, and
no object is returned twice; so of the public objects of the package that bear
one name (methods of that name on different types, a method and a top-level
declaration) and pass the tests of the loop, exactly one is selected; and no
object whose name begins with `Test` is selected. -/
theorem exportedMembers_one_per_name (isUpper : Char → Bool) (ord : MapOrder) (pkg : PackageInfo) :
    (∀ o1 ∈ exportedMembers isUpper ord pkg, ∀ o2 ∈ exportedMembers isUpper ord pkg, o1 ≠ o2 →
      (o1.Id isUpper) ≠ (o2.Id isUpper) ∧ o1.name ≠ o2.name) ∧
    (exportedMembers isUpper ord pkg).Nodup ∧
    (∀ name : String,
      ((exportedMembers isUpper ord pkg).filter (fun o => decide (o.name = name))).length ≤ 1) ∧
    (∀ o, some o ∈ pkg.Info.Defs.map Prod.snd → selectedObj isUpper pkg.Pkg o = true →
      ∃ o2 ∈ exportedMembers isUpper ord pkg, o2.name = o.name) ∧
    (∀ o ∈ exportedMembers isUpper ord pkg, hasPrefixStr o.name "Test" = false) := by
  have hok : OutSetOk isUpper pkg.Pkg ((pkg.Info.Defs.map Prod.snd).foldl (exportedStep isUpper pkg.Pkg) []) :=
    OutSetOk_fold pkg.Pkg _ [] ⟨List.nodup_nil, fun q hq => absurd hq (List.not_mem_nil q)⟩
  obtain ⟨hnd, hid⟩ := OutSetOk_values pkg.Pkg _ hok
  have hmem : ∀ o, o ∈ exportedMembers isUpper ord pkg ↔
      o ∈ ((pkg.Info.Defs.map Prod.snd).foldl (exportedStep isUpper pkg.Pkg) []).map Prod.snd := by
    intro o
    unfold exportedMembers
    exact (ord.perm _).mem_iff
  have hnd2 : (exportedMembers isUpper ord pkg).Nodup := by
    unfold exportedMembers
    exact (ord.perm _).nodup_iff.mpr hnd
  have hname : ∀ o ∈ exportedMembers isUpper ord pkg, (o.Id isUpper) = o.name :=
    fun o ho => selectedObj_Id pkg.Pkg o (exportedMembers_selected ord pkg o ho).1
  have hdiff : ∀ o1 ∈ exportedMembers isUpper ord pkg, ∀ o2 ∈ exportedMembers isUpper ord pkg, o1 ≠ o2 →
      (o1.Id isUpper) ≠ (o2.Id isUpper) ∧ o1.name ≠ o2.name := by
    intro o1 h1 o2 h2 hne
    have := hid o1 ((hmem o1).mp h1) o2 ((hmem o2).mp h2) hne
    refine ⟨this, ?_⟩
    rw [← hname o1 h1, ← hname o2 h2]
    exact this
  refine ⟨hdiff, hnd2, ?_, ?_, ?_⟩
  · intro name
    apply length_le_one_of_all_eq _ (hnd2.sublist (List.filter_sublist _))
    intro a ha b hb
    by_contra hne
    have ha2 := List.mem_filter.mp ha
    have hb2 := List.mem_filter.mp hb
    have ea : a.name = name := of_decide_eq_true ha2.2
    have eb : b.name = name := of_decide_eq_true hb2.2
    exact (hdiff a ha2.1 b hb2.1 hne).2 (ea.trans eb.symm)
  · intro o ho hs
    have hk := exportedFold_key_added pkg.Pkg o hs (pkg.Info.Defs.map Prod.snd) [] ho
    obtain ⟨q, hq, hqk⟩ := List.mem_map.mp hk
    refine ⟨q.2, (hmem q.2).mpr (List.mem_map.mpr ⟨q, hq, rfl⟩), ?_⟩
    have h1 := hok.2 q hq
    rw [← selectedObj_Id pkg.Pkg q.2 h1.2, ← h1.1, hqk, selectedObj_Id pkg.Pkg o hs]
  · intro o ho
    exact (selectedObj_pkg _ _ (exportedMembers_selected ord pkg o ho).1).2.2.1

/-- C21, on a package with a function and two methods all named `Reset`, and a
function `TestHelper`: one `Reset` is selected and `TestHelper` is not. -/
theorem exportedMembers_one_per_name_witness :
    exportedMembers isUpperASCII MapOrder.inOrder threeResetInfo = [objConfigReset] ∧
    ((exportedMembers isUpperASCII MapOrder.inOrder threeResetInfo).filter
      (fun o => decide (o.name = "Reset"))).length ≤ 1 ∧
    ∃ o2 ∈ exportedMembers isUpperASCII MapOrder.inOrder threeResetInfo, o2.name = objResetFunc.name :=
  ⟨by decide,
    (exportedMembers_one_per_name isUpperASCII MapOrder.inOrder threeResetInfo).2.2.1 "Reset",
    (exportedMembers_one_per_name isUpperASCII MapOrder.inOrder threeResetInfo).2.2.2.1 objResetFunc
      (by decide) (by decide)⟩

/-! ## The walk as a sequence of `discover` calls -/

theorem discoverAll_pkg (ord : MapOrder) :
    ∀ (os : List (Option Object)) (t : queryTarget),
      (discoverAll ord t os).pkg = t.pkg ∧ (discoverAll ord t os).all = t.all := by
  intro os
  induction os with
  | nil => intro t; exact ⟨rfl, rfl⟩
  | cons o rest ih =>
    intro t
    have h := ih (t.discover ord o).2
    have h2 := discover_sublist ord t o
    exact ⟨h.1.trans h2.2.2, h.2.trans h2.2.1⟩

theorem applyTrace_append (ord : MapOrder) (f : useFinder) (a b : List (Option Object))
    (q1 q2 : String) :
    applyTrace ord (applyTrace ord f (a, q1)) (b, q2) = applyTrace ord f (a ++ b, q2) := by
  simp only [applyTrace, discoverAll_append]

theorem applyTrace_pkg (ord : MapOrder) (f : useFinder) (r : List (Option Object) × String) :
    (applyTrace ord f r).target.pkg = f.target.pkg ∧
      (applyTrace ord f r).typeInfo = f.typeInfo ∧
      (applyTrace ord f r).queryPkgLocalName = r.2 ∧
      (applyTrace ord f r).skipVendor = f.skipVendor :=
  ⟨(discoverAll_pkg ord r.1 f.target).1, rfl, rfl, rfl⟩

theorem visitIdent_eq (ord : MapOrder) (f : useFinder) (id : Ident) :
    f.visitIdent ord id =
      (applyTrace ord f (identCandidates f.typeInfo f.queryPkgLocalName id,
        f.queryPkgLocalName), false) := by
  unfold useFinder.visitIdent identCandidates
  by_cases h : f.queryPkgLocalName ≠ "."
  · rw [if_pos h, if_pos h]; rfl
  · rw [if_neg h, if_neg h]; rfl

theorem visitSelector_eq (ord : MapOrder) (f : useFinder) (x : Node) (sel : Ident) :
    f.visitSelector ord x sel =
      (applyTrace ord f ((selectorCandidates f.typeInfo f.target.pkg x sel).1,
          f.queryPkgLocalName),
        (selectorCandidates f.typeInfo f.target.pkg x sel).2) := by
  cases x with
  | Ident rcvr =>
    cases hr : f.typeInfo.ObjectOf rcvr with
    | none =>
      simp only [useFinder.visitSelector, selectorCandidates, hr, Option.map_none']
      rfl
    | some ro =>
      cases hk : ro.kind with
      | PkgName imported =>
        by_cases hi : some imported = f.target.pkg
        · simp only [useFinder.visitSelector, selectorCandidates, hr, Option.map_some', hk, hi,
            if_true]
          rfl
        · simp only [useFinder.visitSelector, selectorCandidates, hr, Option.map_some', hk, hi,
            if_false]
          rfl
      | Var b =>
        simp only [useFinder.visitSelector, selectorCandidates, hr, Option.map_some', hk]
        rfl
      | Const =>
        simp only [useFinder.visitSelector, selectorCandidates, hr, Option.map_some', hk]
        rfl
      | Func =>
        simp only [useFinder.visitSelector, selectorCandidates, hr, Option.map_some', hk]
        rfl
      | TypeName =>
        simp only [useFinder.visitSelector, selectorCandidates, hr, Option.map_some', hk]
        rfl
      | Label =>
        simp only [useFinder.visitSelector, selectorCandidates, hr, Option.map_some', hk]
        rfl
  | File a b c => rfl
  | ImportSpec s => rfl
  | SelectorExpr a b => rfl
  | Comment => rfl
  | Other cs => rfl

theorem visitImportSpec_eq (ord : MapOrder) (f : useFinder) (p : Package)
    (hp : f.target.pkg = some p) (spec : ImportSpec) :
    f.visitImportSpec spec =
      some (applyTrace ord f ([], nameAfterImport p f.queryPkgLocalName spec), false) := by
  unfold useFinder.visitImportSpec nameAfterImport
  simp only [hp, pkgPath, pkgName]
  by_cases h : spec.Path = p.path
  · cases hn : spec.Name with
    | none => simp only [h, if_true]; rfl
    | some nm => simp only [h, if_true]; rfl
  · simp only [h, if_false]; rfl

mutual
theorem Walk_reached (ord : MapOrder) (p : Package) :
    ∀ (n : Node) (f : useFinder), f.target.pkg = some p →
      Walk ord f n = some (applyTrace ord f (reached f.typeInfo p f.queryPkgLocalName n))
  | .File name imports decls, f, hp => by
    rw [Walk, reached]
    simp only [useFinder.Visit, visitFile_some f p hp]
    cases hb : imports.any (fun s => decide (s.Path = p.path)) with
    | false => rfl
    | true =>
      simp only [if_true]
      have hq : ({ f with queryPkgLocalName := "" } : useFinder).visitIdent ord name =
          ({ f with queryPkgLocalName := "" }, false) := by
        simp [useFinder.visitIdent]
      rw [hq]
      simp only
      rw [WalkList_reached ord p decls { f with queryPkgLocalName := "" } hp]
      rfl
  | .ImportSpec spec, f, hp => by
    rw [Walk, reached]
    simp only [useFinder.Visit, visitImportSpec_eq ord f p hp spec]
  | .SelectorExpr x sel, f, hp => by
    rw [Walk, reached]
    simp only [useFinder.Visit, visitSelector_eq ord f x sel, hp]
    cases hb : (selectorCandidates f.typeInfo (some p) x sel).2 with
    | false => simp only [Bool.false_eq_true, if_false]
    | true =>
      simp only [if_true]
      have hp1 : (applyTrace ord f ((selectorCandidates f.typeInfo (some p) x sel).1,
          f.queryPkgLocalName)).target.pkg = some p := by
        rw [(applyTrace_pkg ord f _).1]; exact hp
      rw [Walk_reached ord p x _ hp1]
      simp only [visitIdent_eq]
      rw [(applyTrace_pkg ord f _).2.1, (applyTrace_pkg ord f _).2.2.1]
      rw [applyTrace_append]
      rw [(applyTrace_pkg ord _ _).2.1, (applyTrace_pkg ord _ _).2.2.1]
      rw [applyTrace_append]
      simp only [List.append_assoc]
      rfl
  | .Ident id, f, _ => by
    rw [Walk, reached]
    simp only [useFinder.Visit, visitIdent_eq]
  | .Comment, f, _ => by
    rw [Walk, reached]
    simp only [useFinder.Visit]
    rfl
  | .Other children, f, hp => by
    rw [Walk, reached]
    simp only [useFinder.Visit]
    exact WalkList_reached ord p children f hp
theorem WalkList_reached (ord : MapOrder) (p : Package) :
    ∀ (ns : List Node) (f : useFinder), f.target.pkg = some p →
      WalkList ord f ns =
        some (applyTrace ord f (reachedList f.typeInfo p f.queryPkgLocalName ns))
  | [], f, _ => by
    rw [WalkList, reachedList]
    rfl
  | n :: rest, f, hp => by
    rw [WalkList, reachedList]
    rw [Walk_reached ord p n f hp]
    simp only
    have hp1 : (applyTrace ord f (reached f.typeInfo p f.queryPkgLocalName n)).target.pkg
        = some p := by
      rw [(applyTrace_pkg ord f _).1]; exact hp
    rw [WalkList_reached ord p rest _ hp1]
    rw [(applyTrace_pkg ord f _).2.1, (applyTrace_pkg ord f _).2.2.1]
    exact congrArg some (applyTrace_append ord f _ _ _ _)
end

theorem walkFilesNoExit_eq_WalkList (ord : MapOrder) :
    ∀ (files : List Node) (f : useFinder), walkFilesNoExit ord f files = WalkList ord f files := by
  intro files
  induction files with
  | nil => intro f; rw [walkFilesNoExit, WalkList]
  | cons file rest ih =>
    intro f
    rw [walkFilesNoExit, WalkList]
    cases Walk ord f file with
    | none => rfl
    | some f1 => exact ih f1

theorem inScope_iff (p : Package) (pkgInfo : PackageInfo) :
    inScope (some p) pkgInfo = true ↔
      (some pkgInfo.Pkg ≠ some p ∧ containsStr pkgInfo.Pkg.path "." = true ∧
        containsStr pkgInfo.Pkg.path "vendor" = false) := by
  simp only [inScope, Bool.and_eq_true, decide_eq_true_eq, Bool.not_eq_true', and_assoc]

/-- The traversal without early exit performs exactly the `discover` calls
listed by `reachedPackages`, in that order. -/
theorem walkPackagesNoExit_reached (ord : MapOrder) (p : Package) :
    ∀ (pkgs : List PackageInfo) (f : useFinder), f.target.pkg = some p → f.skipVendor = true →
      ∃ f1, walkPackagesNoExit ord f pkgs = some f1 ∧
        f1.target = discoverAll ord f.target (reachedPackages p f.queryPkgLocalName pkgs) := by
  intro pkgs
  induction pkgs with
  | nil => intro f _ _; exact ⟨f, rfl, rfl⟩
  | cons pkgInfo rest ih =>
    intro f hp hv
    rw [walkPackagesNoExit, reachedPackages]
    by_cases h1 : some pkgInfo.Pkg = f.target.pkg
    · have hs : inScope (some p) pkgInfo = false := by
        rw [← hp, Bool.eq_false_iff]
        intro h
        rw [hp] at h h1
        exact ((inScope_iff p pkgInfo).mp h).1 h1
      rw [if_pos h1, hs]
      exact ih f hp hv
    · rw [if_neg h1]
      cases h2 : containsStr pkgInfo.Pkg.path "." with
      | false =>
        have hs : inScope (some p) pkgInfo = false := by
          rw [Bool.eq_false_iff]
          intro h
          rw [((inScope_iff p pkgInfo).mp h).2.1] at h2
          exact Bool.noConfusion h2
        simp only [Bool.not_false, if_true, hs, Bool.false_eq_true, if_false]
        exact ih f hp hv
      | true =>
        cases h3 : containsStr pkgInfo.Pkg.path "vendor" with
        | true =>
          have hs : inScope (some p) pkgInfo = false := by
            rw [Bool.eq_false_iff]
            intro h
            rw [((inScope_iff p pkgInfo).mp h).2.2] at h3
            exact Bool.noConfusion h3
          simp only [Bool.not_true, Bool.false_eq_true, if_false, hv, Bool.and_self, if_true, hs]
          exact ih f hp hv
        | false =>
          have hs : inScope (some p) pkgInfo = true :=
            (inScope_iff p pkgInfo).mpr ⟨by rw [← hp]; exact h1, h2, h3⟩
          simp only [Bool.not_true, Bool.false_eq_true, if_false, Bool.and_false, hs, if_true]
          rw [walkFilesNoExit_eq_WalkList,
            WalkList_reached ord p pkgInfo.Files { f with typeInfo := pkgInfo.Info } hp]
          simp only
          obtain ⟨f1, e1, e2⟩ := ih
            (applyTrace ord { f with typeInfo := pkgInfo.Info }
              (reachedList pkgInfo.Info p f.queryPkgLocalName pkgInfo.Files))
            (by rw [(applyTrace_pkg ord _ _).1]; exact hp)
            (by rw [(applyTrace_pkg ord _ _).2.2.2]; exact hv)
          refine ⟨f1, e1, ?_⟩
          rw [e2, discoverAll_append]
          rfl

/-- The function `findUnused` returns the keys that a sequence of `discover`
calls, one for each candidate of `reachedPackages`, leaves in `unfound`. -/
theorem findUnused_trace (ord : MapOrder) (prog : Program) (o0 : Object) (rest : List Object)
    (p : Package) (hp : o0.pkg = some p) :
    findUnused ord prog (o0 :: rest) =
      some (ord.enum (discoverAll ord
        { all := o0 :: rest, pkg := o0.pkg, unfound := (o0 :: rest).foldl mapInsert [] }
        (reachedPackages p "" prog.AllPackages)).unfound) := by
  rw [findUnused_eq_noExit ord prog o0 rest p hp]
  obtain ⟨f1, e1, e2⟩ := walkPackagesNoExit_reached ord p prog.AllPackages
    { target := { all := o0 :: rest, pkg := o0.pkg,
                  unfound := (o0 :: rest).foldl mapInsert [] },
      queryPkgLocalName := "", skipVendor := true, typeInfo := ⟨[], []⟩ } hp rfl
  unfold findUnusedNoExit
  simp only [newTarget]
  rw [e1]
  simp only
  rw [e2]

theorem discover_removes (ord : MapOrder) (t : queryTarget) (o D : Object)
    (hnd : t.unfound.Nodup) (hm : matchesTarget o D = true)
    (huniq : ∀ d ∈ t.unfound, matchesTarget o d = true → d = D) :
    D ∉ (t.discover ord (some o)).2.unfound := by
  by_cases hD : D ∈ t.unfound
  · have h1 : (t.discover ord (some o)).1 = true :=
      (discover_true_iff ord t (some o)).mpr ⟨o, D, rfl, hD, hm⟩
    obtain ⟨oo, d, e, hd, hmd, he⟩ := discover_fst_true ord t (some o) h1
    cases e
    have := huniq d hd hmd
    subst this
    rw [he]
    exact hnd.not_mem_erase
  · exact fun h => hD ((discover_sublist ord t (some o)).1.subset h)

/-- A candidate that matches `D` and no other unfound declaration removes `D`. -/
theorem discoverAll_removes (ord : MapOrder) :
    ∀ (os : List (Option Object)) (t : queryTarget) (o D : Object), t.unfound.Nodup →
      some o ∈ os → matchesTarget o D = true →
      (∀ d ∈ t.unfound, matchesTarget o d = true → d = D) →
      D ∉ (discoverAll ord t os).unfound := by
  intro os
  induction os with
  | nil => intro t o D _ h; simp at h
  | cons c rest ih =>
    intro t o D hnd hmem hm huniq
    have hsub := (discover_sublist ord t c).1
    by_cases hc : c = some o
    · subst hc
      exact fun h => discover_removes ord t o D hnd hm huniq
        ((discoverAll_sublist ord rest _).subset h)
    · have hr : some o ∈ rest := by
        rcases List.mem_cons.mp hmem with e | e
        · exact absurd e.symm hc
        · exact e
      exact ih (t.discover ord c).2 o D (hnd.sublist hsub) hr hm
        (fun d hd => huniq d (hsub.subset hd))

/-- A declaration that a sequence of `discover` calls removed was matched by one
of the candidates. -/
theorem discoverAll_removed_matched (ord : MapOrder) :
    ∀ (os : List (Option Object)) (t : queryTarget) (D : Object), D ∈ t.unfound →
      D ∉ (discoverAll ord t os).unfound →
      ∃ o, some o ∈ os ∧ matchesTarget o D = true := by
  intro os
  induction os with
  | nil => intro t D h hn; exact absurd h hn
  | cons c rest ih =>
    intro t D hD hn
    by_cases hk : D ∈ (t.discover ord c).2.unfound
    · obtain ⟨o, ho, hm⟩ := ih (t.discover ord c).2 D hk hn
      exact ⟨o, List.mem_cons_of_mem _ ho, hm⟩
    · rcases discover_cases ord t c with ⟨_, h⟩ | ⟨_, oo, d, e, hd, hm, h⟩
      · rw [h] at hk; exact absurd hD hk
      · rw [h] at hk
        by_cases hdD : D = d
        · subst hdD
          exact ⟨oo, by rw [e]; exact List.mem_cons_self _ _, hm⟩
        · exact absurd ((List.mem_erase_of_ne hdD).mpr hD) hk

theorem identCandidates_mem (info : Info) (q : String) (id : Ident) (o : Object)
    (h : some o ∈ identCandidates info q id) : info.ObjectOf id = some o := by
  unfold identCandidates at h
  by_cases hq : q ≠ "."
  · rw [if_pos hq] at h; simp at h
  · rw [if_neg hq] at h
    exact (List.mem_singleton.mp h).symm

theorem selectorCandidates_mem (info : Info) (tp : Option Package) (x : Node) (sel : Ident)
    (o : Object) (h : some o ∈ (selectorCandidates info tp x sel).1) :
    ∃ id ∈ idents x ++ [sel], info.ObjectOf id = some o := by
  cases x with
  | Ident rcvr =>
    have key : some o = info.ObjectOf rcvr ∨ some o = info.ObjectOf sel := by
      cases hr : info.ObjectOf rcvr with
      | none =>
        simp only [selectorCandidates, hr, Option.map_none', List.mem_singleton] at h
        exact Or.inr h
      | some ro =>
        cases hk : ro.kind with
        | PkgName imported =>
          by_cases hi : some imported = tp
          · simp only [selectorCandidates, hr, Option.map_some', hk, hi, if_true,
              List.mem_singleton] at h
            exact Or.inr h
          · simp only [selectorCandidates, hr, Option.map_some', hk, hi, if_false,
              List.not_mem_nil] at h
        | Var b =>
          simp only [selectorCandidates, hr, Option.map_some', hk, List.mem_cons,
            List.mem_singleton, List.not_mem_nil, or_false] at h
          exact h
        | Const =>
          simp only [selectorCandidates, hr, Option.map_some', hk, List.mem_singleton] at h
          exact Or.inr h
        | Func =>
          simp only [selectorCandidates, hr, Option.map_some', hk, List.mem_singleton] at h
          exact Or.inr h
        | TypeName =>
          simp only [selectorCandidates, hr, Option.map_some', hk, List.mem_singleton] at h
          exact Or.inr h
        | Label =>
          simp only [selectorCandidates, hr, Option.map_some', hk, List.mem_singleton] at h
          exact Or.inr h
    rcases key with e | e
    · exact ⟨rcvr, by simp [idents], e.symm⟩
    · exact ⟨sel, by simp, e.symm⟩
  | File a b c => simp [selectorCandidates] at h
  | ImportSpec s => simp [selectorCandidates] at h
  | SelectorExpr a b => simp [selectorCandidates] at h
  | Comment => simp [selectorCandidates] at h
  | Other cs => simp [selectorCandidates] at h

mutual
/-- Every candidate the walk passes to `discover` is the object of an
identifier of the tree. -/
theorem reached_mem (info : Info) (p : Package) (o : Object) :
    ∀ (n : Node) (q : String), some o ∈ (reached info p q n).1 →
      ∃ id ∈ idents n, info.ObjectOf id = some o
  | .File name imports decls, q, h => by
    rw [reached] at h
    by_cases hb : imports.any (fun s => decide (s.Path = p.path)) = true
    · rw [if_pos hb] at h
      obtain ⟨id, hid, e⟩ := reachedList_mem info p o decls "" h
      exact ⟨id, by rw [idents]; exact List.mem_cons_of_mem _ hid, e⟩
    · rw [if_neg hb] at h; simp at h
  | .ImportSpec spec, q, h => by
    rw [reached] at h; simp at h
  | .SelectorExpr x sel, q, h => by
    rw [reached] at h
    rw [idents]
    by_cases hb : (selectorCandidates info (some p) x sel).2 = true
    · rw [if_pos hb] at h
      simp only [List.mem_append] at h
      rcases h with (h | h) | h
      · exact selectorCandidates_mem info (some p) x sel o h
      · obtain ⟨id, hid, e⟩ := reached_mem info p o x q h
        exact ⟨id, List.mem_append_left _ hid, e⟩
      · exact ⟨sel, by simp, identCandidates_mem info _ sel o h⟩
    · rw [if_neg hb] at h
      exact selectorCandidates_mem info (some p) x sel o h
  | .Ident id, q, h => by
    rw [reached] at h
    exact ⟨id, by simp [idents], identCandidates_mem info q id o h⟩
  | .Comment, q, h => by
    rw [reached] at h; simp at h
  | .Other children, q, h => by
    rw [reached] at h
    rw [idents]
    exact reachedList_mem info p o children q h
theorem reachedList_mem (info : Info) (p : Package) (o : Object) :
    ∀ (ns : List Node) (q : String), some o ∈ (reachedList info p q ns).1 →
      ∃ id ∈ identsList ns, info.ObjectOf id = some o
  | [], q, h => by
    rw [reachedList] at h; simp at h
  | n :: rest, q, h => by
    rw [reachedList] at h
    rw [identsList]
    simp only [List.mem_append] at h
    rcases h with h | h
    · obtain ⟨id, hid, e⟩ := reached_mem info p o n q h
      exact ⟨id, List.mem_append_left _ hid, e⟩
    · obtain ⟨id, hid, e⟩ := reachedList_mem info p o rest _ h
      exact ⟨id, List.mem_append_right _ hid, e⟩
end

/-- At a file, the candidates come from the identifiers the walker can reach:
those of the declarations, and only when the file lists the target package
among its imported paths. -/
theorem reached_mem_walked (info : Info) (p : Package) (o : Object) (n : Node) (q : String)
    (h : some o ∈ (reached info p q n).1) :
    ∃ id ∈ walkedIdents p n, info.ObjectOf id = some o := by
  cases n with
  | File name imports decls =>
    rw [reached] at h
    rw [walkedIdents]
    by_cases hb : imports.any (fun s => decide (s.Path = p.path)) = true
    · rw [if_pos hb] at h ⊢
      exact reachedList_mem info p o decls "" h
    · rw [if_neg hb] at h; simp at h
  | ImportSpec s => exact reached_mem info p o _ q h
  | SelectorExpr a b => exact reached_mem info p o _ q h
  | Ident i => exact reached_mem info p o _ q h
  | Comment => exact reached_mem info p o _ q h
  | Other cs => exact reached_mem info p o _ q h

theorem reached_file_irrel (info : Info) (p : Package) (q1 q2 : String) (n : Node)
    (h : isFile n = true) : reached info p q1 n = reached info p q2 n := by
  cases n with
  | File name imports decls => rw [reached, reached]
  | ImportSpec s => simp [isFile] at h
  | SelectorExpr a b => simp [isFile] at h
  | Ident i => simp [isFile] at h
  | Comment => simp [isFile] at h
  | Other cs => simp [isFile] at h

theorem reachedList_of_file (info : Info) (p : Package) (c : Option Object) (file : Node)
    (hf : isFile file = true) :
    ∀ (files : List Node) (q : String), file ∈ files → c ∈ (reached info p "" file).1 →
      c ∈ (reachedList info p q files).1 := by
  intro files
  induction files with
  | nil => intro q h; simp at h
  | cons n rest ih =>
    intro q hmem hc
    rw [reachedList]
    rcases List.mem_cons.mp hmem with e | e
    · subst e
      rw [reached_file_irrel info p q "" file hf]
      exact List.mem_append_left _ hc
    · exact List.mem_append_right _ (ih _ e hc)

theorem reachedList_inv (info : Info) (p : Package) (c : Option Object) :
    ∀ (files : List Node) (q : String), c ∈ (reachedList info p q files).1 →
      ∃ file ∈ files, ∃ q1, c ∈ (reached info p q1 file).1 := by
  intro files
  induction files with
  | nil => intro q h; rw [reachedList] at h; simp at h
  | cons n rest ih =>
    intro q h
    rw [reachedList] at h
    rcases List.mem_append.mp h with h | h
    · exact ⟨n, List.mem_cons_self _ _, q, h⟩
    · obtain ⟨file, hfile, q1, hc⟩ := ih _ h
      exact ⟨file, List.mem_cons_of_mem _ hfile, q1, hc⟩

/-- A candidate reached in a file of an in-scope package is among the
candidates of the whole traversal. -/
theorem reachedPackages_of_file (p : Package) (c : Option Object) (pkgInfo : PackageInfo)
    (hs : inScope (some p) pkgInfo = true) (file : Node) (hfile : file ∈ pkgInfo.Files)
    (hf : isFile file = true) (hc : c ∈ (reached pkgInfo.Info p "" file).1) :
    ∀ (pkgs : List PackageInfo) (q : String), pkgInfo ∈ pkgs → c ∈ reachedPackages p q pkgs := by
  intro pkgs
  induction pkgs with
  | nil => intro q h; simp at h
  | cons a rest ih =>
    intro q hmem
    rw [reachedPackages]
    rcases List.mem_cons.mp hmem with e | e
    · subst e
      rw [if_pos hs]
      exact List.mem_append_left _ (reachedList_of_file _ p c file hf _ q hfile hc)
    · by_cases ha : inScope (some p) a = true
      · rw [if_pos ha]
        exact List.mem_append_right _ (ih _ e)
      · rw [if_neg ha]
        exact ih _ e

theorem reachedPackages_inv (p : Package) (c : Option Object) :
    ∀ (pkgs : List PackageInfo) (q : String), c ∈ reachedPackages p q pkgs →
      ∃ pkgInfo ∈ pkgs, inScope (some p) pkgInfo = true ∧
        ∃ file ∈ pkgInfo.Files, ∃ q1, c ∈ (reached pkgInfo.Info p q1 file).1 := by
  intro pkgs
  induction pkgs with
  | nil => intro q h; rw [reachedPackages] at h; simp at h
  | cons a rest ih =>
    intro q h
    rw [reachedPackages] at h
    by_cases ha : inScope (some p) a = true
    · rw [if_pos ha] at h
      rcases List.mem_append.mp h with h | h
      · obtain ⟨file, hfile, q1, hc⟩ := reachedList_inv _ p c _ _ h
        exact ⟨a, List.mem_cons_self _ _, ha, file, hfile, q1, hc⟩
      · obtain ⟨pi, hpi, hs, r⟩ := ih _ h
        exact ⟨pi, List.mem_cons_of_mem _ hpi, hs, r⟩
    · rw [if_neg ha] at h
      obtain ⟨pi, hpi, hs, r⟩ := ih _ h
      exact ⟨pi, List.mem_cons_of_mem _ hpi, hs, r⟩

/-- The two directions relating the result of `findUnused` to the candidates
the walk reaches: a target that is not returned was matched by the object of an
identifier the walker can reach in a file of an in-scope package; and a target
is not returned when the walk reaches, in a file of an in-scope package, a
candidate that matches it and no other target. -/
theorem findUnused_reached (ord : MapOrder) (prog : Program) (o0 : Object) (rest : List Object)
    (p : Package) (hp : o0.pkg = some p) :
    ∃ res, findUnused ord prog (o0 :: rest) = some res ∧ res.Nodup ∧
      (∀ D ∈ res, D ∈ o0 :: rest) ∧
      (∀ D ∈ o0 :: rest, D ∉ res →
        ∃ pkgInfo ∈ prog.AllPackages, inScope (some p) pkgInfo = true ∧
          ∃ file ∈ pkgInfo.Files, Hit pkgInfo.Info (walkedIdents p file) D) ∧
      (∀ D ∈ o0 :: rest, ∀ pkgInfo ∈ prog.AllPackages, inScope (some p) pkgInfo = true →
        ∀ file ∈ pkgInfo.Files, isFile file = true →
        ∀ o, some o ∈ (reached pkgInfo.Info p "" file).1 → matchesTarget o D = true →
        (∀ d ∈ o0 :: rest, matchesTarget o d = true → d = D) → D ∉ res) := by
  have hnd : ((o0 :: rest).foldl mapInsert []).Nodup :=
    nodup_foldl_mapInsert _ _ List.nodup_nil
  have hmem : ∀ D, D ∈ (o0 :: rest).foldl mapInsert [] ↔ D ∈ o0 :: rest := by
    intro D
    rw [mem_foldl_mapInsert]
    simp
  refine ⟨_, findUnused_trace ord prog o0 rest p hp, ?_, ?_, ?_, ?_⟩
  · exact (ord.perm _).nodup_iff.mpr (hnd.sublist (discoverAll_sublist ord _ _))
  · intro D hD
    exact (hmem D).mp ((discoverAll_sublist ord _ _).subset ((ord.perm _).mem_iff.mp hD))
  · intro D hD hn
    have hn2 : D ∉ (discoverAll ord
        { all := o0 :: rest, pkg := o0.pkg, unfound := (o0 :: rest).foldl mapInsert [] }
        (reachedPackages p "" prog.AllPackages)).unfound :=
      fun h => hn ((ord.perm _).mem_iff.mpr h)
    obtain ⟨o, ho, hm⟩ := discoverAll_removed_matched ord _ _ D ((hmem D).mpr hD) hn2
    obtain ⟨pkgInfo, hpi, hs, file, hfile, q1, hc⟩ := reachedPackages_inv p _ _ _ ho
    obtain ⟨id, hid, e⟩ := reached_mem_walked pkgInfo.Info p o file q1 hc
    exact ⟨pkgInfo, hpi, hs, file, hfile, id, hid, o, e, hm⟩
  · intro D _ pkgInfo hpi hs file hfile hf o ho hm huniq hres
    have hc := reachedPackages_of_file p (some o) pkgInfo hs file hfile hf ho
      prog.AllPackages "" hpi
    exact discoverAll_removes ord _
      { all := o0 :: rest, pkg := o0.pkg, unfound := (o0 :: rest).foldl mapInsert [] }
      o D hnd hc hm (fun d hd => huniq d ((hmem d).mp hd)) ((ord.perm _).mem_iff.mp hres)

mutual
/-- The member of a selector `pkg.Sel`, where `pkg` is a name of the target
package and the selector lies outside every other selector, is passed to
`discover`. -/
theorem reached_outerSelector (info : Info) (p : Package) (x sel : Ident) (pn : Object)
    (hx : info.ObjectOf x = some pn) (hk : pn.kind = ObjKind.PkgName p) :
    ∀ (n : Node) (q : String), (x, sel) ∈ outerSelectors n →
      info.ObjectOf sel ∈ (reached info p q n).1
  | .File name imports decls, q, h => by
    simp [outerSelectors] at h
  | .ImportSpec spec, q, h => by
    simp [outerSelectors] at h
  | .SelectorExpr y s, q, h => by
    cases y with
    | Ident i =>
      simp only [outerSelectors, List.mem_singleton, Prod.mk.injEq] at h
      obtain ⟨e1, e2⟩ := h
      subst e1 e2
      have hc : selectorCandidates info (some p) (Node.Ident x) sel
          = ([info.ObjectOf sel], true) := by
        simp only [selectorCandidates, hx, Option.map_some', hk, if_true]
      rw [reached, hc]
      simp
    | File a b c => simp [outerSelectors] at h
    | ImportSpec s => simp [outerSelectors] at h
    | SelectorExpr a b => simp [outerSelectors] at h
    | Comment => simp [outerSelectors] at h
    | Other cs => simp [outerSelectors] at h
  | .Ident id, q, h => by
    simp [outerSelectors] at h
  | .Comment, q, h => by
    simp [outerSelectors] at h
  | .Other children, q, h => by
    rw [outerSelectors] at h
    rw [reached]
    exact reachedList_outerSelector info p x sel pn hx hk children q h
theorem reachedList_outerSelector (info : Info) (p : Package) (x sel : Ident) (pn : Object)
    (hx : info.ObjectOf x = some pn) (hk : pn.kind = ObjKind.PkgName p) :
    ∀ (ns : List Node) (q : String), (x, sel) ∈ outerSelectorsList ns →
      info.ObjectOf sel ∈ (reachedList info p q ns).1
  | [], q, h => by
    simp [outerSelectorsList] at h
  | n :: rest, q, h => by
    rw [outerSelectorsList] at h
    rw [reachedList]
    rcases List.mem_append.mp h with h | h
    · exact List.mem_append_left _ (reached_outerSelector info p x sel pn hx hk n q h)
    · exact List.mem_append_right _ (reachedList_outerSelector info p x sel pn hx hk rest _ h)
end

theorem reached_file_outerSelector (info : Info) (p : Package) (x sel : Ident) (pn : Object)
    (hx : info.ObjectOf x = some pn) (hk : pn.kind = ObjKind.PkgName p)
    (name : Ident) (imports : List ImportSpec) (decls : List Node)
    (hi : imports.any (fun s => decide (s.Path = p.path)) = true)
    (h : (x, sel) ∈ outerSelectorsList decls) :
    info.ObjectOf sel ∈ (reached info p "" (Node.File name imports decls)).1 := by
  rw [reached, if_pos hi]
  exact reachedList_outerSelector info p x sel pn hx hk decls "" h

/-- C1 (amended): for every non-empty target list whose first object has a
package, `findUnused` returns a list; every returned object is one of the
targets and none is returned twice. A target that is not returned was matched by
a reference in a walked file: some identifier among the declarations of a file
that imports the target package, in an in-scope package, resolves to an object
that is the target itself or, for a type declaration, has the target's type or
a pointer to it. Conversely a target `D` is not returned whenever the walk of a
file of an in-scope package passes to `discover` an object that matches `D` and
no other target; in particular whenever such a file imports the target package
and contains, outside every other selector, a selector `pkg.D` on a name of the
target package, and `D` matches no other target. -/
theorem findUnused_returns_unmatched (ord : MapOrder) (prog : Program)
    (targets : List Object) (o0 : Object) (p : Package)
    (h0 : targets.head? = some o0) (hp : o0.pkg = some p) :
    ∃ res, findUnused ord prog targets = some res ∧ res.Nodup ∧
      (∀ D ∈ res, D ∈ targets) ∧
      (∀ D ∈ targets, D ∉ res →
        ∃ pkgInfo ∈ prog.AllPackages, inScope (some p) pkgInfo = true ∧
          ∃ file ∈ pkgInfo.Files, Hit pkgInfo.Info (walkedIdents p file) D) ∧
      (∀ D ∈ targets, ∀ pkgInfo ∈ prog.AllPackages, inScope (some p) pkgInfo = true →
        ∀ file ∈ pkgInfo.Files, isFile file = true →
        ∀ o, some o ∈ (reached pkgInfo.Info p "" file).1 → matchesTarget o D = true →
        (∀ d ∈ targets, matchesTarget o d = true → d = D) → D ∉ res) ∧
      (∀ D ∈ targets, ∀ pkgInfo ∈ prog.AllPackages, inScope (some p) pkgInfo = true →
        ∀ name imports decls, Node.File name imports decls ∈ pkgInfo.Files →
        imports.any (fun s => decide (s.Path = p.path)) = true →
        ∀ x sel, (x, sel) ∈ outerSelectorsList decls →
        (∃ pn, pkgInfo.Info.ObjectOf x = some pn ∧ pn.kind = ObjKind.PkgName p) →
        pkgInfo.Info.ObjectOf sel = some D →
        (∀ d ∈ targets, matchesTarget D d = true → d = D) → D ∉ res) := by
  cases targets with
  | nil => simp at h0
  | cons a rest =>
    simp only [List.head?_cons, Option.some.injEq] at h0
    subst h0
    obtain ⟨res, h1, h2, h3, h4, h5⟩ := findUnused_reached ord prog a rest p hp
    refine ⟨res, h1, h2, h3, h4, h5, ?_⟩
    intro D hD pkgInfo hpi hs name imports decls hfile hi x sel hsel hpn hD2 huniq
    obtain ⟨pn, hx, hk⟩ := hpn
    have hr := reached_file_outerSelector pkgInfo.Info p x sel pn hx hk name imports decls hi hsel
    rw [hD2] at hr
    exact h5 D hD pkgInfo hpi hs _ hfile rfl D hr
      (by simp [matchesTarget]) huniq

/-- C1 (amended), on scenario 1 of the specification: the result is a list of
distinct targets, and `UsedExportedConst`, the member of the importer's selector
`project.UsedExportedConst`, is not in it. -/
theorem findUnused_returns_unmatched_witness :
    ∃ res, findUnused MapOrder.inOrder constUseProgram
        [objUsedExportedConst, objUnusedExportedConst] = some res ∧ res.Nodup ∧
      (∀ D ∈ res, D ∈ [objUsedExportedConst, objUnusedExportedConst]) ∧
      objUsedExportedConst ∉ res := by
  obtain ⟨res, h1, h2, h3, _, h5, h6⟩ :=
    findUnused_returns_unmatched MapOrder.inOrder constUseProgram
      [objUsedExportedConst, objUnusedExportedConst] objUsedExportedConst projectPkg rfl rfl
  refine ⟨res, h1, h2, h3, ?_⟩
  exact h6 objUsedExportedConst (by decide) _ (List.mem_singleton.mpr rfl) (by decide)
    ⟨1, "importer"⟩ [importProject] _ (List.mem_singleton.mpr rfl) (by decide)
    ⟨4, "project"⟩ ⟨5, "UsedExportedConst"⟩ (by decide) ⟨pkgNameProject, by decide, by decide⟩
    (by decide) (by decide)

/-- C9 (amended): references made from the files of the target package itself,
its in-package test files included, never count as uses: a target that no
identifier in a file of any other package matches is returned, whatever the
files of the target package contain. Every other package whose path has a dot
and no `vendor`, the external test package among them, is walked: a target `G`
is not returned when the walk of one of its files passes to `discover` an
object that matches `G` and no other target. -/
theorem findUnused_ignores_own_files (ord : MapOrder) (prog : Program)
    (targets : List Object) (o0 : Object) (p : Package)
    (h0 : targets.head? = some o0) (hp : o0.pkg = some p) :
    ∃ res, findUnused ord prog targets = some res ∧
      (∀ G ∈ targets,
        (∀ pkgInfo ∈ prog.AllPackages, pkgInfo.Pkg ≠ p →
          ∀ file ∈ pkgInfo.Files, ∀ id ∈ idents file,
            ∀ o ∈ pkgInfo.Info.ObjectOf id, matchesTarget o G = false) → G ∈ res) ∧
      (∀ G ∈ targets, ∀ pkgInfo ∈ prog.AllPackages, pkgInfo.Pkg ≠ p →
        containsStr pkgInfo.Pkg.path "." = true →
        containsStr pkgInfo.Pkg.path "vendor" = false →
        ∀ file ∈ pkgInfo.Files, isFile file = true →
        ∀ o, some o ∈ (reached pkgInfo.Info p "" file).1 → matchesTarget o G = true →
        (∀ d ∈ targets, matchesTarget o d = true → d = G) → G ∉ res) := by
  cases targets with
  | nil => simp at h0
  | cons a rest =>
    simp only [List.head?_cons, Option.some.injEq] at h0
    subst h0
    obtain ⟨res, h1, _, _, h4⟩ := findUnused_core ord prog a rest p hp
    obtain ⟨res2, g1, _, _, _, g5⟩ := findUnused_reached ord prog a rest p hp
    have e : res2 = res := Option.some.inj (g1.symm.trans h1)
    subst e
    refine ⟨res2, h1, ?_, ?_⟩
    · intro G hG hno
      rcases h4 G hG with h | ⟨pkgInfo, hpi, hs, file, hfile, id, hid, o, ho, hm⟩
      · exact h
      · have hne : pkgInfo.Pkg ≠ p := by
          intro e
          simp [inScope, e] at hs
        have := hno pkgInfo hpi hne file hfile id hid o (by rw [ho]; rfl)
        rw [hm] at this
        exact Bool.noConfusion this
    · intro G hG pkgInfo hpi hne hdot hven file hfile hf o ho hm huniq
      exact g5 G hG pkgInfo hpi
        ((inScope_iff p pkgInfo).mpr ⟨fun e => hne (Option.some.inj e), hdot, hven⟩)
        file hfile hf o ho hm huniq

/-- C9 (amended), on the fixture. With the in-package test file that calls
`OnlyTestExportedFunc` and the importer of scenario 1, `OnlyTestExportedFunc` is
returned; with the external test package `project_test`, whose file contains
`project.OnlyTestExportedFunc`, it is not, while `UnusedExportedFunc` is. -/
theorem findUnused_ignores_own_files_witness :
    (∃ res, findUnused MapOrder.inOrder ownTestProgram
        [objUsedExportedConst, objOnlyTestExportedFunc] = some res ∧
      objOnlyTestExportedFunc ∈ res) ∧
    (∃ res, findUnused MapOrder.inOrder externalTestProgram
        [objOnlyTestExportedFunc, objUnusedExportedFunc] = some res ∧
      objUnusedExportedFunc ∈ res ∧ objOnlyTestExportedFunc ∉ res) := by
  constructor
  · obtain ⟨res, h1, h2, _⟩ :=
      findUnused_ignores_own_files MapOrder.inOrder ownTestProgram
        [objUsedExportedConst, objOnlyTestExportedFunc] objUsedExportedConst projectPkg rfl rfl
    exact ⟨res, h1, h2 objOnlyTestExportedFunc (by decide) (by decide)⟩
  · obtain ⟨res, h1, h2, h3⟩ :=
      findUnused_ignores_own_files MapOrder.inOrder externalTestProgram
        [objOnlyTestExportedFunc, objUnusedExportedFunc] objOnlyTestExportedFunc projectPkg
        rfl rfl
    refine ⟨res, h1, h2 objUnusedExportedFunc (by decide) (by decide), ?_⟩
    exact h3 objOnlyTestExportedFunc (by decide) projectTestInfo (by simp [externalTestProgram])
      (by decide) (by decide) (by decide) valuesTestFile (List.mem_singleton.mpr rfl) rfl
      objOnlyTestExportedFunc (by decide) (by decide) (by decide)

end CheckExport
